import Mathlib

/-!
# sqlproxy: MySQL to Oracle/DM statement conversion

A shallow embedding of `sqlparser/to_oracle.go` and `sqlparser/ast_oracle.go`.

* Go slices are lists; a `nil` slice and an empty slice are both `[]` unless the
  code distinguishes them (`OnDup`), in which case an `Option` is used.
* `*SQLVal` nodes are heap cells: an expression holds the address (`Ref`) of its
  cell and the cells live in a `Heap`.  The converter stores the same `*SQLVal`
  pointer in several places of a `Merge` and later overwrites the cells in place,
  so pointer identity is part of the behaviour.
* A run-time panic (index out of range, failed type assertion, nil dereference)
  is `Except.error`; a normal return is `Except.ok`.
* Go maps that are only looked up are functions; a map that is iterated
  (`tableUniqueIndexs[table]`) is an association list in an arbitrary order.
-/

namespace Sqlparser

/-! ## AST -/

/-- Modelled from the spec: the parser's identifier type `ColIdent` (ast.go is not
part of the sources); only its text `val` is used by the converter. -/
abbrev ColIdent := String

/-- Modelled from the spec: the parser's identifier type `TableIdent` (ast.go is not
part of the sources); only its text `v` is used by the converter. -/
abbrev TableIdent := String

/-- Address of a `*SQLVal` cell. -/
abbrev Ref := Nat

/-- Modelled from the spec: the `ValType` tag of a scalar value node (ast.go is not
part of the sources). `ValArg` is a bind-variable placeholder such as `:v1`. -/
inductive ValType where
  | StrVal
  | IntVal
  | FloatVal
  | HexNum
  | HexVal
  | ValArg
  | BitVal
deriving DecidableEq, Repr

/-- Modelled from the spec: the scalar value node `SQLVal` (ast.go is not part of
the sources): a type tag and the textual value. -/
structure SQLVal where
  Typ : ValType
  Val : String
deriving DecidableEq, Repr

/-- The `*SQLVal` cells of one statement. -/
abbrev Heap := Ref → SQLVal

/-- Overwrite of `n.Val` through a pointer `n`. -/
def Heap.setVal (h : Heap) (p : Ref) (v : String) : Heap :=
  fun q => if q = p then { h p with Val := v } else h q

/-- Modelled from the spec: `TableName` (ast.go is not part of the sources). -/
structure TableName where
  Name : TableIdent
  Qualifier : TableIdent
deriving DecidableEq, Repr

/-- Modelled from the spec: `ColName` (ast.go is not part of the sources). -/
structure ColName where
  Name : ColIdent
  Qualifier : TableName
deriving DecidableEq, Repr

/-- Modelled from the spec: the expression nodes of the parser's AST (ast.go is not
part of the sources). This is the fragment of `Expr` without subqueries;
`nilExpr` is the nil interface value, `sqlVal p` is a `*SQLVal` pointer,
`funcExpr` carries its arguments as `SelectExprs` and `valTuple` as `Exprs`. -/
inductive Expr where
  | nilExpr : Expr
  | sqlVal (p : Ref) : Expr
  | nullVal : Expr
  | boolVal (b : Bool) : Expr
  | colName (c : ColName) : Expr
  | andExpr (l r : Expr) : Expr
  | orExpr (l r : Expr) : Expr
  | notExpr (e : Expr) : Expr
  | parenExpr (e : Expr) : Expr
  | comparisonExpr (op : String) (l r : Expr) : Expr
  | binaryExpr (op : String) (l r : Expr) : Expr
  | funcExpr (name : String) (args : List Expr) : Expr
  | valTuple (es : List Expr) : Expr

/-- The nil test `e == nil` on an `Expr` interface value. -/
def Expr.isNil : Expr → Bool
  | .nilExpr => true
  | _ => false

/-- Modelled from the spec: `UpdateExpr` (ast.go is not part of the sources):
an assignment `Name = Expr`. -/
structure UpdateExpr where
  Name : ColName
  Expr : Expr

/-- Modelled from the spec: `IndexHints` (ast.go is not part of the sources). -/
structure IndexHints where
  Typ : String
  Indexes : List ColIdent
deriving DecidableEq, Repr

/-- Modelled from the spec: the table expressions of the parser's AST (ast.go is
not part of the sources), without subqueries: `AliasedTableExpr`,
`ParenTableExpr` and `JoinTableExpr` (with its `JoinCondition`). -/
inductive TableExpr where
  | aliased (Expr : TableName) (Partitions : List ColIdent) (As : TableIdent)
      (Hints : Option IndexHints) : TableExpr
  | paren (Exprs : List TableExpr) : TableExpr
  | join (LeftExpr : TableExpr) (Join : String) (RightExpr : TableExpr) (On : Expr)
      (Using : List ColIdent) : TableExpr

/-- Modelled from the spec: `Select` (ast.go is not part of the sources), reduced
to the select list, the FROM clause and the WHERE expression. -/
structure Select where
  Comments : List String
  SelectExprs : List Expr
  From : List TableExpr
  Where : Expr

/-- Modelled from the spec: `InsertRows` (ast.go is not part of the sources):
either `Values` (a list of `ValTuple` rows) or a nested `Select`. -/
inductive InsertRows where
  | values (rows : List (List Expr)) : InsertRows
  | select (s : Select) : InsertRows

/-- Modelled from the spec: `Insert` (ast.go is not part of the sources).
`OnDup` is `none` for a nil clause. -/
structure Insert where
  Action : String
  Comments : List String
  Ignore : String
  Table : TableName
  Partitions : List ColIdent
  Columns : List ColIdent
  Rows : InsertRows
  OnDup : Option (List UpdateExpr)

/-- The constant `InsertStr`. -/
def InsertStr : String := "insert"

/-- The constant `ReplaceStr`. -/
def ReplaceStr : String := "replace"

/-! ## Converter and catalog -/

/-- The `OracleConverter` catalog maps. `incrementColumns t` lists the keys of the
inner map (empty for a missing table), `tableUniqueIndexs t` lists the entries of
the inner map in the order the iteration happens to take. -/
structure OracleConverter where
  tableUniqueIndexs : String → List (String × List String)
  tableColumns : String → List String
  incrementColumns : String → List String

/-- Lines 206-215 of `convertInsertIncrement`: the positions `ns` of the
auto-increment columns and the remaining columns. -/
def splitIncrementColumns (incrementColumns : List String) (columns : List ColIdent) :
    List Nat × List ColIdent :=
  columns.enum.foldl
    (fun (acc : List Nat × List ColIdent) (ic : Nat × ColIdent) =>
      if ic.2 ∈ incrementColumns then (acc.1 ++ [ic.1], acc.2) else (acc.1, acc.2 ++ [ic.2]))
    ([], [])

/-- Lines 219-230 of `convertInsertIncrement`: the new row. The inner loop is
`for n := range ns`, so `n` runs over the indices `0 .. len(ns)-1` of `ns`. -/
def stripIncrementRow (ns : List Nat) (row : List Expr) : List Expr :=
  row.enum.foldl
    (fun (newRow : List Expr) (iv : Nat × Expr) =>
      if ns.length = 0 then newRow ++ [iv.2]
      else (List.range ns.length).foldl
        (fun (r : List Expr) (n : Nat) => if iv.1 ≠ n then r ++ [iv.2] else r) newRow)
    []

/-- The method `convertInsertIncrement`. -/
def OracleConverter.convertInsertIncrement (c : OracleConverter) (stmt : Insert) : Insert :=
  match stmt.Rows with
  | .select _ => stmt
  | .values rows =>
    let incrementColumns := c.incrementColumns stmt.Table.Name
    if incrementColumns.length = 0 then stmt
    else
      let columns :=
        if stmt.Columns.length = 0 then c.tableColumns stmt.Table.Name else stmt.Columns
      let split := splitIncrementColumns incrementColumns columns
      { stmt with
        Columns := split.2
        Rows := .values (rows.map (stripIncrementRow split.1)) }

/-! ## Tree walks

`Walk(visit, node)` calls `visit` on every node in depth-first pre-order. Each
visitor of `to_oracle.go` reacts to one node type only, so a walk is given here
by the list of the nodes of that type in visiting order. -/

mutual
/-- The `*SQLVal` nodes below an expression, in `Walk` order. -/
def Expr.sqlVals : Expr → List Ref
  | .nilExpr => []
  | .sqlVal p => [p]
  | .nullVal => []
  | .boolVal _ => []
  | .colName _ => []
  | .andExpr l r => l.sqlVals ++ r.sqlVals
  | .orExpr l r => l.sqlVals ++ r.sqlVals
  | .notExpr e => e.sqlVals
  | .parenExpr e => e.sqlVals
  | .comparisonExpr _ l r => l.sqlVals ++ r.sqlVals
  | .binaryExpr _ l r => l.sqlVals ++ r.sqlVals
  | .funcExpr _ args => Expr.sqlValsList args
  | .valTuple es => Expr.sqlValsList es
/-- The `*SQLVal` nodes below a list of expressions, in `Walk` order. -/
def Expr.sqlValsList : List Expr → List Ref
  | [] => []
  | e :: es => e.sqlVals ++ Expr.sqlValsList es
end

mutual
/-- The nodes of Go type `Exprs` below an expression, in `Walk` order: a
`ValTuple` walks its elements as one `Exprs` node. -/
def Expr.exprsNodes : Expr → List (List Expr)
  | .nilExpr => []
  | .sqlVal _ => []
  | .nullVal => []
  | .boolVal _ => []
  | .colName _ => []
  | .andExpr l r => l.exprsNodes ++ r.exprsNodes
  | .orExpr l r => l.exprsNodes ++ r.exprsNodes
  | .notExpr e => e.exprsNodes
  | .parenExpr e => e.exprsNodes
  | .comparisonExpr _ l r => l.exprsNodes ++ r.exprsNodes
  | .binaryExpr _ l r => l.exprsNodes ++ r.exprsNodes
  | .funcExpr _ args => Expr.exprsNodesList args
  | .valTuple es => es :: Expr.exprsNodesList es
/-- The nodes of Go type `Exprs` below the elements of a list, in `Walk` order. -/
def Expr.exprsNodesList : List Expr → List (List Expr)
  | [] => []
  | e :: es => e.exprsNodes ++ Expr.exprsNodesList es
end

mutual
/-- The `TableName` nodes below an expression, in `Walk` order: the walk of a
`ColName` visits its `Qualifier`. -/
def Expr.tableNames : Expr → List TableName
  | .nilExpr => []
  | .sqlVal _ => []
  | .nullVal => []
  | .boolVal _ => []
  | .colName c => [c.Qualifier]
  | .andExpr l r => l.tableNames ++ r.tableNames
  | .orExpr l r => l.tableNames ++ r.tableNames
  | .notExpr e => e.tableNames
  | .parenExpr e => e.tableNames
  | .comparisonExpr _ l r => l.tableNames ++ r.tableNames
  | .binaryExpr _ l r => l.tableNames ++ r.tableNames
  | .funcExpr _ args => Expr.tableNamesList args
  | .valTuple es => Expr.tableNamesList es
/-- The `TableName` nodes below a list of expressions, in `Walk` order. -/
def Expr.tableNamesList : List Expr → List TableName
  | [] => []
  | e :: es => e.tableNames ++ Expr.tableNamesList es
end

mutual
/-- The visitor of `setQualifierForCols` applied below an expression: every
`*ColName` gets the qualifier `t`. -/
def Expr.setQualifier : Expr → Expr
  | .nilExpr => .nilExpr
  | .sqlVal p => .sqlVal p
  | .nullVal => .nullVal
  | .boolVal b => .boolVal b
  | .colName c => .colName { c with Qualifier := { Name := "t", Qualifier := "" } }
  | .andExpr l r => .andExpr l.setQualifier r.setQualifier
  | .orExpr l r => .orExpr l.setQualifier r.setQualifier
  | .notExpr e => .notExpr e.setQualifier
  | .parenExpr e => .parenExpr e.setQualifier
  | .comparisonExpr op l r => .comparisonExpr op l.setQualifier r.setQualifier
  | .binaryExpr op l r => .binaryExpr op l.setQualifier r.setQualifier
  | .funcExpr name args => .funcExpr name (Expr.setQualifierList args)
  | .valTuple es => .valTuple (Expr.setQualifierList es)
/-- The visitor of `setQualifierForCols` applied below a list of expressions. -/
def Expr.setQualifierList : List Expr → List Expr
  | [] => []
  | e :: es => e.setQualifier :: Expr.setQualifierList es
end

mutual
/-- The `*SQLVal` nodes below a table expression, in `Walk` order. -/
def TableExpr.sqlVals : TableExpr → List Ref
  | .aliased _ _ _ _ => []
  | .paren es => TableExpr.sqlValsList es
  | .join l _ r c _ => l.sqlVals ++ r.sqlVals ++ c.sqlVals
/-- The `*SQLVal` nodes below a list of table expressions, in `Walk` order. -/
def TableExpr.sqlValsList : List TableExpr → List Ref
  | [] => []
  | e :: es => e.sqlVals ++ TableExpr.sqlValsList es
end

mutual
/-- The nodes of Go type `Exprs` below a table expression, in `Walk` order. -/
def TableExpr.exprsNodes : TableExpr → List (List Expr)
  | .aliased _ _ _ _ => []
  | .paren es => TableExpr.exprsNodesList es
  | .join l _ r c _ => l.exprsNodes ++ r.exprsNodes ++ c.exprsNodes
/-- The nodes of Go type `Exprs` below a list of table expressions. -/
def TableExpr.exprsNodesList : List TableExpr → List (List Expr)
  | [] => []
  | e :: es => e.exprsNodes ++ TableExpr.exprsNodesList es
end

mutual
/-- The `TableName` nodes below a table expression, in `Walk` order. -/
def TableExpr.tableNames : TableExpr → List TableName
  | .aliased t _ _ _ => [t]
  | .paren es => TableExpr.tableNamesList es
  | .join l _ r c _ => l.tableNames ++ r.tableNames ++ c.tableNames
/-- The `TableName` nodes below a list of table expressions, in `Walk` order. -/
def TableExpr.tableNamesList : List TableExpr → List TableName
  | [] => []
  | e :: es => e.tableNames ++ TableExpr.tableNamesList es
end

/-- The `*SQLVal` nodes of a `Select`, in `Walk` order. -/
def Select.sqlVals (s : Select) : List Ref :=
  Expr.sqlValsList s.SelectExprs ++ TableExpr.sqlValsList s.From ++ s.Where.sqlVals

/-- The nodes of Go type `Exprs` of a `Select`, in `Walk` order. -/
def Select.exprsNodes (s : Select) : List (List Expr) :=
  Expr.exprsNodesList s.SelectExprs ++ TableExpr.exprsNodesList s.From ++ s.Where.exprsNodes

/-- The `*SQLVal` nodes of `Insert.Rows`, in `Walk` order. -/
def InsertRows.sqlVals : InsertRows → List Ref
  | .values rows => (rows.map Expr.sqlValsList).flatten
  | .select s => s.sqlVals

/-- The nodes of Go type `Exprs` of `Insert.Rows`, in `Walk` order: each row of a
`Values` is walked as one `Exprs` node, followed by the nodes below its elements. -/
def InsertRows.exprsNodes : InsertRows → List (List Expr)
  | .values rows => (rows.map (fun row => row :: Expr.exprsNodesList row)).flatten
  | .select s => s.exprsNodes

/-- The `*SQLVal` nodes of a list of assignments, in `Walk` order. -/
def UpdateExpr.sqlValsList (es : List UpdateExpr) : List Ref :=
  (es.map (fun e => e.Expr.sqlVals)).flatten

/-! ## Merge -/

/-- The type `VirtualTableExpr`; `Rows` is a `SelectValues`, a list of
`SelectTuple`s. -/
structure VirtualTableExpr where
  Rows : List (List Expr)
  TableName : TableIdent
  Columns : List ColIdent

/-- The type `MergeTableExpr`; `Condition` is the `On` field of the
`JoinCondition`. -/
structure MergeTableExpr where
  LeftExpr : TableExpr
  RightExpr : VirtualTableExpr
  Condition : Expr

/-- The type `UnmatchedExpr`. -/
structure UnmatchedExpr where
  Columns : List ColIdent
  Values : List ColName

/-- The type `Merge`. -/
structure Merge where
  Comments : List String
  Table : MergeTableExpr
  Matched : List UpdateExpr
  Unmatched : UnmatchedExpr

/-- The function `StringIn` of the parser package: membership in a list. -/
def StringIn (s : String) (values : List String) : Bool :=
  values.contains s

/-- The function `buildValuesExpr`. -/
def buildValuesExpr (stmt : Insert) : List ColName :=
  stmt.Columns.map fun column =>
    { Name := column, Qualifier := { Name := "s", Qualifier := "" } }

/-- Lines 281-288 of `getUniqueConditionColumns`: the counter `i` after the two
nested loops. -/
def countIndexMatches (columns : List ColIdent) (iii : List String) : Nat :=
  columns.foldl
    (fun (i : Nat) (column : ColIdent) =>
      iii.foldl (fun (i : Nat) (v : String) => if v = column then i + 1 else i) i)
    0

/-- The method `getUniqueConditionColumns`. -/
def OracleConverter.getUniqueConditionColumns (c : OracleConverter) (stmt : Insert) :
    List (List String) :=
  (c.tableUniqueIndexs stmt.Table.Name).foldl
    (fun (condcols : List (List String)) (entry : String × List String) =>
      if countIndexMatches stmt.Columns entry.2 = entry.2.length then condcols ++ [entry.2]
      else condcols)
    []

/-- The function `getInsertValues`. -/
def getInsertValues (stmt : Insert) : List Ref :=
  stmt.Rows.sqlVals

/-- The function `buildMatchedExpr`; `vals[i]` panics when `i` is out of range. -/
def buildMatchedExpr (stmt : Insert) (condcols : List (List String)) :
    Except String (List UpdateExpr) :=
  match stmt.OnDup with
  | some onDup => .ok onDup
  | none =>
    let vals := getInsertValues stmt
    let allCondcol := condcols.foldl (fun (all : List String) condcol => all ++ condcol) []
    stmt.Columns.enum.foldlM
      (fun (exprs : List UpdateExpr) (ic : Nat × ColIdent) =>
        if !StringIn ic.2 allCondcol then
          match vals.get? ic.1 with
          | some p =>
            .ok (exprs ++ [{ Name := { Name := ic.2, Qualifier := { Name := "", Qualifier := "" } },
                             Expr := .sqlVal p }])
          | none => .error "index out of range"
        else .ok exprs)
      []

/-- The function `setQualifierForCols` on a `MatchedExpr`: the walk visits the
`Name` of every assignment and the `*ColName` nodes of its expression. -/
def setQualifierForCols (node : List UpdateExpr) : List UpdateExpr :=
  node.map fun e =>
    { Name := { e.Name with Qualifier := { Name := "t", Qualifier := "" } },
      Expr := e.Expr.setQualifier }

/-- The function `buildSelectValues`. -/
def buildSelectValues (stmt : Insert) : List (List Expr) :=
  stmt.Rows.exprsNodes

/-- The function `buildRightTableExpr`. -/
def buildRightTableExpr (stmt : Insert) : VirtualTableExpr :=
  { TableName := "s", Columns := stmt.Columns, Rows := buildSelectValues stmt }

/-- The constant `EqualStr`. -/
def EqualStr : String := "="

/-- Lines 398-417 of `buildJoinConditions`: the comparisons `t.c = s.c` of one
condition tuple. -/
def buildComparisons (stmt : Insert) (condcol : List String) : List Expr :=
  stmt.Columns.foldl
    (fun (expr : List Expr) (column : ColIdent) =>
      if StringIn column condcol then
        expr ++ [.comparisonExpr EqualStr
          (.colName { Name := column, Qualifier := { Name := "t", Qualifier := "" } })
          (.colName { Name := column, Qualifier := { Name := "s", Qualifier := "" } })]
      else expr)
    []

/-- Lines 426-433 of `buildJoinConditions`: the conjunction of one tuple, nil for
an empty list of comparisons. -/
def andOfComparisons (expr : List Expr) : Expr :=
  expr.enum.foldl
    (fun (condition : Expr) (jc : Nat × Expr) =>
      if jc.1 = 0 then jc.2 else .andExpr condition jc.2)
    .nilExpr

/-- The function `buildJoinConditions`; the result is nil (`nilExpr`) when there
is no condition tuple or when the only tuple has no comparison. -/
def buildJoinConditions (stmt : Insert) (condcols : List (List String)) : Expr :=
  let exprs := condcols.map (buildComparisons stmt)
  if exprs.length = 0 then .nilExpr
  else
    exprs.enum.foldl
      (fun (conditions : Expr) (ie : Nat × List Expr) =>
        if ie.1 = 0 then andOfComparisons ie.2
        else .orExpr conditions (andOfComparisons ie.2))
      .nilExpr

/-- The method `buildMergeTableExpr`; `none` is the nil pointer. -/
def OracleConverter.buildMergeTableExpr (_c : OracleConverter) (stmt : Insert)
    (condcols : List (List String)) : Option MergeTableExpr :=
  let onCondition := buildJoinConditions stmt condcols
  if onCondition.isNil then none
  else
    some
      { LeftExpr := .aliased stmt.Table [] "t" none
        RightExpr := buildRightTableExpr stmt
        Condition := onCondition }

/-! ## Statements -/

/-- Modelled from the spec: `Update` (ast.go is not part of the sources), reduced
to the table expressions, the assignments and the WHERE expression. -/
structure Update where
  Comments : List String
  TableExprs : List TableExpr
  Exprs : List UpdateExpr
  Where : Expr

/-- Modelled from the spec: `Delete` (ast.go is not part of the sources), reduced
to the table expressions and the WHERE expression. -/
structure Delete where
  Comments : List String
  TableExprs : List TableExpr
  Where : Expr

/-- Modelled from the spec: `ColumnKeyOption` (ast.go is not part of the
sources). -/
inductive ColumnKeyOption where
  | colKeyNone
  | colKeyPrimary
  | colKeySpatialKey
  | colKeyUnique
  | colKeyUniqueKey
  | colKey
deriving DecidableEq, Repr

/-- Modelled from the spec: `ColumnType` (ast.go is not part of the sources), with
the fields `FromCreateDDL` copies. An absent `*SQLVal` is `none`. -/
structure ColumnType where
  Typ : String
  NotNull : Bool
  Autoincrement : Bool
  Default : Option SQLVal
  OnUpdate : Option SQLVal
  Comment : Option SQLVal
  Length : Option SQLVal
  Unsigned : Bool
  Zerofill : Bool
  Scale : Option SQLVal
  Charset : String
  Collate : String
  EnumValues : List String
  KeyOpt : ColumnKeyOption
deriving DecidableEq, Repr

/-- Modelled from the spec: `ColumnDefinition` (ast.go is not part of the
sources). -/
structure ColumnDefinition where
  Name : ColIdent
  Typ : ColumnType
deriving DecidableEq, Repr

/-- Modelled from the spec: `IndexDefinition` (ast.go is not part of the sources);
the converter only moves it from one table spec to the other. -/
structure IndexDefinition where
  Info : String
  Columns : List ColIdent
deriving DecidableEq, Repr

/-- Modelled from the spec: `TableSpec` (ast.go is not part of the sources). -/
structure TableSpec where
  Columns : List ColumnDefinition
  Indexes : List IndexDefinition
  Options : String
deriving DecidableEq, Repr

/-- Modelled from the spec: `DDL` (ast.go is not part of the sources). The
partition and vindex parts, which the converter only copies, are kept as their
text; `TableSpec` is `none` for a nil pointer. -/
structure DDL where
  Action : String
  Table : TableName
  NewName : TableName
  IfExists : Bool
  TableSpec : Option TableSpec
  PartitionSpec : Option String
  VindexSpec : Option String
  VindexCols : List ColIdent
deriving DecidableEq, Repr

/-- Modelled from the spec: `DBDDL` (ast.go is not part of the sources). -/
structure DBDDL where
  Action : String
  DBName : String
  IfExists : Bool
  Collate : String
  Charset : String
deriving DecidableEq, Repr

/-- Modelled from the spec: `Use` (ast.go is not part of the sources). -/
structure Use where
  DBName : TableIdent
deriving DecidableEq, Repr

/-- The type `DmColumnType`. -/
structure DmColumnType where
  Typ : String
  NotNull : Bool
  Autoincrement : Bool
  Default : Option SQLVal
  OnUpdate : Option SQLVal
  Comment : Option SQLVal
  Length : Option SQLVal
  Unsigned : Bool
  Zerofill : Bool
  Scale : Option SQLVal
  Charset : String
  Collate : String
  EnumValues : List String
  KeyOpt : ColumnKeyOption
  AutoIncrement : String
deriving DecidableEq, Repr

/-- The type `DmColumnDefinition`. -/
structure DmColumnDefinition where
  Name : ColIdent
  Typ : DmColumnType
deriving DecidableEq, Repr

/-- The type `DmTableSpec`. -/
structure DmTableSpec where
  Columns : List DmColumnDefinition
  Indexes : List IndexDefinition
  Options : String
deriving DecidableEq, Repr

/-- The type `DmDDL`. -/
structure DmDDL where
  Action : String
  Table : TableName
  NewName : TableName
  IfExists : Bool
  TableSpec : Option DmTableSpec
  PartitionSpec : Option String
  VindexSpec : Option String
  VindexCols : List ColIdent
deriving DecidableEq, Repr

/-- The type `DMDBDDL`. -/
structure DMDBDDL where
  Action : String
  DBName : String
  IfExists : Bool
  Collate : String
  Charset : String
deriving DecidableEq, Repr

/-- The type `DmUse`. -/
structure DmUse where
  DBName : TableIdent
deriving DecidableEq, Repr

/-- The `Statement` interface: the parser's statement kinds (`other` stands for
every kind the converter has no case for, such as `Set` or `Show`, kept as its
text) and the target-only kinds of `ast_oracle.go`. -/
inductive Statement where
  | insert (s : Insert) : Statement
  | update (s : Update) : Statement
  | select (s : Select) : Statement
  | delete (s : Delete) : Statement
  | ddl (s : DDL) : Statement
  | dbddl (s : DBDDL) : Statement
  | use (s : Use) : Statement
  | other (text : String) : Statement
  | merge (s : Merge) : Statement
  | dmDDL (s : DmDDL) : Statement
  | dmdbddl (s : DMDBDDL) : Statement
  | dmUse (s : DmUse) : Statement

/-- The constant `CreateStr`. -/
def CreateStr : String := "create"

/-- The constant `AlterStr`. -/
def AlterStr : String := "alter"

/-- The constant `DropStr`. -/
def DropStr : String := "drop"

/-! ## Statement rewriters -/

/-- The method `convertInsert`. -/
def OracleConverter.convertInsert (c : OracleConverter) (stmt : Insert) :
    Except String Statement :=
  let stmt := c.convertInsertIncrement stmt
  if stmt.Action = InsertStr ∧ stmt.OnDup.isNone then .ok (.insert stmt)
  else if stmt.Columns.length = 0 then .ok (.insert stmt)
  else
    let condcols := c.getUniqueConditionColumns stmt
    if condcols.length = 0 then .ok (.insert { stmt with OnDup := none })
    else
      let tableExpr := c.buildMergeTableExpr stmt condcols
      match buildMatchedExpr stmt condcols with
      | .error e => .error e
      | .ok matchedExpr =>
        match tableExpr with
        | none => .ok (.insert stmt)
        | some tableExpr =>
          if matchedExpr.length = 0 then .ok (.insert stmt)
          else
            .ok (.merge
              { Comments := stmt.Comments
                Table := tableExpr
                Matched := setQualifierForCols matchedExpr
                Unmatched := { Columns := stmt.Columns, Values := buildValuesExpr stmt } })

/-- The function `getTableName`: the visitor overwrites `tableName` at every
`TableName` node of the walk (returning `false` only skips the node's subtree). -/
def getTableName (stmt : Update) : String :=
  (TableExpr.tableNamesList stmt.TableExprs).foldl
    (fun (_ : String) (table : TableName) => table.Name) ""

/-- The method `convertUpdateIncrement`. -/
def OracleConverter.convertUpdateIncrement (c : OracleConverter) (stmt : Update) : Update :=
  if stmt.TableExprs.length = 0 then stmt
  else
    let incrementColumns := c.incrementColumns (getTableName stmt)
    if incrementColumns.length = 0 then stmt
    else
      { stmt with
        Exprs := stmt.Exprs.foldl
          (fun (newExprs : List UpdateExpr) (expr : UpdateExpr) =>
            if expr.Name.Name ∈ incrementColumns then newExprs else newExprs ++ [expr])
          [] }

/-- The method `convertSelect`: only the `*AliasedTableExpr` elements of
`stmt.From` itself are inspected. -/
def OracleConverter.convertSelect (_c : OracleConverter) (stmt : Select) : Select :=
  { stmt with
    From := stmt.From.map fun expr =>
      match expr with
      | .aliased e ps a (some hints) =>
        if hints.Typ = "force " then .aliased e ps a none else .aliased e ps a (some hints)
      | expr => expr }

/-- The longest run of decimal digits at the head of a text. -/
def leadingDigits (cs : List Char) : List Char :=
  cs.takeWhile Char.isDigit

/-- The call `regexp.MustCompile("auto_increment=\\d+").FindString`: the leftmost
match, with as many digits as follow, or the empty text. -/
def findAutoIncrement : List Char → List Char
  | [] => []
  | c :: cs =>
    if "auto_increment=".toList.isPrefixOf (c :: cs)
        ∧ leadingDigits ((c :: cs).drop 15) ≠ [] then
      "auto_increment=".toList ++ leadingDigits ((c :: cs).drop 15)
    else findAutoIncrement cs

/-- Lines 213-217 of `FromCreateDDL`: the seed text kept from the table options. -/
def autoIncrementSeed (options : String) : String :=
  let m := findAutoIncrement options.toList
  if m.length ≥ 15 then String.mk (m.drop 15) else String.mk m

/-- The method `FromCreateDDL`; `ddl.TableSpec.Options` on a nil `TableSpec` is a
nil dereference. -/
def DmDDL.FromCreateDDL (ddl : DDL) : Except String DmDDL :=
  match ddl.TableSpec with
  | none => .error "nil pointer dereference"
  | some spec =>
    let m := autoIncrementSeed spec.Options
    .ok
      { Action := ddl.Action
        Table := ddl.Table
        NewName := ddl.NewName
        IfExists := ddl.IfExists
        PartitionSpec := ddl.PartitionSpec
        VindexSpec := ddl.VindexSpec
        VindexCols := ddl.VindexCols
        TableSpec := some
          { Columns := spec.Columns.map fun col =>
              { Name := col.Name
                Typ :=
                  { AutoIncrement := m
                    Typ := col.Typ.Typ
                    NotNull := col.Typ.NotNull
                    Default := col.Typ.Default
                    Autoincrement := col.Typ.Autoincrement
                    Charset := col.Typ.Charset
                    OnUpdate := col.Typ.OnUpdate
                    Length := col.Typ.Length
                    Unsigned := col.Typ.Unsigned
                    Zerofill := col.Typ.Zerofill
                    Scale := col.Typ.Scale
                    Collate := col.Typ.Collate
                    EnumValues := col.Typ.EnumValues
                    KeyOpt := col.Typ.KeyOpt
                    Comment := col.Typ.Comment } }
            Indexes := spec.Indexes
            Options := "" } }

/-- The method `convertDDL`; `none` is the nil statement. -/
def OracleConverter.convertDDL (_c : OracleConverter) (stmt : DDL) :
    Except String (Option Statement) :=
  if stmt.Action = CreateStr then
    match DmDDL.FromCreateDDL stmt with
    | .error e => .error e
    | .ok newDmDdl => .ok (some (.dmDDL newDmDdl))
  else if stmt.Action = AlterStr then .ok none
  else .ok none

/-- The method `covertUse`. No caller exists in the package. -/
def OracleConverter.covertUse (_c : OracleConverter) (stmt : Use) : Statement :=
  .dmUse { DBName := stmt.DBName }

/-- The method `convertDBDDL`; `none` is the nil statement. -/
def OracleConverter.convertDBDDL (_c : OracleConverter) (stmt : DBDDL) : Option Statement :=
  if stmt.Action = CreateStr then
    some (.dmdbddl
      { Action := stmt.Action, DBName := stmt.DBName, IfExists := stmt.IfExists,
        Charset := stmt.Charset, Collate := stmt.Collate })
  else if stmt.Action = DropStr then
    some (.dmdbddl
      { Action := stmt.Action, DBName := stmt.DBName, IfExists := stmt.IfExists,
        Charset := stmt.Charset, Collate := stmt.Collate })
  else none

/-! ## Go library functions on text -/

/-- The function `strings.Replace(s, old, new, -1)` for a non-empty `old`, on the
characters still to read; `skip` counts the characters of a match already
replaced. -/
def replaceChars (old new : List Char) : Nat → List Char → List Char
  | _, [] => []
  | skip + 1, _ :: cs => replaceChars old new skip cs
  | 0, c :: cs =>
    if old.isPrefixOf (c :: cs) then new ++ replaceChars old new (old.length - 1) cs
    else c :: replaceChars old new 0 cs

/-- The function `strings.ReplaceAll` for a non-empty `old`. -/
def ReplaceAll (s old new : String) : String :=
  String.mk (replaceChars old.toList new.toList 0 s.toList)

/-- The value of a run of decimal digits. -/
def digitsValue (ds : List Char) : Nat :=
  ds.foldl (fun (n : Nat) (ch : Char) => n * 10 + (ch.toNat - 48)) 0

/-- The function `strconv.Atoi` with its error dropped (`i, _ := strconv.Atoi(s)`):
on a syntax error 0, unless the digits read before the bad character already
exceed 64 bits, where the range error comes first; on a range error the nearest
64-bit bound. -/
def Atoi (s : String) : Int :=
  let body : Bool × List Char :=
    match s.toList with
    | '-' :: ds => (true, ds)
    | '+' :: ds => (false, ds)
    | ds => (false, ds)
  if body.2 = [] ∨ ¬ body.2.all Char.isDigit then
    if digitsValue (body.2.takeWhile Char.isDigit) ≥ 2 ^ 64 then
      (if body.1 then -(2 ^ 63) else 2 ^ 63 - 1)
    else 0
  else
    let n : Int := digitsValue body.2
    if body.1 then (if n > 2 ^ 63 then -(2 ^ 63) else -n)
    else (if n ≥ 2 ^ 63 then 2 ^ 63 - 1 else n)

/-- The verb `%d` of `fmt.Sprintf` on a non-negative integer. -/
def Itoa (n : Nat) : String :=
  String.mk (Nat.toDigits 10 n)

/-- The function `strings.Contains` on characters. -/
def containsChars (sub : List Char) : List Char → Bool
  | [] => sub.isEmpty
  | c :: cs => sub.isPrefixOf (c :: cs) || containsChars sub cs

/-- The function `strings.Contains`. -/
def Contains (s sub : String) : Bool :=
  containsChars sub.toList s.toList

/-- The function `strings.Split(s, "\n")` on characters. -/
def splitLines : List Char → List (List Char)
  | [] => [[]]
  | c :: cs =>
    if c = '\n' then [] :: splitLines cs
    else
      match splitLines cs with
      | [] => [[c]]
      | l :: ls => (c :: l) :: ls

/-- The function `strings.TrimRight(s, ",")`. -/
def trimRightCommas (s : String) : String :=
  String.mk (s.toList.reverse.dropWhile (fun ch => ch = ',')).reverse

/-! ## Parameter re-binding -/

/-- The `*SQLVal` nodes of a statement in `Walk` order, from the `walkSubtree`
methods: `Insert` walks `Comments, Table, Columns, Rows, OnDup`; `Merge` walks
`Comments, Table, Matched, Unmatched`; `MergeTableExpr` walks
`LeftExpr, RightExpr, Condition`; `VirtualTableExpr` walks
`Rows, TableName, Columns`. A node reachable twice is listed twice. -/
def Statement.sqlVals : Statement → List Ref
  | .insert s =>
    s.Rows.sqlVals ++ (match s.OnDup with
      | some onDup => UpdateExpr.sqlValsList onDup
      | none => [])
  | .merge s =>
    (s.Table.LeftExpr.sqlVals ++ (s.Table.RightExpr.Rows.map Expr.sqlValsList).flatten
      ++ s.Table.Condition.sqlVals) ++ UpdateExpr.sqlValsList s.Matched
  | .update s => TableExpr.sqlValsList s.TableExprs ++ UpdateExpr.sqlValsList s.Exprs
      ++ s.Where.sqlVals
  | .select s => s.sqlVals
  | .delete s => TableExpr.sqlValsList s.TableExprs ++ s.Where.sqlVals
  | .ddl _ => []
  | .dbddl _ => []
  | .use _ => []
  | .other _ => []
  | .dmDDL _ => []
  | .dmdbddl _ => []
  | .dmUse _ => []

/-- The method `Format` of `VirtualTableExpr` (`"(%v) %v %v"` of
`Rows, TableName, Columns`; `SelectValues` prints its tuples in order): the
`*SQLVal` nodes in the order they are printed. -/
def VirtualTableExpr.renderVals (node : VirtualTableExpr) : List Ref :=
  (node.Rows.map Expr.sqlValsList).flatten

/-- The method `Format` of `MergeTableExpr` (`"%v using %v%v"` of
`LeftExpr, RightExpr, Condition`): the `*SQLVal` nodes in the order they are
printed. -/
def MergeTableExpr.renderVals (node : MergeTableExpr) : List Ref :=
  node.LeftExpr.sqlVals ++ node.RightExpr.renderVals ++ node.Condition.sqlVals

/-- The method `Format` of `Merge` (`"merge %vinto %v %v %v"` of
`Comments, Table, Matched, Unmatched`): the `*SQLVal` nodes in the order they
are printed; `UnmatchedExpr` prints column names only. -/
def Merge.renderVals (node : Merge) : List Ref :=
  node.Table.renderVals ++ UpdateExpr.sqlValsList node.Matched

/-- Modelled from the spec: the method `Format` of `Insert` (ast.go is not part of
the sources) prints `Action, Comments, Ignore, Table, Partitions, Columns, Rows,
OnDup` in this order; the `*SQLVal` nodes in the order they are printed. -/
def Insert.renderVals (node : Insert) : List Ref :=
  node.Rows.sqlVals ++ (match node.OnDup with
    | some onDup => UpdateExpr.sqlValsList onDup
    | none => [])

/-- The `*SQLVal` nodes of a statement in the order its `Format` prints them
(for `Update`, `Select` and `Delete` the clauses are printed in the order they
are walked). -/
def Statement.renderVals : Statement → List Ref
  | .insert s => s.renderVals
  | .merge s => s.renderVals
  | stmt => stmt.sqlVals

/-- The test of the type switch of `needConvertArgs`: `*Merge` or `*Insert`. -/
def Statement.isInsertOrMerge : Statement → Bool
  | .insert _ => true
  | .merge _ => true
  | _ => false

/-- The method `needConvertArgs`. -/
def needConvertArgs {α : Type} (stmt : Option Statement) (args : List α) : Bool :=
  if args.length = 0 then false
  else
    match stmt with
    | some (.merge _) => true
    | some (.insert _) => true
    | _ => false

/-- The variables captured by the visitor of `convertStmtArgs`, with the cells the
visitor writes to. -/
structure ArgState (α : Type) where
  heap : Heap
  newArgs : List α
  id : Nat

/-- The visitor of `convertStmtArgs` at a `*SQLVal` node `n`; `args[i-1]` panics
when `i-1` is not an index of `args`. -/
def visitSQLVal {α : Type} (args : List α) (st : ArgState α) (n : Ref) :
    Except String (ArgState α) :=
  let v := (st.heap n).Val
  let i := Atoi (ReplaceAll v ":v" "")
  let heap := st.heap.setVal n (":v" ++ Itoa st.id)
  if 1 ≤ i then
    match args.get? (i - 1).toNat with
    | some a => .ok { heap := heap, newArgs := st.newArgs ++ [a], id := st.id + 1 }
    | none => .error "index out of range"
  else .error "index out of range"

/-- The method `convertStmtArgs`: the statement keeps its shape, its cells are
overwritten. -/
def convertStmtArgs {α : Type} (stmt : Statement) (heap : Heap) (args : List α) :
    Except String (Heap × List α) :=
  match stmt.sqlVals.foldlM (visitSQLVal args) { heap := heap, newArgs := [], id := 1 } with
  | .error e => .error e
  | .ok st => .ok (st.heap, st.newArgs)

/-- The method `convertStmt`; the statement is `none` for the nil statement. -/
def OracleConverter.convertStmt {α : Type} (c : OracleConverter) (stmt : Statement)
    (heap : Heap) (args : List α) : Except String (Option Statement × Heap × List α) :=
  let newStmt : Except String (Option Statement) :=
    match stmt with
    | .insert s =>
      match c.convertInsert s with
      | .error e => .error e
      | .ok r => .ok (some r)
    | .update s => .ok (some (.update (c.convertUpdateIncrement s)))
    | .select s => .ok (some (.select (c.convertSelect s)))
    | .ddl s => c.convertDDL s
    | .dbddl s => .ok (c.convertDBDDL s)
    | stmt => .ok (some stmt)
  match newStmt with
  | .error e => .error e
  | .ok none => .ok (none, heap, args)
  | .ok (some newStmt) =>
    if needConvertArgs (some newStmt) args then
      match convertStmtArgs newStmt heap args with
      | .error e => .error e
      | .ok r => .ok (some newStmt, r.1, r.2)
    else .ok (some newStmt, heap, args)

/-! ## The converter facade -/

/-- Modelled from the spec: the statement kinds returned by `Preview` (analyzer.go
is not part of the sources). -/
inductive StmtType where
  | StmtSelect
  | StmtStream
  | StmtInsert
  | StmtReplace
  | StmtUpdate
  | StmtDelete
  | StmtDDL
  | StmtBegin
  | StmtCommit
  | StmtRollback
  | StmtSet
  | StmtShow
  | StmtUse
  | StmtOther
  | StmtUnknown
  | StmtComment
deriving DecidableEq, Repr

/-- Modelled from the spec: the token identifiers of the parser package that
`DmColumnType.Format` looks up in the table `keywordStrings` (token.go is not part
of the sources). -/
inductive Token where
  | NOT
  | NULL
  | DEFAULT
  | COMMENT_KEYWORD
  | KEY
deriving DecidableEq, Repr

/-- The parts of the parser package and of the Go library that the converter
calls and that are not part of the sources: the statement classifier, the
parser (which returns the statement with its `*SQLVal` cells), the comment
stripper, the Unicode predicates, the printing of identifiers (`formatID`), the
printing of the statement kinds that have no `Format` in `ast_oracle.go`, the
table `keywordStrings` and the quoting of a string literal (`EncodeSQL`). -/
structure Externals where
  Preview : String → StmtType
  Parse : String → Except String (Statement × Heap)
  StripLeadingComments : String → String
  IsSpace : Char → Bool
  IsLetter : Char → Bool
  ToLower : String → String
  formatID : String → String
  FormatNode : Heap → Statement → String
  keywordStrings : Token → String
  EncodeSQL : String → String

/-- The function `supportConvert`. -/
def supportConvert (sqlType : StmtType) : Bool :=
  match sqlType with
  | .StmtDDL => true
  | .StmtInsert => true
  | .StmtReplace => true
  | .StmtDelete => true
  | .StmtSelect => true
  | .StmtUpdate => true
  | .StmtUse => true
  | _ => false

/-- Lines 500-508 of `SplitFk`: the lowered first word of the statement. -/
def loweredFirstWord (x : Externals) (sql : String) : String :=
  let trimmed := (x.StripLeadingComments sql).toList
  let firstWord :=
    if trimmed.any x.IsSpace then trimmed.takeWhile (fun r => !x.IsSpace r) else trimmed
  let firstWord := firstWord.dropWhile (fun r => !x.IsLetter r)
  x.ToLower (String.mk firstWord)

/-- The test of line 515 of `SplitFk` on one line. -/
def isFkLine (v : String) : Bool :=
  Contains v "CONSTRAINT" || Contains v "FOREIGN KEY" || Contains v "constraint"
    || Contains v "foreign key"

/-- The slice `lists` of `SplitFk`: its backing array `arr`, whose length is the
capacity, and its length `len`; `fks` is the list of retained lines. -/
structure SplitState where
  arr : List String
  len : Nat
  fks : List String
deriving DecidableEq, Repr

/-- One iteration of the loop of `SplitFk` (lines 514-519). The `range` clause
reads its operand once, so `v` is element `i` of the backing array as it is now;
`append(lists[:i], lists[i+1:]...)` moves the elements `i+1 .. len-1` one place
down in the same array, and `lists[i+1:]` panics when `i+1 > len(lists)`. -/
def splitFkStep (st : SplitState) (i : Nat) : Except String SplitState :=
  let v := st.arr.getD i ""
  if isFkLine v then
    if i + 1 ≤ st.len then
      .ok
        { arr := st.arr.take i ++ (st.arr.take st.len).drop (i + 1) ++ st.arr.drop (st.len - 1)
          len := st.len - 1
          fks := st.fks ++ [v] }
    else .error "slice bounds out of range"
  else .ok st

/-- Lines 512-524 of `SplitFk`: the statement is a CREATE. -/
def splitFkCreate (sql : String) : Except String (String × List String) :=
  let lists := (splitLines sql.toList).map String.mk
  match (List.range lists.length).foldlM splitFkStep { arr := lists, len := lists.length, fks := [] } with
  | .error e => .error e
  | .ok st =>
    if st.len < 2 then .error "index out of range"
    else
      let lists := (st.arr.take st.len).set (st.len - 2) (trimRightCommas (st.arr.getD (st.len - 2) ""))
      .ok ("\n".intercalate lists, st.fks)

/-- The function `SplitFk`. -/
def SplitFk (x : Externals) (sql : String) : Except String (String × List String) :=
  if loweredFirstWord x sql ≠ "create" then .ok (sql, [])
  else splitFkCreate sql

/-- The map `replaceChars` set by `NewOracleConverter`, as a list of its entries. -/
def replaceCharsTable : List (String × String) :=
  [("`", "\""), ("0000-00-00 00:00:00", "0001-01-01 00:00:00"), ("\\'", "''")]

/-- The method `replaceCommonIdents`; `order` lists the entries of the map
`replaceChars` in the order the iteration takes. -/
def replaceCommonIdents (order : List (String × String)) (sql : String) : String :=
  order.foldl (fun (sql : String) (rule : String × String) => ReplaceAll sql rule.1 rule.2) sql

/-- The method `Format` of `DmUse`. -/
def DmUse.Format (x : Externals) (node : DmUse) : String :=
  if node.DBName ≠ "" then "set schema " ++ x.formatID node.DBName else ""

/-- The method `Format` of `DMDBDDL`. -/
def DMDBDDL.Format (node : DMDBDDL) : String :=
  if node.Action = CreateStr then node.Action ++ " schema " ++ node.DBName
  else if node.Action = DropStr then
    node.Action ++ " schema" ++ (if node.IfExists then " if exists" else "") ++ " " ++ node.DBName
  else ""

/-- Modelled from the spec: the method `Format` of `SQLVal` (ast.go is not part of
the sources): a string literal is quoted by `EncodeSQL`, a number is printed as its
text, hexadecimal and bit values between `X'..'` and `B'..'`, a placeholder as its
text. This is also the text of `String(node)`. -/
def SQLVal.Format (x : Externals) (node : SQLVal) : String :=
  match node.Typ with
  | .StrVal => x.EncodeSQL node.Val
  | .IntVal => node.Val
  | .FloatVal => node.Val
  | .HexNum => node.Val
  | .HexVal => "X'" ++ node.Val ++ "'"
  | .BitVal => "B'" ++ node.Val ++ "'"
  | .ValArg => node.Val

/-- Lines 420-437 of `DmColumnType.Format`: the text written for the base type. -/
def DmColumnType.baseText (x : Externals) (dct : DmColumnType) : String :=
  if dct.Typ = "datetime" then "timestamp"
  else if dct.Typ = "char" then
    match dct.Length with
    | some l => "char(" ++ l.Format x ++ ")"
    | none => ""
  else if dct.Typ = "varchar" then
    match dct.Length with
    | some l => "varchar(" ++ l.Format x ++ " CHAR)"
    | none => ""
  else if dct.Typ = "longtext" then "text"
  else if dct.Typ = "mediumtext" then "text"
  else dct.Typ

/-- Lines 457-460 of `DmColumnType.Format`: the primary-key option. -/
def DmColumnType.primaryOpts (dct : DmColumnType) : List String :=
  if dct.KeyOpt = .colKeyPrimary then ["PRIMARY KEY"] else []

/-- Lines 462-464 of `DmColumnType.Format`: the not-null option. -/
def DmColumnType.notNullOpts (x : Externals) (dct : DmColumnType) : List String :=
  if dct.NotNull then [x.keywordStrings .NOT, x.keywordStrings .NULL] else []

/-- Lines 466-475 of `DmColumnType.Format`: the identity option. -/
def DmColumnType.identityOpts (dct : DmColumnType) : List String :=
  if dct.Autoincrement then
    if dct.Typ = "bigint" ∨ dct.Typ = "integer" ∨ dct.Typ = "int" then
      if dct.AutoIncrement ≠ "" then ["IDENTITY(" ++ dct.AutoIncrement ++ ",1)"]
      else ["IDENTITY(1,1)"]
    else []
  else []

/-- Lines 477-501 of `DmColumnType.Format`: the default option. -/
def DmColumnType.defaultOpts (x : Externals) (dct : DmColumnType) : List String :=
  match dct.Default with
  | none => []
  | some d =>
    if dct.Typ = "timestamp" then
      if d.Val = "current_timestamp" then [x.keywordStrings .DEFAULT, "CURRENT_TIMESTAMP"]
      else [x.keywordStrings .DEFAULT, "NULL"]
    else if dct.Typ = "datetime" then
      if d.Val = "current_timestamp" then [x.keywordStrings .DEFAULT, "CURRENT_TIMESTAMP"]
      else [x.keywordStrings .DEFAULT, "NULL"]
    else
      let val := if dct.Typ = "char" ∨ dct.Typ = "varchar" then d.Format x else d.Val
      [x.keywordStrings .DEFAULT, val]

/-- Lines 506-508 of `DmColumnType.Format`: the comment option. -/
def DmColumnType.commentOpts (x : Externals) (dct : DmColumnType) : List String :=
  match dct.Comment with
  | none => []
  | some cm => [x.keywordStrings .COMMENT_KEYWORD, cm.Format x]

/-- Lines 518-520 of `DmColumnType.Format`: the plain key option. -/
def DmColumnType.keyOpts (x : Externals) (dct : DmColumnType) : List String :=
  if dct.KeyOpt = .colKey then [x.keywordStrings .KEY] else []

/-- The slice `opts` of `DmColumnType.Format` when it is joined. -/
def DmColumnType.opts (x : Externals) (dct : DmColumnType) : List String :=
  dct.primaryOpts ++ dct.notNullOpts x ++ dct.identityOpts ++ dct.defaultOpts x
    ++ dct.commentOpts x ++ dct.keyOpts x

/-- The method `Format` of `DmColumnType`. -/
def DmColumnType.Format (x : Externals) (dct : DmColumnType) : String :=
  dct.baseText x ++
    (if (dct.opts x).length ≠ 0 then " " ++ " ".intercalate (dct.opts x) else "")

/-- The method `Format` of `DmColumnDefinition` (`"%v %v"` of the name and the
type). -/
def DmColumnDefinition.Format (x : Externals) (dmCol : DmColumnDefinition) : String :=
  x.formatID dmCol.Name ++ " " ++ dmCol.Typ.Format x

/-- The call `NewTrackedBuffer(nil).WriteNode(stmt).String()`: `DmUse` and `DMDBDDL`
print by their own `Format`; the other kinds print through node printers of the
parser package. -/
def Statement.Format (x : Externals) (heap : Heap) : Statement → String
  | .dmUse s => s.Format x
  | .dmdbddl s => s.Format
  | stmt => x.FormatNode heap stmt

/-- The four results of `Convert`; `err` is `none` for a nil error. -/
structure ConvertResult (α : Type) where
  fks : List String
  outputs : List String
  args : List α
  err : Option String

/-- Lines 48-50 of `Convert`: the type assertion `stmt.(*DDL)` is evaluated for
every retained line and panics on any other statement kind. -/
def nameForeignKeys (stmt : Statement) (fks : List String) : Except String (List String) :=
  match fks with
  | [] => .ok []
  | _ :: _ =>
    match stmt with
    | .ddl d => .ok (fks.map fun fk => "alter table `" ++ d.NewName.Name ++ "` add " ++ fk ++ ";")
    | _ => .error "interface conversion"

/-- The method `Convert`; `order` is the iteration order of the map `replaceChars`
in this call. -/
def OracleConverter.Convert {α : Type} (c : OracleConverter) (x : Externals)
    (order : List (String × String)) (sql : String) (args : List α) :
    Except String (ConvertResult α) :=
  if !supportConvert (x.Preview sql) then
    .ok { fks := [], outputs := [sql], args := args, err := none }
  else
    match SplitFk x sql with
    | .error e => .error e
    | .ok (sql, fks) =>
      match x.Parse sql with
      | .error err => .ok { fks := [], outputs := [], args := args, err := some err }
      | .ok (stmt, heap) =>
        match nameForeignKeys stmt fks with
        | .error e => .error e
        | .ok fks =>
          match c.convertStmt stmt heap args with
          | .error e => .error e
          | .ok (none, _, args) =>
            .ok { fks := fks, outputs := [replaceCommonIdents order sql], args := args,
                  err := none }
          | .ok (some oracleStmt, heap, args) =>
            .ok { fks := fks,
                  outputs := [replaceCommonIdents order (oracleStmt.Format x heap)],
                  args := args, err := none }

/-! ## Concrete inputs -/

/-- A catalog with `autoIncrement[t] = {id}` and nothing else. -/
def catalogIdOnly : OracleConverter :=
  { tableUniqueIndexs := fun _ => []
    tableColumns := fun _ => []
    incrementColumns := fun t => if t = "t" then ["id"] else [] }

/-- The statement `INSERT INTO t (a, id) VALUES (x0, x1)`, the values being the
cells 0 and 1. -/
def insertIdLast : Insert :=
  { Action := InsertStr, Comments := [], Ignore := "", Table := ⟨"t", ""⟩,
    Partitions := [], Columns := ["a", "id"],
    Rows := .values [[.sqlVal 0, .sqlVal 1]], OnDup := none }

/-- A catalog in which table `t` has the unique index `PRIMARY (a)` and no
auto-increment column. -/
def catalogKeyA : OracleConverter :=
  { tableUniqueIndexs := fun t => if t = "t" then [("PRIMARY", ["a"])] else []
    tableColumns := fun _ => []
    incrementColumns := fun _ => [] }

/-- Cells holding the placeholders `:v1`, `:v2`, ... at the addresses 0, 1, ... -/
def placeholderHeap : Heap :=
  fun p => { Typ := .ValArg, Val := ":v" ++ Itoa (p + 1) }

/-- The column `name` without qualifier. -/
def bareCol (name : String) : ColName :=
  { Name := name, Qualifier := { Name := "", Qualifier := "" } }

/-- The statement `INSERT INTO t (a, b) VALUES (x0, x1) ON DUPLICATE KEY UPDATE
a = x2`. -/
def insertOnDupKey : Insert :=
  { Action := InsertStr, Comments := [], Ignore := "", Table := ⟨"t", ""⟩,
    Partitions := [], Columns := ["a", "b"],
    Rows := .values [[.sqlVal 0, .sqlVal 1]],
    OnDup := some [{ Name := bareCol "a", Expr := .sqlVal 2 }] }

/-- The statement `REPLACE INTO t (a, b) VALUES (x0, x1)`. -/
def replaceTwoCols : Insert :=
  { Action := ReplaceStr, Comments := [], Ignore := "", Table := ⟨"t", ""⟩,
    Partitions := [], Columns := ["a", "b"],
    Rows := .values [[.sqlVal 0, .sqlVal 1]], OnDup := none }

/-- The statement `INSERT INTO t (id) VALUES (x0) ON DUPLICATE KEY UPDATE id = x1`. -/
def insertOnlyId : Insert :=
  { Action := InsertStr, Comments := [], Ignore := "", Table := ⟨"t", ""⟩,
    Partitions := [], Columns := ["id"],
    Rows := .values [[.sqlVal 0]],
    OnDup := some [{ Name := bareCol "id", Expr := .sqlVal 1 }] }

/-- The statement `UPDATE t SET id = x0, a = x1`. -/
def updateIdAndA : Update :=
  { Comments := [], TableExprs := [.aliased ⟨"t", ""⟩ [] "" none],
    Exprs := [{ Name := bareCol "id", Expr := .sqlVal 0 },
              { Name := bareCol "a", Expr := .sqlVal 1 }],
    Where := .nilExpr }

/-- A cell store in which every cell is the integer literal `2`. -/
def literalHeap : Heap :=
  fun _ => { Typ := .IntVal, Val := "2" }

/-- The statement `INSERT INTO t (a) VALUES (x0)`. -/
def insertOneValue : Insert :=
  { Action := InsertStr, Comments := [], Ignore := "", Table := ⟨"t", ""⟩,
    Partitions := [], Columns := ["a"],
    Rows := .values [[.sqlVal 0]], OnDup := none }

/-- A CREATE TABLE with two consecutive constraint lines. -/
def createTwoConstraints : String :=
  "create table t (\n a int,\n constraint f1 foreign key (a) references u (x),\n constraint f2 foreign key (a) references w (y)\n)"

/-- The statement `INSERT INTO t (id, a) VALUES (x0, x1)`. -/
def insertIdFirst : Insert :=
  { Action := InsertStr, Comments := [], Ignore := "", Table := ⟨"t", ""⟩,
    Partitions := [], Columns := ["id", "a"],
    Rows := .values [[.sqlVal 0, .sqlVal 1]], OnDup := none }

/-- A CREATE TABLE with one constraint line. -/
def createOneConstraint : String :=
  "create table t (\n a int,\n constraint f1 foreign key (a) references u (x)\n)"

/-- The parse of `create table t (a int)`. -/
def createTableDDL : DDL :=
  { Action := CreateStr, Table := ⟨"", ""⟩, NewName := ⟨"t", ""⟩, IfExists := false,
    TableSpec := some
      { Columns := [{ Name := "a",
                      Typ := { Typ := "int", NotNull := false, Autoincrement := false,
                               Default := none, OnUpdate := none, Comment := none,
                               Length := none, Unsigned := false, Zerofill := false,
                               Scale := none, Charset := "", Collate := "", EnumValues := [],
                               KeyOpt := .colKeyNone } }],
        Indexes := [], Options := "" },
    PartitionSpec := none, VindexSpec := none, VindexCols := [] }

/-- The parse of an ALTER TABLE on table `t`. -/
def alterTableDDL : DDL :=
  { Action := AlterStr, Table := ⟨"t", ""⟩, NewName := ⟨"t", ""⟩, IfExists := false,
    TableSpec := none, PartitionSpec := none, VindexSpec := none, VindexCols := [] }

/-- A stand-in for the parser package on the texts of the examples: it classifies
and parses `insert into t (id, a) values (?, ?)`, the cleaned form of
`createOneConstraint` and one ALTER TABLE, rejects every other text, strips
leading blanks, uses the ASCII character classes, prints a fixed text for a
statement, has the lower-case keyword table and quotes a string literal without
escapes. -/
def sampleExternals : Externals :=
  { Preview := fun sql =>
      if sql = "insert into t (id, a) values (?, ?)" then .StmtInsert
      else if sql = createOneConstraint then .StmtDDL
      else if sql = "alter table `t` add b int" then .StmtDDL
      else .StmtOther
    Parse := fun sql =>
      if sql = "insert into t (id, a) values (?, ?)" then .ok (.insert insertIdFirst, placeholderHeap)
      else if sql = "create table t (\n a int\n)" then .ok (.ddl createTableDDL, placeholderHeap)
      else if sql = "alter table `t` add b int" then .ok (.ddl alterTableDDL, placeholderHeap)
      else .error "syntax error"
    StripLeadingComments := fun sql => String.mk (sql.toList.dropWhile Char.isWhitespace)
    IsSpace := Char.isWhitespace
    IsLetter := Char.isAlpha
    ToLower := fun s => String.mk (s.toList.map Char.toLower)
    formatID := fun s => s
    FormatNode := fun _ _ => "statement"
    keywordStrings := fun t =>
      match t with
      | .NOT => "not"
      | .NULL => "null"
      | .DEFAULT => "default"
      | .COMMENT_KEYWORD => "comment"
      | .KEY => "key"
    EncodeSQL := fun s => "'" ++ s ++ "'" }

/-- The statement `REPLACE INTO t (a, b) VALUES (x0, NULL)`. -/
def replaceWithNull : Insert :=
  { Action := ReplaceStr, Comments := [], Ignore := "", Table := ⟨"t", ""⟩,
    Partitions := [], Columns := ["a", "b"],
    Rows := .values [[.sqlVal 0, .nullVal]], OnDup := none }

/-- The parse of `create view v as select 1`: a `DDL` with action `create`, the
view as `NewName` and no table spec. -/
def createViewDDL : DDL :=
  { Action := CreateStr, Table := ⟨"", ""⟩, NewName := ⟨"v", ""⟩, IfExists := false,
    TableSpec := none, PartitionSpec := none, VindexSpec := none, VindexCols := [] }

/-- The statement `UPDATE t, u SET id = x0, a = x1`. -/
def updateTwoTables : Update :=
  { Comments := [],
    TableExprs := [.aliased ⟨"t", ""⟩ [] "" none, .aliased ⟨"u", ""⟩ [] "" none],
    Exprs := [{ Name := bareCol "id", Expr := .sqlVal 0 },
              { Name := bareCol "a", Expr := .sqlVal 1 }],
    Where := .nilExpr }

/-- The statement `SELECT x0 FROM t FORCE INDEX (i) JOIN u`. -/
def selectForceInJoin : Select :=
  { Comments := [], SelectExprs := [.sqlVal 0],
    From := [.join (.aliased ⟨"t", ""⟩ [] "" (some { Typ := "force ", Indexes := ["i"] }))
      "join" (.aliased ⟨"u", ""⟩ [] "" none) .nilExpr []],
    Where := .nilExpr }

/-- The test of `findAutoIncrement` at one position: the text `auto_increment=`
followed by a digit starts here. -/
def autoIncrementAt (cs : List Char) : Prop :=
  "auto_increment=".toList.isPrefixOf cs = true ∧ leadingDigits (cs.drop 15) ≠ []

/-- A column type with the given base type and auto-increment flag and no other
option. -/
def plainColumnType (typ : String) (auto : Bool) : ColumnType :=
  { Typ := typ, NotNull := false, Autoincrement := auto, Default := none, OnUpdate := none,
    Comment := none, Length := none, Unsigned := false, Zerofill := false, Scale := none,
    Charset := "", Collate := "", EnumValues := [], KeyOpt := .colKeyNone }

/-- The parse of `create table t (id smallint auto_increment, n bigint auto_increment)
engine=innodb auto_increment=7 default charset=utf8`. -/
def createSmallintDDL : DDL :=
  { Action := CreateStr, Table := ⟨"", ""⟩, NewName := ⟨"t", ""⟩, IfExists := false,
    TableSpec := some
      { Columns := [{ Name := "id", Typ := plainColumnType "smallint" true },
                    { Name := "n", Typ := plainColumnType "bigint" true }],
        Indexes := [], Options := "engine=innodb auto_increment=7 default charset=utf8" },
    PartitionSpec := none, VindexSpec := none, VindexCols := [] }

/-- A catalog in which table `t` has the unique index `PRIMARY (id)` and the
auto-increment column `id`. -/
def catalogIdKey : OracleConverter :=
  { tableUniqueIndexs := fun t => if t = "t" then [("PRIMARY", ["id"])] else []
    tableColumns := fun _ => []
    incrementColumns := fun t => if t = "t" then ["id"] else [] }

/-- The statement `REPLACE INTO t (id, a) VALUES (x0, x1)`. -/
def replaceIdFirst : Insert :=
  { Action := ReplaceStr, Comments := [], Ignore := "", Table := ⟨"t", ""⟩,
    Partitions := [], Columns := ["id", "a"],
    Rows := .values [[.sqlVal 0, .sqlVal 1]], OnDup := none }

/-- The characters of the sentinel date `0000-00-00 00:00:00`. -/
def sentinelChars : List Char :=
  ['0', '0', '0', '0', '-', '0', '0', '-', '0', '0', ' ', '0', '0', ':', '0', '0', ':', '0', '0']

/-- The characters of the date `0001-01-01 00:00:00` written for the sentinel. -/
def sentinelNewChars : List Char :=
  ['0', '0', '0', '1', '-', '0', '1', '-', '0', '1', ' ', '0', '0', ':', '0', '0', ':', '0', '0']

/-- A catalog in which table `t` has the unique indexes `ab (a, b)` and `a (a)`. -/
def catalogTwoIndexes : OracleConverter :=
  { tableUniqueIndexs := fun t => if t = "t" then [("ab", ["a", "b"]), ("a", ["a"])] else []
    tableColumns := fun _ => []
    incrementColumns := fun _ => [] }

/-- The statement `REPLACE INTO t (a, a) VALUES (x0, x1)`, whose column list names
`a` twice. -/
def replaceRepeatedColumn : Insert :=
  { Action := ReplaceStr, Comments := [], Ignore := "", Table := ⟨"t", ""⟩,
    Partitions := [], Columns := ["a", "a"],
    Rows := .values [[.sqlVal 0, .sqlVal 1]], OnDup := none }

/-- The statement `REPLACE INTO t (a, b, c) VALUES (x0, x1 + x2, x3)`. -/
def replaceWithSum : Insert :=
  { Action := ReplaceStr, Comments := [], Ignore := "", Table := ⟨"t", ""⟩,
    Partitions := [], Columns := ["a", "b", "c"],
    Rows := .values [[.sqlVal 0, .binaryExpr "+" (.sqlVal 1) (.sqlVal 2), .sqlVal 3]],
    OnDup := none }

/-- A catalog in which table `t` has the unique index `PRIMARY (a)` and the
auto-increment column `id`. -/
def catalogIdAndKeyA : OracleConverter :=
  { tableUniqueIndexs := fun t => if t = "t" then [("PRIMARY", ["a"])] else []
    tableColumns := fun _ => []
    incrementColumns := fun t => if t = "t" then ["id"] else [] }

/-- The statement `REPLACE INTO t (id, a, b) VALUES (x0, x1, x2)`. -/
def replaceThreeCols : Insert :=
  { Action := ReplaceStr, Comments := [], Ignore := "", Table := ⟨"t", ""⟩,
    Partitions := [], Columns := ["id", "a", "b"],
    Rows := .values [[.sqlVal 0, .sqlVal 1, .sqlVal 2]], OnDup := none }

/-- The type of a column `c char(1) DEFAULT 0`: the default is an integer literal. -/
def charDefaultZero : DmColumnType :=
  { Typ := "char", NotNull := false, Autoincrement := false,
    Default := some { Typ := .IntVal, Val := "0" }, OnUpdate := none, Comment := none,
    Length := some { Typ := .IntVal, Val := "1" }, Unsigned := false, Zerofill := false,
    Scale := none, Charset := "", Collate := "", EnumValues := [], KeyOpt := .colKeyNone,
    AutoIncrement := "" }

/-- The type of a column `created datetime NOT NULL DEFAULT current_timestamp
COMMENT 'made' PRIMARY KEY`. -/
def datetimeDefaultNow : DmColumnType :=
  { Typ := "datetime", NotNull := true, Autoincrement := false,
    Default := some { Typ := .ValArg, Val := "current_timestamp" }, OnUpdate := none,
    Comment := some { Typ := .StrVal, Val := "made" },
    Length := none, Unsigned := false, Zerofill := false,
    Scale := none, Charset := "", Collate := "", EnumValues := [], KeyOpt := .colKeyPrimary,
    AutoIncrement := "" }

mutual
/-- The `*ColName` nodes below an expression, in `Walk` order: the nodes the
visitor of `setQualifierForCols` reacts to. -/
def Expr.colNames : Expr → List ColName
  | .nilExpr => []
  | .sqlVal _ => []
  | .nullVal => []
  | .boolVal _ => []
  | .colName c => [c]
  | .andExpr l r => l.colNames ++ r.colNames
  | .orExpr l r => l.colNames ++ r.colNames
  | .notExpr e => e.colNames
  | .parenExpr e => e.colNames
  | .comparisonExpr _ l r => l.colNames ++ r.colNames
  | .binaryExpr _ l r => l.colNames ++ r.colNames
  | .funcExpr _ args => Expr.colNamesList args
  | .valTuple es => Expr.colNamesList es
/-- The `*ColName` nodes below a list of expressions, in `Walk` order. -/
def Expr.colNamesList : List Expr → List ColName
  | [] => []
  | e :: es => e.colNames ++ Expr.colNamesList es
end

/-- Following the specification: the left-nested combination
`(((e1 op e2) op e3) ... op en)` of a list of expressions; a single expression
stands for itself, and the empty list gives nil. -/
def specLeftNested (op : Expr → Expr → Expr) : List Expr → Expr
  | [] => .nilExpr
  | e :: es => es.foldl op e

/-- Following the specification: the comparison `t.c = s.c` of a column `c`. -/
def specComparison (column : ColIdent) : Expr :=
  .comparisonExpr "="
    (.colName { Name := column, Qualifier := { Name := "t", Qualifier := "" } })
    (.colName { Name := column, Qualifier := { Name := "s", Qualifier := "" } })

/-- Following the specification: the join condition of the condition tuples
`condcols` over the column list `columns`: the left-nested OR, over the tuples, of
the left-nested AND of the comparisons `t.c = s.c` of the columns of the tuple. -/
def specJoinCondition (columns : List ColIdent) (condcols : List (List String)) : Expr :=
  specLeftNested .orExpr
    (condcols.map fun T =>
      specLeftNested .andExpr ((columns.filter fun column => decide (column ∈ T)).map specComparison))

/-- An insert `INSERT INTO t (a, b) VALUES (x0, x1) ON DUPLICATE KEY UPDATE
b = b + x2`: the assignment reads the bare column `b`. -/
def insertOnDupReadsColumn : Insert :=
  { Action := "insert", Comments := [], Ignore := "",
    Table := { Name := "t", Qualifier := "" }, Partitions := [],
    Columns := ["a", "b"],
    Rows := .values [[.sqlVal 0, .sqlVal 1]],
    OnDup := some
      [{ Name := { Name := "b", Qualifier := { Name := "", Qualifier := "" } },
         Expr := .binaryExpr "+"
           (.colName { Name := "b", Qualifier := { Name := "", Qualifier := "" } })
           (.sqlVal 2) }] }

/-- The type of a column `c char NOT NULL`: a `char` without a length. -/
def charNoLength : DmColumnType :=
  { Typ := "char", NotNull := true, Autoincrement := false, Default := none, OnUpdate := none,
    Comment := none, Length := none, Unsigned := false, Zerofill := false, Scale := none,
    Charset := "", Collate := "", EnumValues := [], KeyOpt := .colKeyNone, AutoIncrement := "" }

/-- The type of a column `v varchar`: a `varchar` without a length and without
options. -/
def varcharNoLength : DmColumnType :=
  { Typ := "varchar", NotNull := false, Autoincrement := false, Default := none,
    OnUpdate := none, Comment := none, Length := none, Unsigned := false, Zerofill := false,
    Scale := none, Charset := "", Collate := "", EnumValues := [], KeyOpt := .colKeyNone,
    AutoIncrement := "" }

/-- The type of a column `n bigint NOT NULL AUTO_INCREMENT DEFAULT 5 COMMENT 'n'
PRIMARY KEY` of a table with the option `auto_increment=7`. -/
def bigintAllOptions : DmColumnType :=
  { Typ := "bigint", NotNull := true, Autoincrement := true,
    Default := some { Typ := .IntVal, Val := "5" }, OnUpdate := none,
    Comment := some { Typ := .StrVal, Val := "n" },
    Length := none, Unsigned := false, Zerofill := false,
    Scale := none, Charset := "", Collate := "", EnumValues := [], KeyOpt := .colKeyPrimary,
    AutoIncrement := "7" }

/-! ## Theorems -/

/-! ### Parameter re-binding: helper lemmas -/

theorem visitSQLVal_ok {α : Type} {args : List α} {st st' : ArgState α} {n : Ref}
    (h : visitSQLVal args st n = .ok st') :
    ∃ a, a ∈ args ∧ st'.newArgs = st.newArgs ++ [a] ∧ st'.id = st.id + 1
      ∧ st'.heap = st.heap.setVal n (":v" ++ Itoa st.id) := by
  unfold visitSQLVal at h
  simp only at h
  split at h
  · split at h
    · rename_i a ha
      injection h with h
      subst h
      exact ⟨a, List.get?_mem ha, rfl, rfl, rfl⟩
    · cases h
  · cases h

theorem foldlM_visitSQLVal_mem {α : Type} {args : List α} (l : List Ref) :
    ∀ (st st' : ArgState α), l.foldlM (visitSQLVal args) st = .ok st' →
      (∀ a ∈ st.newArgs, a ∈ args) → ∀ a ∈ st'.newArgs, a ∈ args := by
  induction l with
  | nil =>
    intro st st' h hst
    simp only [List.foldlM_nil] at h
    cases h
    exact hst
  | cons p l ih =>
    intro st st' h hst
    simp only [List.foldlM_cons] at h
    cases hv : visitSQLVal args st p with
    | error e => rw [hv] at h; cases h
    | ok st1 =>
      rw [hv] at h
      obtain ⟨a, ha, hnew, -, -⟩ := visitSQLVal_ok hv
      refine ih st1 st' h ?_
      intro b hb
      rw [hnew] at hb
      rcases List.mem_append.mp hb with hb | hb
      · exact hst b hb
      · rw [List.mem_singleton.mp hb]; exact ha

theorem convertStmtArgs_mem {α : Type} {stmt : Statement} {heap heap' : Heap}
    {args outArgs : List α} (h : convertStmtArgs stmt heap args = .ok (heap', outArgs)) :
    ∀ a ∈ outArgs, a ∈ args := by
  unfold convertStmtArgs at h
  split at h
  · cases h
  · rename_i st hst
    injection h with h
    injection h with h1 h2
    subst h2
    exact foldlM_visitSQLVal_mem _ _ _ hst (by simp)

theorem needConvertArgs_true {α : Type} {stmt : Statement} {args : List α}
    (h : needConvertArgs (some stmt) args = true) :
    args ≠ [] ∧ stmt.isInsertOrMerge = true := by
  unfold needConvertArgs at h
  split at h
  · cases h
  · rename_i hlen
    refine ⟨fun hnil => hlen (by simp [hnil]), ?_⟩
    cases stmt <;> simp_all [Statement.isInsertOrMerge]

theorem convertStmt_args {α : Type} {c : OracleConverter} {stmt : Statement} {heap heap' : Heap}
    {args outArgs : List α} {ostmt : Option Statement}
    (h : c.convertStmt stmt heap args = .ok (ostmt, heap', outArgs)) :
    (∀ a ∈ outArgs, a ∈ args) ∧
      (outArgs = args ∨
        (args ≠ [] ∧ ∃ newStmt, ostmt = some newStmt ∧ newStmt.isInsertOrMerge = true)) := by
  unfold OracleConverter.convertStmt at h
  simp only at h
  split at h
  · cases h
  · injection h with h
    injection h with h1 h2
    injection h2 with h2 h3
    subst h3
    exact ⟨fun a ha => ha, Or.inl rfl⟩
  · rename_i newStmt hnew
    split at h
    · rename_i hneed
      split at h
      · cases h
      · rename_i r hr
        injection h with h
        injection h with h1 h2
        injection h2 with h2 h3
        subst h1 h3
        obtain ⟨hne, hkind⟩ := needConvertArgs_true hneed
        exact ⟨@convertStmtArgs_mem α newStmt heap r.1 args r.2 hr, Or.inr ⟨hne, newStmt, rfl, hkind⟩⟩
    · injection h with h
      injection h with h1 h2
      injection h2 with h2 h3
      subst h3
      exact ⟨fun a ha => ha, Or.inl rfl⟩

/-! ### The facade: helper lemmas -/

theorem nameForeignKeys_ddl (d : DDL) (fks : List String) :
    nameForeignKeys (.ddl d) fks
      = .ok (fks.map fun fk => "alter table `" ++ d.NewName.Name ++ "` add " ++ fk ++ ";") := by
  cases fks <;> rfl

theorem needConvertArgs_dmDDL {α : Type} (dm : DmDDL) (args : List α) :
    needConvertArgs (some (.dmDDL dm)) args = false := by
  unfold needConvertArgs
  split <;> rfl

theorem convertStmt_create {α : Type} (c : OracleConverter) (d : DDL) (spec : TableSpec)
    (heap : Heap) (args : List α) (hcreate : d.Action = CreateStr)
    (hspec : d.TableSpec = some spec) :
    ∃ dm, c.convertStmt (.ddl d) heap args = .ok (some (.dmDDL dm), heap, args) := by
  unfold OracleConverter.convertStmt OracleConverter.convertDDL DmDDL.FromCreateDDL
  simp only [hcreate, hspec, if_true, needConvertArgs_dmDDL]
  exact ⟨_, rfl⟩

theorem foldlM_except_invariant {β γ : Type} (f : β → γ → Except String β) (P : β → Prop)
    (hf : ∀ b x b', P b → f b x = .ok b' → P b') :
    ∀ (l : List γ) (b b' : β), P b → l.foldlM f b = .ok b' → P b' := by
  intro l
  induction l with
  | nil =>
    intro b b' hb h
    simp only [List.foldlM_nil] at h
    cases h
    exact hb
  | cons x l ih =>
    intro b b' hb h
    simp only [List.foldlM_cons] at h
    cases hx : f b x with
    | error e => rw [hx] at h; cases h
    | ok b1 =>
      rw [hx] at h
      exact ih b1 b' (hf b x b1 hb hx) h

theorem foldl_append_flatten (condcols : List (List String)) (init : List String) :
    condcols.foldl (fun (all : List String) condcol => all ++ condcol) init
      = init ++ condcols.flatten := by
  induction condcols generalizing init with
  | nil => simp
  | cons t ts ih => simp [List.foldl_cons, ih, List.append_assoc]

theorem convertInsertIncrement_OnDup (c : OracleConverter) (stmt : Insert) :
    (c.convertInsertIncrement stmt).OnDup = stmt.OnDup := by
  unfold OracleConverter.convertInsertIncrement
  split
  · rfl
  · dsimp only
    split_ifs <;> rfl

theorem buildMatchedExpr_names {stmt : Insert} {condcols : List (List String)}
    {exprs : List UpdateExpr} (hdup : stmt.OnDup = none)
    (h : buildMatchedExpr stmt condcols = .ok exprs) :
    ∀ e ∈ exprs, ∀ t ∈ condcols, e.Name.Name ∉ t := by
  unfold buildMatchedExpr at h
  rw [hdup] at h
  simp only [foldl_append_flatten, List.nil_append] at h
  have key := foldlM_except_invariant _
    (fun (acc : List UpdateExpr) => ∀ e ∈ acc, e.Name.Name ∉ condcols.flatten) ?_ _ _ _ ?_ h
  · intro e he t ht hmem
    exact key e he (List.mem_flatten.mpr ⟨t, ht, hmem⟩)
  · intro acc ic acc' hacc hstep
    split at hstep
    · rename_i hnot
      split at hstep
      · injection hstep with hstep
        subst hstep
        intro e he
        rcases List.mem_append.mp he with he | he
        · exact hacc e he
        · rw [List.mem_singleton.mp he]
          simpa [StringIn] using hnot
      · cases hstep
    · injection hstep with hstep
      subst hstep
      exact hacc
  · intro e he
    cases he

theorem setQualifierForCols_names (node : List UpdateExpr) :
    ∀ e ∈ setQualifierForCols node, ∃ e0 ∈ node, e.Name.Name = e0.Name.Name := by
  intro e he
  unfold setQualifierForCols at he
  obtain ⟨e0, he0, rfl⟩ := List.mem_map.mp he
  exact ⟨e0, he0, rfl⟩

theorem foldl_count_matches (iii : List String) (column : String) (i0 : Nat) :
    iii.foldl (fun (i : Nat) (v : String) => if v = column then i + 1 else i) i0
      = i0 + iii.count column := by
  induction iii generalizing i0 with
  | nil => simp
  | cons v vs ih =>
    simp only [List.foldl_cons, ih, List.count_cons]
    by_cases hv : v = column
    · simp [hv]; omega
    · simp [hv]

theorem countIndexMatches_eq_sum (columns : List ColIdent) (iii : List String) :
    countIndexMatches columns iii = (columns.map (fun col => iii.count col)).sum := by
  unfold countIndexMatches
  simp only [foldl_count_matches]
  have gen : ∀ (cols : List ColIdent) (i0 : Nat),
      cols.foldl (fun (i : Nat) (column : ColIdent) => i + iii.count column) i0
        = i0 + (cols.map (fun col => iii.count col)).sum := by
    intro cols
    induction cols with
    | nil => intro i0; simp
    | cons col cols ih =>
      intro i0
      rw [List.foldl_cons, ih, List.map_cons, List.sum_cons]
      omega
  simpa using gen columns 0

theorem sum_count_cons (columns : List ColIdent) (v : String) (iii : List String) :
    (columns.map (fun col => (v :: iii).count col)).sum
      = columns.count v + (columns.map (fun col => iii.count col)).sum := by
  induction columns with
  | nil => simp
  | cons col cols ih =>
    rw [List.map_cons, List.sum_cons, ih, List.map_cons, List.sum_cons,
      List.count_cons (a := col), List.count_cons (a := v)]
    by_cases hv : v = col
    · subst hv; simp; omega
    · have hv' : ¬ col = v := fun h => hv h.symm
      simp [hv, hv']; omega

theorem covered_of_count_eq {columns : List ColIdent} (hnodup : columns.Nodup)
    (iii : List String) :
    (columns.map (fun col => iii.count col)).sum ≤ iii.length
      ∧ ((columns.map (fun col => iii.count col)).sum = iii.length → ∀ v ∈ iii, v ∈ columns) := by
  induction iii with
  | nil => simp
  | cons v vs ih =>
    rw [sum_count_cons]
    have hle : columns.count v ≤ 1 := List.nodup_iff_count_le_one.mp hnodup v
    obtain ⟨ih1, ih2⟩ := ih
    refine ⟨by simp only [List.length_cons]; omega, ?_⟩
    intro hsum
    simp only [List.length_cons] at hsum
    have hone : columns.count v = 1 := by omega
    have hrest : (columns.map (fun col => vs.count col)).sum = vs.length := by omega
    intro w hw
    rcases List.mem_cons.mp hw with hw | hw
    · subst hw
      exact List.count_pos_iff.mp (by omega)
    · exact ih2 hrest w hw

theorem convertInsertIncrement_Table (c : OracleConverter) (stmt : Insert) :
    (c.convertInsertIncrement stmt).Table = stmt.Table := by
  unfold OracleConverter.convertInsertIncrement
  split
  · rfl
  · dsimp only
    split_ifs <;> rfl

theorem convertInsertIncrement_Action (c : OracleConverter) (stmt : Insert) :
    (c.convertInsertIncrement stmt).Action = stmt.Action := by
  unfold OracleConverter.convertInsertIncrement
  split
  · rfl
  · dsimp only
    split_ifs <;> rfl

theorem getUniqueConditionColumns_nil (c : OracleConverter) (stmt : Insert)
    (hnodup : stmt.Columns.Nodup)
    (hunc : ∀ entry ∈ c.tableUniqueIndexs stmt.Table.Name,
      ¬ (∀ col ∈ entry.2, col ∈ stmt.Columns)) :
    c.getUniqueConditionColumns stmt = [] := by
  unfold OracleConverter.getUniqueConditionColumns
  generalize c.tableUniqueIndexs stmt.Table.Name = entries at hunc
  induction entries with
  | nil => rfl
  | cons entry entries ih =>
    simp only [List.foldl_cons]
    have hne : countIndexMatches stmt.Columns entry.2 ≠ entry.2.length := by
      intro heq
      rw [countIndexMatches_eq_sum] at heq
      exact hunc entry (List.mem_cons_self _ _) ((covered_of_count_eq hnodup entry.2).2 heq)
    rw [if_neg hne]
    exact ih (fun e he => hunc e (List.mem_cons_of_mem _ he))

theorem digitChar_isDigit (d : Nat) (hd : d < 10) : (Nat.digitChar d).isDigit = true := by
  interval_cases d <;> decide

theorem digitChar_value (d : Nat) (hd : d < 10) : (Nat.digitChar d).toNat - 48 = d := by
  interval_cases d <;> decide

theorem toDigitsCore_isDigit (fuel : Nat) :
    ∀ (n : Nat) (ds : List Char), (∀ ch ∈ ds, ch.isDigit = true) →
      ∀ ch ∈ Nat.toDigitsCore 10 fuel n ds, ch.isDigit = true := by
  induction fuel with
  | zero => intro n ds hds; simpa [Nat.toDigitsCore] using hds
  | succ fuel ih =>
    intro n ds hds
    have hd : ∀ ch ∈ Nat.digitChar (n % 10) :: ds, ch.isDigit = true := by
      intro ch hch
      rcases List.mem_cons.mp hch with hch | hch
      · rw [hch]; exact digitChar_isDigit _ (Nat.mod_lt _ (by decide))
      · exact hds ch hch
    simp only [Nat.toDigitsCore]
    split
    · exact hd
    · exact ih _ _ hd

theorem toDigitsCore_ne_nil_of (fuel : Nat) :
    ∀ (n : Nat) (ds : List Char), ds ≠ [] → Nat.toDigitsCore 10 fuel n ds ≠ [] := by
  induction fuel with
  | zero => intro n ds hds; simpa [Nat.toDigitsCore] using hds
  | succ fuel ih =>
    intro n ds _
    simp only [Nat.toDigitsCore]
    split
    · simp
    · exact ih _ _ (by simp)

theorem toDigitsCore_ne_nil (fuel n : Nat) (ds : List Char) :
    Nat.toDigitsCore 10 (fuel + 1) n ds ≠ [] := by
  simp only [Nat.toDigitsCore]
  split
  · simp
  · exact toDigitsCore_ne_nil_of _ _ _ (by simp)

theorem toDigitsCore_value (fuel : Nat) :
    ∀ (n : Nat) (ds : List Char), n < fuel →
      (Nat.toDigitsCore 10 fuel n ds).foldl
          (fun (n : Nat) (ch : Char) => n * 10 + (ch.toNat - 48)) 0
        = ds.foldl (fun (n : Nat) (ch : Char) => n * 10 + (ch.toNat - 48)) n := by
  induction fuel with
  | zero => intro n ds h; omega
  | succ fuel ih =>
    intro n ds hn
    simp only [Nat.toDigitsCore]
    split
    · rename_i h0
      simp only [List.foldl_cons, digitChar_value _ (Nat.mod_lt n (by decide : 10 > 0))]
      have : n % 10 = n := by omega
      simp [this]
    · rename_i h0
      rw [ih (n / 10) _ (by omega)]
      simp only [List.foldl_cons, digitChar_value _ (Nat.mod_lt n (by decide : 10 > 0))]
      have : n / 10 * 10 + n % 10 = n := by omega
      rw [this]

theorem toDigits_isDigit (m : Nat) : ∀ ch ∈ Nat.toDigits 10 m, ch.isDigit = true :=
  toDigitsCore_isDigit _ _ _ (by simp)

theorem toDigits_ne_nil (m : Nat) : Nat.toDigits 10 m ≠ [] :=
  toDigitsCore_ne_nil _ _ _

theorem digitsValue_toDigits (m : Nat) : digitsValue (Nat.toDigits 10 m) = m := by
  unfold digitsValue Nat.toDigits
  rw [toDigitsCore_value _ _ _ (Nat.lt_succ_self m)]
  rfl

theorem replaceChars_digits (ds : List Char) (hds : ∀ ch ∈ ds, ch.isDigit = true) :
    replaceChars [':', 'v'] [] 0 ds = ds := by
  induction ds with
  | nil => rfl
  | cons c cs ih =>
    have hc : c ≠ ':' := by
      intro h
      have := hds c (List.mem_cons_self _ _)
      rw [h] at this
      exact absurd this (by decide)
    have hpre : List.isPrefixOf [':', 'v'] (c :: cs) = false := by
      simp [List.isPrefixOf, hc.symm]
    simp only [replaceChars, hpre]
    rw [ih (fun ch hch => hds ch (List.mem_cons_of_mem _ hch))]
    simp

theorem Atoi_placeholder (m : Nat) (hm : m < 2 ^ 63) :
    Atoi (ReplaceAll (":v" ++ Itoa m) ":v" "") = (m : Int) := by
  have hrep : ReplaceAll (":v" ++ Itoa m) ":v" "" = String.mk (Nat.toDigits 10 m) := by
    unfold ReplaceAll Itoa
    have h1 : (":v" ++ String.mk (Nat.toDigits 10 m)).toList = ':' :: 'v' :: Nat.toDigits 10 m := by
      simp [String.toList]
    have h2 : (":v" : String).toList = [':', 'v'] := rfl
    have h3 : ("" : String).toList = [] := rfl
    rw [h1, h2, h3]
    have : replaceChars [':', 'v'] [] 0 (':' :: 'v' :: Nat.toDigits 10 m)
        = replaceChars [':', 'v'] [] 0 (Nat.toDigits 10 m) := by
      simp [replaceChars, List.isPrefixOf]
    rw [this, replaceChars_digits _ (toDigits_isDigit m)]
  rw [hrep]
  unfold Atoi
  have hne := toDigits_ne_nil m
  have hall := toDigits_isDigit m
  have hval := digitsValue_toDigits m
  generalize Nat.toDigits 10 m = ds at hne hall hval
  cases ds with
  | nil => exact absurd rfl hne
  | cons c cs =>
    have hc := hall c (List.mem_cons_self _ _)
    have hminus : c ≠ '-' := by
      intro h; rw [h] at hc; exact absurd hc (by decide)
    have hplus : c ≠ '+' := by
      intro h; rw [h] at hc; exact absurd hc (by decide)
    have hbody : (match (String.mk (c :: cs)).toList with
        | '-' :: ds => (true, ds)
        | '+' :: ds => (false, ds)
        | ds => (false, ds)) = (false, c :: cs) := by
      show (match c :: cs with
        | '-' :: ds => (true, ds)
        | '+' :: ds => (false, ds)
        | ds => (false, ds)) = (false, c :: cs)
      split
      · rename_i h; injection h with h _; exact absurd h hminus
      · rename_i h; injection h with h _; exact absurd h hplus
      · rfl
    simp only [hbody]
    have hall' : (c :: cs).all Char.isDigit = true := List.all_eq_true.mpr hall
    rw [if_neg (by simp [hall'])]
    simp only [hval]
    have hm' : m < 9223372036854775808 := by norm_num at hm; exact hm
    simp only [ge_iff_le, Bool.false_eq_true, if_false]
    split
    · rename_i hge
      norm_num at hge
      omega
    · rfl

theorem foldlM_visitSQLVal_renumber {α : Type} {args : List α} (l : List Ref) :
    ∀ (st st' : ArgState α), l.Nodup → l.foldlM (visitSQLVal args) st = .ok st' →
      l.map (fun p => (st'.heap p).Val)
          = (List.range l.length).map (fun k => ":v" ++ Itoa (st.id + k))
        ∧ st'.newArgs.length = st.newArgs.length + l.length
        ∧ ∀ q, q ∉ l → st'.heap q = st.heap q := by
  induction l with
  | nil =>
    intro st st' _ h
    simp only [List.foldlM_nil] at h
    cases h
    simp
  | cons p l ih =>
    intro st st' hnodup h
    simp only [List.foldlM_cons] at h
    cases hv : visitSQLVal args st p with
    | error e => rw [hv] at h; cases h
    | ok st1 =>
      rw [hv] at h
      obtain ⟨a, -, hnew, hid, hheap⟩ := visitSQLVal_ok hv
      obtain ⟨hp, hl⟩ := List.nodup_cons.mp hnodup
      obtain ⟨ih1, ih2, ih3⟩ := ih st1 st' hl h
      refine ⟨?_, ?_, ?_⟩
      · rw [List.map_cons, ih1, ih3 p hp, hheap, List.length_cons, List.range_succ_eq_map,
          List.map_cons, List.map_map]
        simp only [Heap.setVal, if_true, Nat.add_zero, hid]
        congr 1
        apply List.map_congr_left
        intro k _
        simp only [Function.comp]
        congr 2
        omega
      · rw [ih2, hnew]
        simp only [List.length_append, List.length_cons, List.length_nil]
        omega
      · intro q hq
        have hqp : q ≠ p := fun h => hq (h ▸ List.mem_cons_self _ _)
        have hql : q ∉ l := fun h => hq (List.mem_cons_of_mem _ h)
        rw [ih3 q hql, hheap]
        simp [Heap.setVal, hqp]

theorem renderVals_eq_sqlVals (stmt : Statement) : stmt.renderVals = stmt.sqlVals := by
  cases stmt <;> rfl

theorem splitIncrementColumns_keep (incs : List String) (l : List ColIdent)
    (hl : ∀ col ∈ l, col ∉ incs) :
    ∀ (k : Nat) (acc : List Nat × List ColIdent),
      (l.enumFrom k).foldl
        (fun (acc : List Nat × List ColIdent) (ic : Nat × ColIdent) =>
          if ic.2 ∈ incs then (acc.1 ++ [ic.1], acc.2) else (acc.1, acc.2 ++ [ic.2]))
        acc = (acc.1, acc.2 ++ l) := by
  induction l with
  | nil => intro k acc; simp
  | cons col l ih =>
    intro k acc
    have hcol : col ∉ incs := hl col (List.mem_cons_self _ _)
    simp only [List.enumFrom_cons, List.foldl_cons, if_neg hcol]
    rw [ih (fun c hc => hl c (List.mem_cons_of_mem _ hc))]
    simp

theorem splitIncrementColumns_first (incs : List String) (c0 : ColIdent) (cs : List ColIdent)
    (hinc : c0 ∈ incs) (hrest : ∀ col ∈ cs, col ∉ incs) :
    splitIncrementColumns incs (c0 :: cs) = ([0], cs) := by
  unfold splitIncrementColumns
  simp only [List.enum, List.enumFrom_cons, List.foldl_cons, if_pos hinc]
  rw [splitIncrementColumns_keep incs cs hrest]
  simp

theorem stripIncrementRow_keep (l : List Expr) :
    ∀ (k : Nat) (acc : List Expr),
      (l.enumFrom (k + 1)).foldl
        (fun (newRow : List Expr) (iv : Nat × Expr) =>
          if [0].length = 0 then newRow ++ [iv.2]
          else (List.range [0].length).foldl
            (fun (r : List Expr) (n : Nat) => if iv.1 ≠ n then r ++ [iv.2] else r) newRow)
        acc = acc ++ l := by
  induction l with
  | nil => intro k acc; simp
  | cons e l ih =>
    intro k acc
    simp only [List.enumFrom_cons, List.foldl_cons]
    rw [ih (k + 1)]
    simp [List.range_succ]

theorem stripIncrementRow_first (row : List Expr) :
    stripIncrementRow [0] row = row.tail := by
  unfold stripIncrementRow
  cases row with
  | nil => rfl
  | cons e l =>
    simp only [List.enum, List.enumFrom_cons, List.foldl_cons]
    rw [stripIncrementRow_keep l 0]
    simp [List.range_succ]

theorem sqlValsList_map_sqlVal {β : Type} (f : β → Ref) (l : List β) :
    Expr.sqlValsList (l.map (fun b => Expr.sqlVal (f b))) = l.map f := by
  induction l with
  | nil => rfl
  | cons b l ih => simp [Expr.sqlValsList, Expr.sqlVals, ih]

theorem flatten_tail_sublist {β : Type} (cells : List (List β)) :
    List.Sublist (cells.map List.tail).flatten cells.flatten := by
  induction cells with
  | nil => simp
  | cons row rows ih =>
    simp only [List.map_cons, List.flatten_cons]
    exact List.Sublist.append (List.tail_sublist row) ih

theorem visitSQLVal_placeholder {α : Type} (args : List α) (st : ArgState α) (p : Ref)
    (m : Nat) (a : α) (hval : (st.heap p).Val = ":v" ++ Itoa (m + 1)) (hm : m + 1 < 2 ^ 63)
    (ha : args.get? m = some a) :
    visitSQLVal args st p
      = .ok { heap := st.heap.setVal p (":v" ++ Itoa st.id), newArgs := st.newArgs ++ [a],
              id := st.id + 1 } := by
  unfold visitSQLVal
  simp only [hval, Atoi_placeholder (m + 1) hm]
  have h1 : (1 : Int) ≤ ((m + 1 : Nat) : Int) := by omega
  have h2 : (((m + 1 : Nat) : Int) - 1).toNat = m := by omega
  rw [if_pos h1, h2, ha]

theorem foldlM_visitSQLVal_placeholders {α : Type} (args : List α) (L : List (Ref × α)) :
    ∀ (st : ArgState α), (L.map Prod.fst).Nodup →
      (∀ cell ∈ L, ∃ m, (st.heap cell.1).Val = ":v" ++ Itoa (m + 1) ∧ m + 1 < 2 ^ 63
        ∧ args.get? m = some cell.2) →
      ∃ st', (L.map Prod.fst).foldlM (visitSQLVal args) st = .ok st'
        ∧ st'.newArgs = st.newArgs ++ L.map Prod.snd := by
  induction L with
  | nil => intro st _ _; exact ⟨st, rfl, by simp⟩
  | cons cell L ih =>
    intro st hnodup hcells
    obtain ⟨m, hval, hm, ha⟩ := hcells cell (List.mem_cons_self _ _)
    simp only [List.map_cons] at hnodup
    obtain ⟨hp, hl⟩ := List.nodup_cons.mp hnodup
    have hstep := visitSQLVal_placeholder args st cell.1 m cell.2 hval hm ha
    obtain ⟨st', hfold, hnew⟩ := ih
      { heap := st.heap.setVal cell.1 (":v" ++ Itoa st.id), newArgs := st.newArgs ++ [cell.2],
        id := st.id + 1 } hl (by
        intro cell' hcell'
        obtain ⟨m', hval', hm', ha'⟩ := hcells cell' (List.mem_cons_of_mem _ hcell')
        refine ⟨m', ?_, hm', ha'⟩
        have hne : cell'.1 ≠ cell.1 := by
          intro heq
          exact hp (heq ▸ List.mem_map_of_mem Prod.fst hcell')
        simpa [Heap.setVal, hne] using hval')
    refine ⟨st', ?_, ?_⟩
    · simp only [List.map_cons, List.foldlM_cons, hstep]
      exact hfold
    · rw [hnew]
      simp

theorem placeholder_at {α : Type} (heap : Heap) (flat : List (Ref × α))
    (hheap : flat.map (fun cell => (heap cell.1).Val)
      = (List.range flat.length).map (fun k => ":v" ++ Itoa (k + 1)))
    (cell : Ref × α) (hcell : cell ∈ flat) :
    ∃ m, (heap cell.1).Val = ":v" ++ Itoa (m + 1) ∧ m < flat.length
      ∧ (flat.map Prod.snd).get? m = some cell.2 := by
  obtain ⟨m, hm, hget⟩ := List.getElem_of_mem hcell
  refine ⟨m, ?_, hm, ?_⟩
  · have h := congrArg (fun l => l[m]?) hheap
    simp only [List.getElem?_map, List.getElem?_range hm, List.getElem?_eq_getElem hm,
      Option.map_some'] at h
    rw [hget] at h
    exact Option.some.inj h
  · rw [List.get?_eq_getElem?, List.getElem?_map, List.getElem?_eq_getElem hm, hget]
    rfl

theorem convertInsertIncrement_first {α : Type} (c : OracleConverter) (stmt : Insert)
    (c0 : ColIdent) (cs : List ColIdent) (cells : List (List (Ref × α)))
    (hcols : stmt.Columns = c0 :: cs)
    (hinc : c0 ∈ c.incrementColumns stmt.Table.Name)
    (hrest : ∀ col ∈ cs, col ∉ c.incrementColumns stmt.Table.Name)
    (hrows : stmt.Rows
      = .values (cells.map (fun row => row.map (fun cell => Expr.sqlVal cell.1)))) :
    c.convertInsertIncrement stmt
      = { stmt with
          Columns := cs
          Rows := .values
            ((cells.map List.tail).map (fun row => row.map (fun cell => Expr.sqlVal cell.1))) } := by
  have hincs : ¬ (c.incrementColumns stmt.Table.Name).length = 0 := by
    intro h0
    rw [List.length_eq_zero.mp h0] at hinc
    cases hinc
  have hlen : ¬ stmt.Columns.length = 0 := by rw [hcols]; simp
  unfold OracleConverter.convertInsertIncrement
  simp only [hrows, if_neg hincs, if_neg hlen]
  rw [hcols, splitIncrementColumns_first _ c0 cs hinc hrest]
  simp only [List.map_map]
  congr 2
  apply List.map_congr_left
  intro row _
  simp only [Function.comp, stripIncrementRow_first, List.map_tail]

theorem insert_sqlVals_cells {α : Type} (stmt : Insert) (cs : List ColIdent)
    (cells : List (List (Ref × α))) (hdup : stmt.OnDup = none) :
    (Statement.insert { stmt with
        Columns := cs
        Rows := .values (cells.map (fun row => row.map (fun cell => Expr.sqlVal cell.1))) }).sqlVals
      = cells.flatten.map Prod.fst := by
  simp only [Statement.sqlVals, InsertRows.sqlVals, hdup, List.append_nil, List.map_map,
    List.map_flatten]
  congr 1
  apply List.map_congr_left
  intro row _
  simp only [Function.comp]
  exact sqlValsList_map_sqlVal Prod.fst row


/-! ### Claims -/

/-- C1 (code evaluated at the failing input): for
`INSERT INTO t (a, id) VALUES (x0, x1)` with `autoIncrement[t] = {id}` the column
list becomes `(a)` but the row becomes `(x1)`: position 0 is deleted instead of
position 1, the position of the removed column. -/
theorem convertInsertIncrement_deletes_wrong_position :
    (catalogIdOnly.convertInsertIncrement insertIdLast).Columns = ["a"] ∧
      (catalogIdOnly.convertInsertIncrement insertIdLast).Rows
        = .values [[.sqlVal 1]] := by
  exact ⟨by decide, rfl⟩

/-- C5 (code evaluated at the failing input): for `INSERT INTO t (a) VALUES (2)`
converted with the arguments `x, y`, the visitor of `convertStmtArgs` overwrites
the integer literal `2` with `:v1` and pushes `args[1]`: a node that is no
placeholder is changed and contributes an element to the output vector. -/
theorem convertStmtArgs_overwrites_literal :
    ∃ h, convertStmtArgs (.insert insertOneValue) literalHeap ["x", "y"] = .ok (h, ["y"])
      ∧ literalHeap 0 = { Typ := .IntVal, Val := "2" }
      ∧ h 0 = { Typ := .IntVal, Val := ":v1" } :=
  ⟨_, rfl, rfl, rfl⟩

/-- C8 (code evaluated at the failing input): of two consecutive constraint lines
`SplitFk` retains only the first; the second stays in the cleaned CREATE text. -/
theorem splitFkCreate_skips_line_after_match :
    splitFkCreate createTwoConstraints
      = .ok ("create table t (\n a int,\n constraint f2 foreign key (a) references w (y)\n)",
             [" constraint f1 foreign key (a) references u (x),"]) :=
  rfl

/-- C10 (code evaluated at the failing input): `convertStmt` has no case for
`*Use`, so a `Use` statement, here `use db1`, is returned unchanged and not as a
`DmUse`; the method `covertUse` that builds the `DmUse` is never called. A `DmUse`
with an empty name prints the empty text. -/
theorem convertStmt_use_unchanged {α : Type} (c : OracleConverter) (heap : Heap)
    (args : List α) :
    c.convertStmt (.use { DBName := "db1" }) heap args
        = .ok (some (.use { DBName := "db1" }), heap, args)
      ∧ c.covertUse { DBName := "db1" } = .dmUse { DBName := "db1" }
      ∧ ∀ x : Externals, DmUse.Format x { DBName := "" } = "" := by
  refine ⟨?_, rfl, fun x => rfl⟩
  cases args <;> rfl

/-- C2 (counterexample): `INSERT INTO t (a, b) VALUES (x0, x1) ON DUPLICATE KEY
UPDATE a = x2` with the unique index `(a)` is rewritten into a `Merge` whose
`Matched` assigns to `a`, a column of the condition tuple `(a)`. -/
theorem convertInsert_onDup_names_condcol :
    catalogKeyA.getUniqueConditionColumns (catalogKeyA.convertInsertIncrement insertOnDupKey)
        = [["a"]]
      ∧ ∃ m, catalogKeyA.convertInsert insertOnDupKey = .ok (.merge m)
          ∧ m.Matched.map (fun e => e.Name.Name) = ["a"] :=
  ⟨rfl, _, rfl, rfl⟩

/-- C3 (counterexample): `INSERT INTO t (id) VALUES (x0) ON DUPLICATE KEY UPDATE
id = x1`, where `id` is auto-increment and `t` has no unique index, has a
non-empty column list and an `OnDup` clause; `convertInsert` returns an `Insert`
that still carries the `OnDup` clause. -/
theorem convertInsert_keeps_onDup_when_columns_stripped :
    insertOnlyId.Columns ≠ [] ∧ insertOnlyId.OnDup.isSome = true
      ∧ catalogIdOnly.tableUniqueIndexs insertOnlyId.Table.Name = []
      ∧ ∃ s, catalogIdOnly.convertInsert insertOnlyId = .ok (.insert s)
          ∧ s.Columns = [] ∧ s.OnDup.isSome = true :=
  ⟨by decide, rfl, rfl, _, rfl, rfl, rfl⟩

/-- C4 (code evaluated at the failing inputs): `UPDATE t SET id = :v1, a = :v2`
converted with two arguments, `id` being auto-increment: the assignment to `id` is
dropped, the statement is not renumbered and both arguments are returned, so the
only placeholder printed is `:v2` while the returned vector has length 2.
`REPLACE INTO t (a, b) VALUES (:v1, :v2)` with the unique index `(a)`, converted
with two arguments: the `Merge` prints the row and then the assignment to `b`,
which holds the value node of the row; the node is renumbered twice, so the
placeholders printed are `:v1`, `:v3`, `:v3` while the returned vector has
length 3. -/
theorem convertStmt_placeholders_not_contiguous :
    (∃ stmt heap outArgs,
        catalogIdOnly.convertStmt (.update updateIdAndA) placeholderHeap ["x", "y"]
            = .ok (some stmt, heap, outArgs)
          ∧ outArgs.length = 2
          ∧ stmt.renderVals.map (fun p => (heap p).Val) = [":v2"])
      ∧ (∃ m heap,
        catalogKeyA.convertStmt (.insert replaceTwoCols) placeholderHeap ["x", "y"]
            = .ok (some (.merge m), heap, ["x", "y", "y"])
          ∧ (Statement.merge m).renderVals = [0, 1, 1]
          ∧ (Statement.merge m).renderVals.map (fun p => (heap p).Val)
              = [":v1", ":v3", ":v3"]) :=
  ⟨⟨_, _, _, rfl, rfl, rfl⟩, ⟨_, _, rfl, rfl, rfl⟩⟩

/-- C7: every element of the argument vector returned by a successful `Convert`
is an element of the input vector; and the returned vector is the input vector
itself unless the input vector is non-empty and the rewritten statement is an
`Insert` or a `Merge`. -/
theorem Convert_args_from_input {α : Type} (c : OracleConverter) (x : Externals)
    (order : List (String × String)) (sql : String) (args : List α) (r : ConvertResult α)
    (h : c.Convert x order sql args = .ok r) :
    (∀ a ∈ r.args, a ∈ args) ∧
      (r.args = args ∨
        (args ≠ [] ∧ ∃ cleaned fks stmt heap newStmt heap',
          SplitFk x sql = .ok (cleaned, fks) ∧ x.Parse cleaned = .ok (stmt, heap)
            ∧ c.convertStmt stmt heap args = .ok (some newStmt, heap', r.args)
            ∧ newStmt.isInsertOrMerge = true)) := by
  unfold OracleConverter.Convert at h
  split at h
  · injection h with h
    subst h
    exact ⟨fun a ha => ha, Or.inl rfl⟩
  · split at h
    · cases h
    · rename_i cleaned fks hsplit
      split at h
      · injection h with h
        subst h
        exact ⟨fun a ha => ha, Or.inl rfl⟩
      · rename_i stmt heap hparse
        split at h
        · cases h
        · split at h
          · cases h
          · rename_i heap' outArgs hconv
            injection h with h
            subst h
            obtain ⟨hmem, hor⟩ := convertStmt_args hconv
            refine ⟨hmem, ?_⟩
            rcases hor with heq | ⟨_, newStmt, hns, _⟩
            · exact Or.inl heq
            · cases hns
          · rename_i oracleStmt heap' outArgs hconv
            injection h with h
            subst h
            obtain ⟨hmem, hor⟩ := convertStmt_args hconv
            refine ⟨hmem, ?_⟩
            rcases hor with heq | ⟨hne, newStmt, hns, hkind⟩
            · exact Or.inl heq
            · injection hns with hns
              subst hns
              exact Or.inr ⟨hne, cleaned, fks, stmt, heap, _, heap', hsplit, hparse, hconv, hkind⟩

/-- C7 (witness): `INSERT INTO t (id, a) VALUES (?, ?)` converted with the
arguments `x, y`, `id` being auto-increment. -/
theorem Convert_args_from_input_witness :
    ∃ r, catalogIdOnly.Convert sampleExternals replaceCharsTable
          "insert into t (id, a) values (?, ?)" ["x", "y"] = .ok r
      ∧ r.args = ["y"]
      ∧ (∀ a ∈ r.args, a ∈ ["x", "y"]) :=
  ⟨_, rfl, rfl,
    (Convert_args_from_input catalogIdOnly sampleExternals replaceCharsTable
      "insert into t (id, a) values (?, ?)" ["x", "y"] _ rfl).1⟩

/-- C9: for a CREATE TABLE (a `DDL` with action `create` and a table spec) from
which `SplitFk` retained the lines `fks`, `Convert` succeeds and its follow-up list
has one element per retained line, in order, each one the text
alter table, the target table `NewName` between backticks, add, the line and a
semicolon; without retained lines the list is empty. -/
theorem Convert_followups {α : Type} (c : OracleConverter) (x : Externals)
    (order : List (String × String)) (sql cleaned : String) (fks : List String)
    (args : List α) (d : DDL) (spec : TableSpec) (heap : Heap)
    (hsup : supportConvert (x.Preview sql) = true)
    (hsplit : SplitFk x sql = .ok (cleaned, fks))
    (hparse : x.Parse cleaned = .ok (.ddl d, heap))
    (hcreate : d.Action = CreateStr) (hspec : d.TableSpec = some spec) :
    ∃ r, c.Convert x order sql args = .ok r ∧ r.err = none
      ∧ r.fks = fks.map (fun line => "alter table `" ++ d.NewName.Name ++ "` add " ++ line ++ ";")
      ∧ r.fks.length = fks.length ∧ (fks = [] → r.fks = []) := by
  obtain ⟨dm, hdm⟩ := convertStmt_create c d spec heap args hcreate hspec
  unfold OracleConverter.Convert
  simp only [hsup, hsplit, hparse, nameForeignKeys_ddl, hdm]
  refine ⟨_, rfl, rfl, rfl, by simp, ?_⟩
  intro hnil
  simp [hnil]

/-- C9 (witness): `createOneConstraint` converted without arguments. -/
theorem Convert_followups_witness :
    ∃ r, catalogIdOnly.Convert sampleExternals replaceCharsTable createOneConstraint
          ([] : List String) = .ok r
      ∧ r.err = none
      ∧ r.fks = ["alter table `t` add  constraint f1 foreign key (a) references u (x);"] := by
  obtain ⟨r, h, herr, hfks, -, -⟩ :=
    Convert_followups catalogIdOnly sampleExternals replaceCharsTable createOneConstraint
      "create table t (\n a int\n)" [" constraint f1 foreign key (a) references u (x)"]
      ([] : List String) createTableDDL _ placeholderHeap rfl rfl rfl rfl rfl
  exact ⟨r, h, herr, hfks⟩

/-- C2 (amended): when the `Insert` has no `OnDup` clause, so that `Matched` is
derived from the first row, no assignment of the `Matched` of the `Merge` built by
`convertInsert` has a target column whose name occurs in a condition tuple. -/
theorem convertInsert_matched_excludes_condcols (c : OracleConverter) (stmt : Insert)
    (m : Merge) (hdup : stmt.OnDup = none) (h : c.convertInsert stmt = .ok (.merge m)) :
    ∀ e ∈ m.Matched,
      ∀ t ∈ c.getUniqueConditionColumns (c.convertInsertIncrement stmt), e.Name.Name ∉ t := by
  have hdup' : (c.convertInsertIncrement stmt).OnDup = none := by
    rw [convertInsertIncrement_OnDup, hdup]
  unfold OracleConverter.convertInsert at h
  simp only at h
  split at h
  · cases h
  · split at h
    · cases h
    · split at h
      · cases h
      · split at h
        · cases h
        · rename_i matchedExpr hmatched
          split at h
          · cases h
          · split at h
            · cases h
            · injection h with h
              injection h with h
              subst h
              intro e he t ht
              obtain ⟨e0, he0, hname⟩ := setQualifierForCols_names matchedExpr e he
              rw [hname]
              exact buildMatchedExpr_names hdup' hmatched e0 he0 t ht

/-- C2 (witness): `REPLACE INTO t (a, b) VALUES (x0, x1)` with the unique index
`(a)`: the `Matched` of the `Merge` assigns to `b` only. -/
theorem convertInsert_matched_excludes_condcols_witness :
    ∃ m, catalogKeyA.convertInsert replaceTwoCols = .ok (.merge m)
      ∧ m.Matched.map (fun e => e.Name.Name) = ["b"]
      ∧ ∀ e ∈ m.Matched,
          ∀ t ∈ catalogKeyA.getUniqueConditionColumns
              (catalogKeyA.convertInsertIncrement replaceTwoCols), e.Name.Name ∉ t :=
  ⟨_, rfl, rfl, convertInsert_matched_excludes_condcols catalogKeyA replaceTwoCols _ rfl rfl⟩

/-- C3 (amended): for every `Insert` with an `OnDup` clause or action `replace`
whose column list after the auto-increment strip is non-empty and has no repeated
name, if no unique index recorded for its table is wholly covered by that column
list (also when the table has no recorded index), `convertInsert` returns an
`Insert` whose `OnDup` is absent and whose other parts are those left by the
auto-increment strip. -/
theorem convertInsert_plain_when_uncovered (c : OracleConverter) (stmt : Insert)
    (hkind : stmt.OnDup.isSome = true ∨ stmt.Action = ReplaceStr)
    (hcols : (c.convertInsertIncrement stmt).Columns ≠ [])
    (hnodup : (c.convertInsertIncrement stmt).Columns.Nodup)
    (hunc : ∀ entry ∈ c.tableUniqueIndexs stmt.Table.Name,
      ¬ (∀ col ∈ entry.2, col ∈ (c.convertInsertIncrement stmt).Columns)) :
    c.convertInsert stmt
      = .ok (.insert { c.convertInsertIncrement stmt with OnDup := none }) := by
  have hcond : c.getUniqueConditionColumns (c.convertInsertIncrement stmt) = [] := by
    apply getUniqueConditionColumns_nil c _ hnodup
    rw [convertInsertIncrement_Table]
    exact hunc
  have hfirst : ¬ ((c.convertInsertIncrement stmt).Action = InsertStr
      ∧ (c.convertInsertIncrement stmt).OnDup.isNone = true) := by
    rw [convertInsertIncrement_Action, convertInsertIncrement_OnDup]
    rintro ⟨hact, hnone⟩
    rcases hkind with hsome | hrep
    · cases hd : stmt.OnDup <;> simp [hd] at hsome hnone
    · rw [hrep] at hact
      exact absurd hact (by decide)
  have hlen : ¬ (c.convertInsertIncrement stmt).Columns.length = 0 := by
    intro h0
    exact hcols (List.length_eq_zero.mp h0)
  unfold OracleConverter.convertInsert
  simp only [hcond, if_neg hfirst, if_neg hlen, List.length_nil, if_true]

/-- C3 (witness): `REPLACE INTO t (a, b) VALUES (x0, x1)` for a table without
recorded unique index. -/
theorem convertInsert_plain_when_uncovered_witness :
    catalogIdOnly.convertInsert replaceTwoCols
      = .ok (.insert { catalogIdOnly.convertInsertIncrement replaceTwoCols with OnDup := none }) :=
  convertInsert_plain_when_uncovered catalogIdOnly replaceTwoCols (Or.inr rfl)
    (by decide) (by decide) (by intro entry he; cases he)

/-- The renumbering where it works: for every successful `convertStmt` call (as
made by `Convert`) with a non-empty argument vector whose rewritten statement is an
`Insert` or a `Merge` that prints no value node twice, the value nodes of the
rewritten statement, read in the order they are printed, carry exactly `:v1`,
`:v2`, ..., `:vK`, where `K` is the length of the returned argument vector. -/
theorem convertStmt_placeholders_contiguous {α : Type} (c : OracleConverter)
    (stmt newStmt : Statement) (heap heap' : Heap) (args outArgs : List α)
    (hargs : args ≠ [])
    (h : c.convertStmt stmt heap args = .ok (some newStmt, heap', outArgs))
    (hkind : newStmt.isInsertOrMerge = true) (hnodup : newStmt.renderVals.Nodup) :
    newStmt.renderVals.map (fun p => (heap' p).Val)
      = (List.range outArgs.length).map (fun k => ":v" ++ Itoa (k + 1)) := by
  have hneed : needConvertArgs (some newStmt) args = true := by
    unfold needConvertArgs
    have hlen : ¬ args.length = 0 := fun h0 => hargs (List.length_eq_zero.mp h0)
    rw [if_neg hlen]
    cases newStmt <;> simp_all [Statement.isInsertOrMerge]
  have hargsOk : convertStmtArgs newStmt heap args = .ok (heap', outArgs) := by
    unfold OracleConverter.convertStmt at h
    simp only at h
    split at h
    · cases h
    · cases h
    · rename_i ns hns
      split at h
      · rename_i hneed'
        split at h
        · cases h
        · rename_i r hr
          injection h with h
          injection h with h1 h2
          injection h2 with h2 h3
          injection h1 with h1
          subst h1 h2 h3
          exact hr
      · rename_i hneed'
        injection h with h
        injection h with h1 h2
        injection h1 with h1
        subst h1
        exact absurd hneed hneed'
  unfold convertStmtArgs at hargsOk
  split at hargsOk
  · cases hargsOk
  · rename_i st hst
    injection hargsOk with hargsOk
    injection hargsOk with h1 h2
    subst h1 h2
    rw [renderVals_eq_sqlVals] at hnodup ⊢
    obtain ⟨hvals, hlen, -⟩ := foldlM_visitSQLVal_renumber _ _ _ hnodup hst
    rw [hvals, hlen]
    simp only [List.length_nil, Nat.zero_add]
    apply List.map_congr_left
    intro k _
    congr 2
    omega

/-- The renumbering at `INSERT INTO t (id, a) VALUES (:v1, :v2)` converted with the
arguments `x, y`, `id` being auto-increment: the remaining value is `:v1`. -/
theorem convertStmt_placeholders_contiguous_witness :
    ∃ newStmt heap',
      catalogIdOnly.convertStmt (.insert insertIdFirst) placeholderHeap ["x", "y"]
          = .ok (some newStmt, heap', ["y"])
        ∧ newStmt.renderVals = [1]
        ∧ newStmt.renderVals.map (fun p => (heap' p).Val)
            = (List.range ["y"].length).map (fun k => ":v" ++ Itoa (k + 1)) :=
  ⟨_, _, rfl, rfl,
    convertStmt_placeholders_contiguous catalogIdOnly (.insert insertIdFirst) _
      placeholderHeap _ ["x", "y"] ["y"] (by decide) rfl rfl (by decide)⟩

/-- C6: an `INSERT` without `OnDup` whose explicit column list starts with the only
auto-increment column of the list and whose rows `cells` hold, in reading order,
the placeholders `:v1`, `:v2`, ... in distinct value nodes, converted with one
argument per placeholder: `convertStmt` returns a plain `Insert` without that
column and without the first value of each row, the remaining value nodes carry
`:v1`, `:v2`, ... in reading order, and the returned vector is the input vector
without the argument of each row's first position; for one row this is
`args[1:]`, and it differs from `args` as soon as there is a row. -/
theorem convertStmt_insert_strips_first_column {α : Type} (c : OracleConverter)
    (stmt : Insert) (c0 : ColIdent) (cs : List ColIdent) (cells : List (List (Ref × α)))
    (heap : Heap)
    (hact : stmt.Action = InsertStr) (hdup : stmt.OnDup = none)
    (hcols : stmt.Columns = c0 :: cs)
    (hinc : c0 ∈ c.incrementColumns stmt.Table.Name)
    (hrest : ∀ col ∈ cs, col ∉ c.incrementColumns stmt.Table.Name)
    (hrows : stmt.Rows
      = .values (cells.map (fun row => row.map (fun cell => Expr.sqlVal cell.1))))
    (hlen : ∀ row ∈ cells, row.length = (c0 :: cs).length)
    (hnodup : (cells.flatten.map Prod.fst).Nodup)
    (hheap : cells.flatten.map (fun cell => (heap cell.1).Val)
      = (List.range cells.flatten.length).map (fun k => ":v" ++ Itoa (k + 1)))
    (hsize : cells.flatten.length < 2 ^ 63) :
    ∃ heap',
      c.convertStmt (.insert stmt) heap (cells.flatten.map Prod.snd)
          = .ok (some (.insert { stmt with
                  Columns := cs
                  Rows := .values ((cells.map List.tail).map
                    (fun row => row.map (fun cell => Expr.sqlVal cell.1))) }),
                 heap', (cells.map List.tail).flatten.map Prod.snd)
        ∧ (cells.map List.tail).flatten.map (fun cell => (heap' cell.1).Val)
            = (List.range (cells.map List.tail).flatten.length).map
                (fun k => ":v" ++ Itoa (k + 1))
        ∧ (∀ row, cells = [row] →
            (cells.map List.tail).flatten.map Prod.snd = (cells.flatten.map Prod.snd).tail)
        ∧ (cells ≠ [] →
            (cells.map List.tail).flatten.map Prod.snd ≠ cells.flatten.map Prod.snd) := by
  have hstrip := convertInsertIncrement_first c stmt c0 cs cells hcols hinc hrest hrows
  have hB : c.convertInsert stmt
      = .ok (.insert { stmt with
          Columns := cs
          Rows := .values ((cells.map List.tail).map
            (fun row => row.map (fun cell => Expr.sqlVal cell.1))) }) := by
    unfold OracleConverter.convertInsert
    rw [hstrip]
    simp [hact, hdup]
  have hsub := flatten_tail_sublist cells
  have hLnodup : (((cells.map List.tail).flatten).map Prod.fst).Nodup :=
    List.Nodup.sublist (hsub.map Prod.fst) hnodup
  have hcellsL : ∀ cell ∈ (cells.map List.tail).flatten,
      ∃ m, (heap cell.1).Val = ":v" ++ Itoa (m + 1) ∧ m + 1 < 2 ^ 63
        ∧ (cells.flatten.map Prod.snd).get? m = some cell.2 := by
    intro cell hcell
    obtain ⟨m, hval, hm, hget⟩ := placeholder_at heap cells.flatten hheap cell (hsub.subset hcell)
    exact ⟨m, hval, by omega, hget⟩
  have hone : ∀ row, cells = [row] →
      (cells.map List.tail).flatten.map Prod.snd = (cells.flatten.map Prod.snd).tail := by
    intro row hrow
    subst hrow
    simp [List.map_tail]
  have hdiff : cells ≠ [] →
      (cells.map List.tail).flatten.map Prod.snd ≠ cells.flatten.map Prod.snd := by
    intro hne heq
    have hl := congrArg List.length heq
    simp only [List.length_map] at hl
    have hlt : ∀ (rows : List (List (Ref × α))), rows ≠ [] →
        (∀ row ∈ rows, row.length = (c0 :: cs).length) →
        (rows.map List.tail).flatten.length < rows.flatten.length := by
      intro rows
      induction rows with
      | nil => intro h; exact absurd rfl h
      | cons row rows ih =>
        intro _ hrows
        have hr := hrows row (List.mem_cons_self _ _)
        simp only [List.length_cons] at hr
        have hle : (rows.map List.tail).flatten.length ≤ rows.flatten.length :=
          (flatten_tail_sublist rows).length_le
        simp only [List.map_cons, List.flatten_cons, List.length_append, List.length_tail]
        omega
    have := hlt cells hne hlen
    omega
  by_cases hargs : (cells.flatten.map Prod.snd).length = 0
  · have hflat : cells.flatten = [] := by
      rw [List.length_map] at hargs
      exact List.length_eq_zero.mp hargs
    have hL : (cells.map List.tail).flatten = [] := by
      have := hsub
      rw [hflat] at this
      exact List.sublist_nil.mp this
    refine ⟨heap, ?_, ?_, hone, hdiff⟩
    · unfold OracleConverter.convertStmt
      simp only [hB, needConvertArgs, hargs, if_true]
      rw [hL, hflat]
      simp
    · rw [hL]
      simp
  · obtain ⟨st', hfold, hnew⟩ := foldlM_visitSQLVal_placeholders (cells.flatten.map Prod.snd)
      ((cells.map List.tail).flatten) { heap := heap, newArgs := [], id := 1 } hLnodup hcellsL
    obtain ⟨hvals, -, -⟩ := foldlM_visitSQLVal_renumber _ _ _ hLnodup hfold
    refine ⟨st'.heap, ?_, ?_, hone, hdiff⟩
    · unfold OracleConverter.convertStmt
      simp only [hB, needConvertArgs, hargs, if_false, if_true]
      unfold convertStmtArgs
      rw [insert_sqlVals_cells stmt cs (cells.map List.tail) hdup, hfold]
      simp only [hnew, List.nil_append]
    · have := hvals
      simp only [List.map_map, List.length_map] at this
      rw [show (fun cell : Ref × α => (st'.heap cell.1).Val)
          = (fun p => (st'.heap p).Val) ∘ Prod.fst from rfl, this]
      apply List.map_congr_left
      intro k _
      congr 2
      omega

/-- C6 (witness): `INSERT INTO t (id, a) VALUES (:v1, :v2)` converted with the
arguments `x, y`, `id` being the auto-increment column of `t`. -/
theorem convertStmt_insert_strips_first_column_witness :
    ∃ heap',
      catalogIdOnly.convertStmt (.insert insertIdFirst) placeholderHeap ["x", "y"]
          = .ok (some (.insert { insertIdFirst with
                  Columns := ["a"], Rows := .values [[.sqlVal 1]] }), heap', ["y"])
        ∧ (heap' 1).Val = ":v1" := by
  obtain ⟨heap', h, hvals, -, -⟩ :=
    convertStmt_insert_strips_first_column catalogIdOnly insertIdFirst "id" ["a"]
      [[(0, "x"), (1, "y")]] placeholderHeap rfl rfl rfl (by decide) (by decide) rfl
      (by decide) (by decide) rfl (by decide)
  refine ⟨heap', h, ?_⟩
  have h2 : [(heap' 1).Val] = [":v1"] := hvals
  injection h2

/-- C12: for every SQL text whose `Preview` kind is none of DDL, Insert, Replace,
Delete, Select, Update and Use, `Convert` returns no follow-up, the input text as
its single output, the argument vector unchanged and no error, whatever the FK
splitter, the parser and the substitution order would do. -/
theorem Convert_unsupported_kind {α : Type} (c : OracleConverter) (x : Externals)
    (order : List (String × String)) (sql : String) (args : List α)
    (h : x.Preview sql ∉ [StmtType.StmtDDL, .StmtInsert, .StmtReplace, .StmtDelete,
      .StmtSelect, .StmtUpdate, .StmtUse]) :
    c.Convert x order sql args
      = .ok { fks := [], outputs := [sql], args := args, err := none } := by
  have hsup : supportConvert (x.Preview sql) = false := by
    cases hk : x.Preview sql <;> simp_all [supportConvert]
  unfold OracleConverter.Convert
  simp [hsup]

/-- C12 (witness): `show tables` converted with one argument. -/
theorem Convert_unsupported_kind_witness :
    catalogIdOnly.Convert sampleExternals replaceCharsTable "show tables" ["x"]
      = .ok { fks := [], outputs := ["show tables"], args := ["x"], err := none } :=
  Convert_unsupported_kind catalogIdOnly sampleExternals replaceCharsTable "show tables" ["x"]
    (by decide)

/-- C17 (code evaluated at the failing inputs): `REPLACE INTO t (a, b) VALUES
(x0, NULL)` with the unique index `(a)` makes `buildMatchedExpr` read `vals[1]` of a
one-element slice, and a `create` DDL without table spec (a CREATE VIEW) makes
`FromCreateDDL` dereference a nil `TableSpec`: `convertStmt` called without
arguments panics on both. -/
theorem convertStmt_panics :
    catalogKeyA.convertStmt (.insert replaceWithNull) placeholderHeap ([] : List String)
        = .error "index out of range"
      ∧ catalogKeyA.convertStmt (.ddl createViewDDL) placeholderHeap ([] : List String)
        = .error "nil pointer dereference" :=
  ⟨rfl, rfl⟩

/-- C18 (code evaluated at the failing input): for `UPDATE t, u SET id = x0, a = x1`
with `autoIncrement[t] = {id}`, `getTableName` yields `u`, the last table name the
walk visits, so the assignment to `id` is kept. -/
theorem convertUpdateIncrement_uses_last_table :
    getTableName updateTwoTables = "u"
      ∧ catalogIdOnly.incrementColumns "t" = ["id"]
      ∧ (catalogIdOnly.convertUpdateIncrement updateTwoTables).Exprs.map (fun e => e.Name.Name)
          = ["id", "a"] :=
  ⟨rfl, rfl, rfl⟩

/-- C19 (code evaluated at the failing input): for `SELECT x0 FROM t FORCE INDEX (i)
JOIN u` the FROM clause holds one `JoinTableExpr`, which `convertSelect` does not
enter: the hint of type `force ` stays on `t`. -/
theorem convertSelect_keeps_nested_force_hint (c : OracleConverter) :
    (c.convertSelect selectForceInJoin).From
      = [.join (.aliased ⟨"t", ""⟩ [] "" (some { Typ := "force ", Indexes := ["i"] }))
          "join" (.aliased ⟨"u", ""⟩ [] "" none) .nilExpr []] :=
  rfl

/-- C20: for every parsed `DDL` whose action is `alter`, `convertDDL` yields the nil
statement, and `Convert` returns as its single output the SQL text left by the FK
splitter with the substitutions of `replaceCommonIdents` applied, the argument
vector unchanged and no error. -/
theorem Convert_alter {α : Type} (c : OracleConverter) (x : Externals)
    (order : List (String × String)) (sql cleaned : String) (fks : List String)
    (args : List α) (d : DDL) (heap : Heap)
    (hsup : supportConvert (x.Preview sql) = true)
    (hsplit : SplitFk x sql = .ok (cleaned, fks))
    (hparse : x.Parse cleaned = .ok (.ddl d, heap))
    (halter : d.Action = AlterStr) :
    c.convertDDL d = .ok none
      ∧ c.Convert x order sql args
        = .ok { fks := fks.map (fun line =>
                  "alter table `" ++ d.NewName.Name ++ "` add " ++ line ++ ";"),
                outputs := [replaceCommonIdents order cleaned], args := args, err := none } := by
  have hne : ¬ d.Action = CreateStr := by
    rw [halter]; decide
  have hddl : c.convertDDL d = .ok none := by
    unfold OracleConverter.convertDDL
    simp [hne]
  refine ⟨hddl, ?_⟩
  unfold OracleConverter.Convert OracleConverter.convertStmt
  simp only [hsup, hsplit, hparse, nameForeignKeys_ddl, hddl]
  rfl

/-- C20 (witness): an ALTER TABLE converted with one argument; the backticks of
the source text become double quotes. -/
theorem Convert_alter_witness :
    catalogIdOnly.Convert sampleExternals replaceCharsTable "alter table `t` add b int" ["x"]
      = .ok { fks := [], outputs := ["alter table \"t\" add b int"], args := ["x"],
              err := none } :=
  (Convert_alter catalogIdOnly sampleExternals replaceCharsTable "alter table `t` add b int"
    "alter table `t` add b int" [] ["x"] alterTableDDL placeholderHeap rfl rfl rfl rfl).2


theorem findAutoIncrement_skip (pre rest : List Char)
    (hpre : ∀ i, i < pre.length → ¬ autoIncrementAt ((pre ++ rest).drop i)) :
    findAutoIncrement (pre ++ rest) = findAutoIncrement rest := by
  induction pre with
  | nil => rfl
  | cons c cs ih =>
    have h0 := hpre 0 (by simp)
    simp only [List.drop_zero, autoIncrementAt] at h0
    have hstep : findAutoIncrement (c :: (cs ++ rest)) = findAutoIncrement (cs ++ rest) := by
      rw [findAutoIncrement]
      rw [if_neg]
      simpa using h0
    rw [List.cons_append, hstep]
    apply ih
    intro i hi
    have := hpre (i + 1) (by simp; omega)
    simpa using this

theorem findAutoIncrement_none_aux (n : Nat) :
    ∀ cs : List Char, cs.length = n → (∀ i, ¬ autoIncrementAt (cs.drop i)) →
      findAutoIncrement cs = [] := by
  induction n with
  | zero =>
    intro cs hlen _
    rw [List.length_eq_zero.mp hlen]
    rfl
  | succ n ih =>
    intro cs hlen hno
    cases cs with
    | nil => rfl
    | cons c cs =>
      have h0 := hno 0
      simp only [List.drop_zero, autoIncrementAt] at h0
      rw [findAutoIncrement, if_neg (by simpa using h0)]
      apply ih cs (by simpa using hlen)
      intro i
      have := hno (i + 1)
      simpa using this

theorem leadingDigits_append (ds post : List Char) (hds : ∀ ch ∈ ds, ch.isDigit = true)
    (hpost : ∀ ch, post.head? = some ch → ch.isDigit = false) :
    leadingDigits (ds ++ post) = ds := by
  unfold leadingDigits
  induction ds with
  | nil =>
    cases post with
    | nil => rfl
    | cons p ps =>
      have := hpost p rfl
      simp [List.takeWhile, this]
  | cons d ds ih =>
    have hd := hds d (List.mem_cons_self _ _)
    simp only [List.cons_append, List.takeWhile_cons, hd, if_true]
    rw [ih (fun ch hch => hds ch (List.mem_cons_of_mem _ hch))]

theorem findAutoIncrement_match (ds post : List Char) (hne : ds ≠ [])
    (hds : ∀ ch ∈ ds, ch.isDigit = true)
    (hpost : ∀ ch, post.head? = some ch → ch.isDigit = false) :
    findAutoIncrement ("auto_increment=".toList ++ (ds ++ post))
      = "auto_increment=".toList ++ ds := by
  have hld := leadingDigits_append ds post hds hpost
  have hdrop : ("auto_increment=".toList ++ (ds ++ post)).drop 15 = ds ++ post := rfl
  have hpre : "auto_increment=".toList.isPrefixOf ("auto_increment=".toList ++ (ds ++ post))
      = true := by
    simp
  show findAutoIncrement ('a' :: ("uto_increment=".toList ++ (ds ++ post))) = _
  rw [findAutoIncrement]
  have hcond : "auto_increment=".toList.isPrefixOf ('a' :: ("uto_increment=".toList ++ (ds ++ post)))
      = true ∧ leadingDigits (('a' :: ("uto_increment=".toList ++ (ds ++ post))).drop 15) ≠ [] := by
    refine ⟨hpre, ?_⟩
    show leadingDigits (("auto_increment=".toList ++ (ds ++ post)).drop 15) ≠ []
    rw [hdrop, hld]
    exact hne
  rw [if_pos hcond]
  show "auto_increment=".toList ++ leadingDigits (("auto_increment=".toList ++ (ds ++ post)).drop 15) = _
  rw [hdrop, hld]


theorem autoIncrementSeed_first (options : String) (pre ds post : List Char)
    (hopt : options.toList = pre ++ ("auto_increment=".toList ++ (ds ++ post)))
    (hne : ds ≠ []) (hds : ∀ ch ∈ ds, ch.isDigit = true)
    (hpost : ∀ ch, post.head? = some ch → ch.isDigit = false)
    (hfirst : ∀ i, i < pre.length → ¬ autoIncrementAt (options.toList.drop i)) :
    autoIncrementSeed options = String.mk ds := by
  unfold autoIncrementSeed
  rw [hopt] at hfirst ⊢
  rw [findAutoIncrement_skip pre _ hfirst, findAutoIncrement_match ds post hne hds hpost]
  have hlen : ("auto_increment=".toList ++ ds).length ≥ 15 := by
    simp only [List.length_append]
    have : "auto_increment=".toList.length = 15 := rfl
    omega
  simp only [hlen, if_true]
  rfl

theorem autoIncrementSeed_none (options : String)
    (hno : ∀ i, ¬ autoIncrementAt (options.toList.drop i)) :
    autoIncrementSeed options = "" := by
  unfold autoIncrementSeed
  rw [findAutoIncrement_none_aux _ _ rfl hno]
  rfl

/-- C15: the text `DmColumnType.Format` writes for the base type, with which the
rendered text starts, is `timestamp` for type `datetime`; `char(L)` for `char`
with length `L`; `varchar(L CHAR)` for `varchar` with length `L`, `L` being the
printed length (its digits for an integer literal); `text` for `longtext` and for
`mediumtext`; and the type name itself for every other type name. -/
theorem DmColumnType_base_type (x : Externals) (dct : DmColumnType) :
    (∃ rest, dct.Format x = dct.baseText x ++ rest)
      ∧ (dct.Typ = "datetime" → dct.baseText x = "timestamp")
      ∧ (∀ l, dct.Typ = "char" → dct.Length = some l →
          dct.baseText x = "char(" ++ l.Format x ++ ")")
      ∧ (∀ l, dct.Typ = "varchar" → dct.Length = some l →
          dct.baseText x = "varchar(" ++ l.Format x ++ " CHAR)")
      ∧ (∀ l : SQLVal, l.Typ = .IntVal → l.Format x = l.Val)
      ∧ (dct.Typ = "longtext" ∨ dct.Typ = "mediumtext" → dct.baseText x = "text")
      ∧ (dct.Typ ∉ ["datetime", "char", "varchar", "longtext", "mediumtext"] →
          dct.baseText x = dct.Typ) := by
  refine ⟨⟨_, rfl⟩, ?_, ?_, ?_, ?_, ?_, ?_⟩
  · intro h
    simp [DmColumnType.baseText, h]
  · intro l h hl
    simp [DmColumnType.baseText, h, hl]
  · intro l h hl
    simp [DmColumnType.baseText, h, hl]
  · intro l hl
    simp [SQLVal.Format, hl]
  · intro h
    rcases h with h | h <;> simp [DmColumnType.baseText, h]
  · intro h
    simp only [List.mem_cons, List.mem_singleton, not_or, List.not_mem_nil, or_false] at h
    obtain ⟨h1, h2, h3, h4, h5⟩ := h
    simp [DmColumnType.baseText, h1, h2, h3, h4, h5]

/-- C16 (counterexample): in the `DmDDL` built from `create table t (id smallint
auto_increment, n bigint auto_increment) ... auto_increment=7 ...` the column `id`,
flagged auto-increment and of the integral type `smallint`, has no identity option
and renders as `id smallint`. -/
theorem FromCreateDDL_smallint_no_identity :
    ∃ dm dspec, DmDDL.FromCreateDDL createSmallintDDL = .ok dm ∧ dm.TableSpec = some dspec
      ∧ dspec.Columns.map (fun d => d.Typ.Autoincrement) = [true, true]
      ∧ dspec.Columns.map (fun d => d.Typ.identityOpts) = [[], ["IDENTITY(7,1)"]]
      ∧ dspec.Columns.map (fun d => d.Format sampleExternals)
          = ["id smallint", "n bigint IDENTITY(7,1)"] :=
  ⟨_, _, rfl, rfl, rfl, by decide, by decide⟩

/-- C16 (amended): in the `DmDDL` built by `FromCreateDDL`, a column gets the identity
option (lines 466-475 of `DmColumnType.Format`) exactly when it is flagged
auto-increment and its base type is `bigint`, `integer` or `int`; the option is
`IDENTITY(seed,1)`, where `seed` is the run of digits of the first
`auto_increment=<digits>` of the table options, and `1` when the options hold no
such text. -/
theorem FromCreateDDL_identity (ddl : DDL) (spec : TableSpec)
    (hspec : ddl.TableSpec = some spec) :
    ∃ dm dspec, DmDDL.FromCreateDDL ddl = .ok dm ∧ dm.TableSpec = some dspec
      ∧ dspec.Columns.map (fun d => (d.Name, d.Typ.identityOpts))
          = spec.Columns.map (fun col =>
              (col.Name,
                if col.Typ.Autoincrement = true
                    ∧ (col.Typ.Typ = "bigint" ∨ col.Typ.Typ = "integer" ∨ col.Typ.Typ = "int") then
                  ["IDENTITY("
                    ++ (if autoIncrementSeed spec.Options = "" then "1"
                        else autoIncrementSeed spec.Options)
                    ++ ",1)"]
                else []))
      ∧ (∀ pre ds post : List Char,
          spec.Options.toList = pre ++ ("auto_increment=".toList ++ (ds ++ post)) →
          ds ≠ [] → (∀ ch ∈ ds, ch.isDigit = true) →
          (∀ ch, post.head? = some ch → ch.isDigit = false) →
          (∀ i, i < pre.length → ¬ autoIncrementAt (spec.Options.toList.drop i)) →
          autoIncrementSeed spec.Options = String.mk ds)
      ∧ ((∀ i, ¬ autoIncrementAt (spec.Options.toList.drop i)) →
          autoIncrementSeed spec.Options = "") := by
  unfold DmDDL.FromCreateDDL
  rw [hspec]
  refine ⟨_, _, rfl, rfl, ?_, ?_, ?_⟩
  · simp only [List.map_map]
    apply List.map_congr_left
    intro col _
    simp only [Function.comp, DmColumnType.identityOpts]
    by_cases hauto : col.Typ.Autoincrement = true
    · by_cases htyp : col.Typ.Typ = "bigint" ∨ col.Typ.Typ = "integer" ∨ col.Typ.Typ = "int"
      · by_cases hseed : autoIncrementSeed spec.Options = ""
        · simp [hauto, htyp, hseed]
        · simp [hauto, htyp, hseed]
      · simp [hauto, htyp]
    · simp [hauto]
  · intro pre ds post hopt hne hds hpost hfirst
    exact autoIncrementSeed_first _ pre ds post hopt hne hds hpost hfirst
  · intro hno
    exact autoIncrementSeed_none _ hno

/-- C16 (witness): the `DmDDL` built from `createSmallintDDL`, whose options hold
`auto_increment=7`. -/
theorem FromCreateDDL_identity_witness :
    ∃ dm dspec, DmDDL.FromCreateDDL createSmallintDDL = .ok dm ∧ dm.TableSpec = some dspec
      ∧ dspec.Columns.map (fun d => (d.Name, d.Typ.identityOpts))
          = [("id", []), ("n", ["IDENTITY(7,1)"])] := by
  obtain ⟨dm, dspec, h1, h2, h3, -, -⟩ := FromCreateDDL_identity createSmallintDDL _ rfl
  refine ⟨dm, dspec, h1, h2, ?_⟩
  rw [h3]
  decide


theorem getUniqueConditionColumns_eq (c : OracleConverter) (stmt : Insert) :
    c.getUniqueConditionColumns stmt
      = ((c.tableUniqueIndexs stmt.Table.Name).filter
          (fun entry => decide (countIndexMatches stmt.Columns entry.2 = entry.2.length))).map
          Prod.snd := by
  unfold OracleConverter.getUniqueConditionColumns
  have gen : ∀ (entries : List (String × List String)) (init : List (List String)),
      entries.foldl
        (fun (condcols : List (List String)) (entry : String × List String) =>
          if countIndexMatches stmt.Columns entry.2 = entry.2.length then condcols ++ [entry.2]
          else condcols) init
        = init ++ (entries.filter
            (fun entry => decide (countIndexMatches stmt.Columns entry.2 = entry.2.length))).map
            Prod.snd := by
    intro entries
    induction entries with
    | nil => intro init; simp
    | cons e es ih =>
      intro init
      rw [List.foldl_cons, ih]
      by_cases h : countIndexMatches stmt.Columns e.2 = e.2.length
      · simp [h, List.filter_cons]
      · simp [h, List.filter_cons]
  simpa using gen (c.tableUniqueIndexs stmt.Table.Name) []

theorem count_eq_of_covered {columns : List ColIdent} (hnodup : columns.Nodup)
    (iii : List String) (hcov : ∀ v ∈ iii, v ∈ columns) :
    (columns.map (fun col => iii.count col)).sum = iii.length := by
  induction iii with
  | nil => simp
  | cons v vs ih =>
    rw [sum_count_cons, ih (fun w hw => hcov w (List.mem_cons_of_mem _ hw)),
      List.count_eq_one_of_mem hnodup (hcov v (List.mem_cons_self _ _)), List.length_cons]
    omega

theorem mem_getUniqueConditionColumns {c : OracleConverter} {stmt : Insert}
    (hnodup : stmt.Columns.Nodup) (t : List String) :
    t ∈ c.getUniqueConditionColumns stmt
      ↔ ∃ entry ∈ c.tableUniqueIndexs stmt.Table.Name,
          entry.2 = t ∧ ∀ v ∈ entry.2, v ∈ stmt.Columns := by
  rw [getUniqueConditionColumns_eq]
  simp only [List.mem_map, List.mem_filter, decide_eq_true_eq]
  constructor
  · rintro ⟨entry, ⟨hmem, hcount⟩, rfl⟩
    rw [countIndexMatches_eq_sum] at hcount
    exact ⟨entry, hmem, rfl, (covered_of_count_eq hnodup entry.2).2 hcount⟩
  · rintro ⟨entry, hmem, rfl, hcov⟩
    refine ⟨entry, ⟨hmem, ?_⟩, rfl⟩
    rw [countIndexMatches_eq_sum]
    exact count_eq_of_covered hnodup entry.2 hcov

theorem buildComparisons_eq (stmt : Insert) (condcol : List String) :
    buildComparisons stmt condcol
      = (stmt.Columns.filter (fun column => StringIn column condcol)).map (fun column =>
          Expr.comparisonExpr EqualStr
            (.colName { Name := column, Qualifier := { Name := "t", Qualifier := "" } })
            (.colName { Name := column, Qualifier := { Name := "s", Qualifier := "" } })) := by
  unfold buildComparisons
  have gen : ∀ (cols : List ColIdent) (init : List Expr),
      cols.foldl
        (fun (expr : List Expr) (column : ColIdent) =>
          if StringIn column condcol then
            expr ++ [.comparisonExpr EqualStr
              (.colName { Name := column, Qualifier := { Name := "t", Qualifier := "" } })
              (.colName { Name := column, Qualifier := { Name := "s", Qualifier := "" } })]
          else expr) init
        = init ++ (cols.filter (fun column => StringIn column condcol)).map (fun column =>
            Expr.comparisonExpr EqualStr
              (.colName { Name := column, Qualifier := { Name := "t", Qualifier := "" } })
              (.colName { Name := column, Qualifier := { Name := "s", Qualifier := "" } })) := by
    intro cols
    induction cols with
    | nil => intro init; simp
    | cons col cols ih =>
      intro init
      rw [List.foldl_cons, ih]
      by_cases h : StringIn col condcol = true
      · simp [h, List.filter_cons]
      · simp [h, List.filter_cons]
  simpa using gen stmt.Columns []

theorem foldl_and_not_nil (es : List Expr) :
    ∀ (k : Nat) (acc : Expr), 1 ≤ k → acc.isNil = false →
      ((es.enumFrom k).foldl
        (fun (condition : Expr) (jc : Nat × Expr) =>
          if jc.1 = 0 then jc.2 else .andExpr condition jc.2) acc).isNil = false := by
  induction es with
  | nil => intro k acc _ hacc; simpa using hacc
  | cons e es ih =>
    intro k acc hk _
    have hk0 : ¬ k = 0 := by omega
    simp only [List.enumFrom_cons, List.foldl_cons, if_neg hk0]
    exact ih (k + 1) _ (by omega) rfl

theorem andOfComparisons_not_nil (e : Expr) (es : List Expr) (he : e.isNil = false) :
    (andOfComparisons (e :: es)).isNil = false := by
  unfold andOfComparisons
  simp only [List.enum, List.enumFrom_cons, List.foldl_cons, if_true]
  exact foldl_and_not_nil es 1 e (by omega) he

theorem foldl_or_not_nil (es : List (List Expr)) :
    ∀ (k : Nat) (acc : Expr), 1 ≤ k → es ≠ [] →
      ((es.enumFrom k).foldl
        (fun (conditions : Expr) (ie : Nat × List Expr) =>
          if ie.1 = 0 then andOfComparisons ie.2
          else .orExpr conditions (andOfComparisons ie.2)) acc).isNil = false := by
  induction es with
  | nil => intro k acc _ h; exact absurd rfl h
  | cons e es ih =>
    intro k acc hk _
    have hk0 : ¬ k = 0 := by omega
    simp only [List.enumFrom_cons, List.foldl_cons, if_neg hk0]
    cases es with
    | nil => rfl
    | cons e' es' => exact ih (k + 1) _ (by omega) (by simp)

theorem buildJoinConditions_not_nil (stmt : Insert) (t0 : List String)
    (rest : List (List String))
    (hone : rest = [] → ∃ col ∈ stmt.Columns, col ∈ t0) :
    (buildJoinConditions stmt (t0 :: rest)).isNil = false := by
  unfold buildJoinConditions
  simp only [List.map_cons, List.length_cons, Nat.add_one_ne_zero, if_false, List.enum,
    List.enumFrom_cons, List.foldl_cons, if_true]
  cases rest with
  | nil =>
    obtain ⟨col, hcol, ht0⟩ := hone rfl
    simp only [List.map_nil, List.enumFrom_nil, List.foldl_nil]
    rw [buildComparisons_eq]
    have hmem : col ∈ stmt.Columns.filter (fun column => StringIn column t0) := by
      simp [List.mem_filter, hcol, StringIn, ht0]
    cases hf : stmt.Columns.filter (fun column => StringIn column t0) with
    | nil => rw [hf] at hmem; cases hmem
    | cons a as =>
      simp only [List.map_cons]
      exact andOfComparisons_not_nil _ _ rfl
  | cons t1 ts =>
    exact foldl_or_not_nil _ 1 _ (by omega) (by simp)

theorem buildMatchedExpr_ok (stmt : Insert) (condcols : List (List String))
    (hdup : stmt.OnDup = none) (hvals : stmt.Columns.length ≤ stmt.Rows.sqlVals.length)
    (hout : ∃ col ∈ stmt.Columns, ∀ t ∈ condcols, col ∉ t) :
    ∃ exprs, buildMatchedExpr stmt condcols = .ok exprs ∧ exprs ≠ [] := by
  unfold buildMatchedExpr
  rw [hdup]
  simp only [foldl_append_flatten, List.nil_append, getInsertValues]
  have gen : ∀ (cols : List ColIdent) (k : Nat) (acc : List UpdateExpr),
      k + cols.length ≤ stmt.Rows.sqlVals.length →
      ∃ res, (cols.enumFrom k).foldlM
          (fun (exprs : List UpdateExpr) (ic : Nat × ColIdent) =>
            if (!StringIn ic.2 condcols.flatten) = true then
              match stmt.Rows.sqlVals.get? ic.1 with
              | some p =>
                Except.ok (exprs ++ [{ Name := { Name := ic.2,
                                                 Qualifier := { Name := "", Qualifier := "" } },
                                       Expr := Expr.sqlVal p }])
              | none => Except.error "index out of range"
            else Except.ok exprs) acc = .ok res
        ∧ (acc ≠ [] ∨ (∃ col ∈ cols, StringIn col condcols.flatten = false) → res ≠ []) := by
    intro cols
    induction cols with
    | nil =>
      intro k acc _
      refine ⟨acc, rfl, ?_⟩
      rintro (h | ⟨col, hcol, _⟩)
      · exact h
      · cases hcol
    | cons col cols ih =>
      intro k acc hk
      simp only [List.length_cons] at hk
      simp only [List.enumFrom_cons, List.foldlM_cons]
      by_cases hin : StringIn col condcols.flatten = true
      · simp only [hin, Bool.not_true, Bool.false_eq_true, if_false]
        obtain ⟨res, hres, hne⟩ := ih (k + 1) acc (by omega)
        refine ⟨res, hres, ?_⟩
        rintro (h | ⟨col', hcol', hnot⟩)
        · exact hne (Or.inl h)
        · rcases List.mem_cons.mp hcol' with h | h
          · rw [h, hin] at hnot; cases hnot
          · exact hne (Or.inr ⟨col', h, hnot⟩)
      · have hin' : StringIn col condcols.flatten = false := by
          cases hb : StringIn col condcols.flatten
          · rfl
          · exact absurd hb hin
        have hget : ∃ p, stmt.Rows.sqlVals.get? k = some p := by
          have hlt : k < stmt.Rows.sqlVals.length := by omega
          exact ⟨_, List.get?_eq_get hlt⟩
        obtain ⟨p, hp⟩ := hget
        simp only [hin', Bool.not_false, if_true, hp]
        obtain ⟨res, hres, hne⟩ := ih (k + 1)
          (acc ++ [{ Name := { Name := col, Qualifier := { Name := "", Qualifier := "" } },
                     Expr := Expr.sqlVal p }]) (by omega)
        exact ⟨res, hres, fun _ => hne (Or.inl (by simp))⟩
  obtain ⟨res, hres, hne⟩ := gen stmt.Columns 0 [] (by simpa using hvals)
  refine ⟨res, hres, hne (Or.inr ?_)⟩
  obtain ⟨col, hcol, hnot⟩ := hout
  refine ⟨col, hcol, ?_⟩
  cases hb : StringIn col condcols.flatten
  · rfl
  · exfalso
    have hmem : col ∈ condcols.flatten := by simpa [StringIn] using hb
    obtain ⟨t, ht, hm⟩ := List.mem_flatten.mp hmem
    exact hnot t ht hm


/-- C11 (counterexample): `REPLACE INTO t (id, a) VALUES (x0, x1)` where `t` has the
unique index `PRIMARY (id)`: the column list covers the index and holds the column
`a` outside it, but `id` is auto-increment, the strip removes it and
`convertInsert` returns an `Insert` with the columns `(a)`. -/
theorem convertInsert_replace_stays_insert :
    catalogIdKey.tableUniqueIndexs replaceIdFirst.Table.Name = [("PRIMARY", ["id"])]
      ∧ replaceIdFirst.Columns = ["id", "a"]
      ∧ ∃ s, catalogIdKey.convertInsert replaceIdFirst = .ok (.insert s)
          ∧ s.Columns = ["a"] :=
  ⟨rfl, rfl, _, rfl, rfl⟩

/-- C11 (amended): a REPLACE (action `replace`, no `OnDup`) is rewritten by
`convertInsert` into a `Merge` when, after the auto-increment strip, its column
list has no repeated name, covers at least one non-empty unique index of its
table and contains a column outside every covered index, and its rows hold at
least as many literal values as there are columns. -/
theorem convertInsert_replace_to_merge (c : OracleConverter) (stmt : Insert)
    (hact : stmt.Action = ReplaceStr) (hdup : stmt.OnDup = none)
    (hnodup : (c.convertInsertIncrement stmt).Columns.Nodup)
    (hcov : ∃ entry ∈ c.tableUniqueIndexs stmt.Table.Name,
      entry.2 ≠ [] ∧ ∀ v ∈ entry.2, v ∈ (c.convertInsertIncrement stmt).Columns)
    (hout : ∃ col ∈ (c.convertInsertIncrement stmt).Columns,
      ∀ entry ∈ c.tableUniqueIndexs stmt.Table.Name,
        (∀ v ∈ entry.2, v ∈ (c.convertInsertIncrement stmt).Columns) → col ∉ entry.2)
    (hvals : (c.convertInsertIncrement stmt).Columns.length
      ≤ (c.convertInsertIncrement stmt).Rows.sqlVals.length) :
    ∃ m, c.convertInsert stmt = .ok (.merge m)
      ∧ m.Unmatched.Columns = (c.convertInsertIncrement stmt).Columns := by
  have hdup' : (c.convertInsertIncrement stmt).OnDup = none := by
    rw [convertInsertIncrement_OnDup, hdup]
  have hTable : (c.convertInsertIncrement stmt).Table.Name = stmt.Table.Name := by
    rw [convertInsertIncrement_Table]
  have hmemc := fun t => mem_getUniqueConditionColumns (c := c) hnodup t
  simp only [hTable] at hmemc
  obtain ⟨entry, hentry, hne, hcovered⟩ := hcov
  have hin : entry.2 ∈ c.getUniqueConditionColumns (c.convertInsertIncrement stmt) :=
    (hmemc entry.2).mpr ⟨entry, hentry, rfl, hcovered⟩
  have hout' : ∃ col ∈ (c.convertInsertIncrement stmt).Columns,
      ∀ t ∈ c.getUniqueConditionColumns (c.convertInsertIncrement stmt), col ∉ t := by
    obtain ⟨col, hcol, hnot⟩ := hout
    refine ⟨col, hcol, ?_⟩
    intro t ht
    obtain ⟨e, he, heq, hc⟩ := (hmemc t).mp ht
    rw [← heq]
    exact hnot e he hc
  obtain ⟨exprs, hexprs, hexne⟩ := buildMatchedExpr_ok (c.convertInsertIncrement stmt)
    (c.getUniqueConditionColumns (c.convertInsertIncrement stmt)) hdup' hvals hout'
  have hfirst : ¬ ((c.convertInsertIncrement stmt).Action = InsertStr
      ∧ (c.convertInsertIncrement stmt).OnDup.isNone = true) := by
    rw [convertInsertIncrement_Action, hact]
    rintro ⟨h, -⟩
    exact absurd h (by decide)
  have hcolsne : ¬ (c.convertInsertIncrement stmt).Columns.length = 0 := by
    obtain ⟨col, hcol, -⟩ := hout
    intro h0
    rw [List.length_eq_zero.mp h0] at hcol
    cases hcol
  have hcondne : ¬ (c.getUniqueConditionColumns (c.convertInsertIncrement stmt)).length = 0 := by
    intro h0
    rw [List.length_eq_zero.mp h0] at hin
    cases hin
  have hexlen : ¬ exprs.length = 0 := fun h0 => hexne (List.length_eq_zero.mp h0)
  have hjoin : (buildJoinConditions (c.convertInsertIncrement stmt)
      (c.getUniqueConditionColumns (c.convertInsertIncrement stmt))).isNil = false := by
    cases hcc : c.getUniqueConditionColumns (c.convertInsertIncrement stmt) with
    | nil => rw [hcc] at hin; cases hin
    | cons t0 rest =>
      apply buildJoinConditions_not_nil
      intro hrest
      rw [hcc, hrest] at hin
      have ht0 : entry.2 = t0 := by simpa using hin
      rw [← ht0]
      cases he2 : entry.2 with
      | nil => exact absurd he2 hne
      | cons v vs =>
        exact ⟨v, hcovered v (by rw [he2]; exact List.mem_cons_self _ _), List.mem_cons_self _ _⟩
  unfold OracleConverter.convertInsert
  simp only [if_neg hfirst, if_neg hcolsne, if_neg hcondne, hexprs,
    OracleConverter.buildMergeTableExpr, hjoin, Bool.false_eq_true, if_false, if_neg hexlen]
  exact ⟨_, rfl, rfl⟩

/-- C11 (witness): `REPLACE INTO t (a, b) VALUES (x0, x1)` where `t` has the unique
index `PRIMARY (a)`. -/
theorem convertInsert_replace_to_merge_witness :
    ∃ m, catalogKeyA.convertInsert replaceTwoCols = .ok (.merge m)
      ∧ m.Unmatched.Columns = ["a", "b"] :=
  convertInsert_replace_to_merge catalogKeyA replaceTwoCols rfl rfl (by decide)
    ⟨("PRIMARY", ["a"]), by decide, by decide, by decide⟩
    ⟨"b", by decide, by decide⟩ (by decide)


theorem replaceChars_skip (old new : List Char) (s : List Char) :
    ∀ k : Nat, replaceChars old new k s = replaceChars old new 0 (s.drop k) := by
  induction s with
  | nil => intro k; cases k <;> rfl
  | cons c cs ih =>
    intro k
    cases k with
    | zero => rfl
    | succ k =>
      rw [List.drop_succ_cons, ← ih k]
      rfl

theorem replaceChars_match (old new : List Char) (hold : old ≠ []) (s : List Char)
    (h : old.isPrefixOf s = true) :
    replaceChars old new 0 s = new ++ replaceChars old new 0 (s.drop old.length) := by
  cases s with
  | nil =>
    cases old with
    | nil => exact absurd rfl hold
    | cons o os => simp [List.isPrefixOf] at h
  | cons c cs =>
    rw [replaceChars, if_pos h, replaceChars_skip]
    have hlen : old.length = (old.length - 1) + 1 := by
      have : 0 < old.length := List.length_pos.mpr hold
      omega
    conv_rhs => rw [hlen, List.drop_succ_cons]

theorem replaceChars_nomatch (old new : List Char) (c : Char) (cs : List Char)
    (h : old.isPrefixOf (c :: cs) = false) :
    replaceChars old new 0 (c :: cs) = c :: replaceChars old new 0 cs := by
  rw [replaceChars, if_neg (by simp [h])]

theorem replace_induction (old : List Char) (hold : old ≠ []) (P : List Char → Prop)
    (hnil : P [])
    (hmatch : ∀ s, old.isPrefixOf s = true → P (s.drop old.length) → P s)
    (hstep : ∀ c cs, old.isPrefixOf (c :: cs) = false → P cs → P (c :: cs)) :
    ∀ s, P s := by
  have key : ∀ n (s : List Char), s.length ≤ n → P s := by
    intro n
    induction n with
    | zero =>
      intro s hs
      rw [List.length_eq_zero.mp (Nat.le_zero.mp hs)]
      exact hnil
    | succ n ih =>
      intro s hs
      cases s with
      | nil => exact hnil
      | cons c cs =>
        cases hp : old.isPrefixOf (c :: cs) with
        | true =>
          apply hmatch _ hp
          apply ih
          have : 0 < old.length := List.length_pos.mpr hold
          simp only [List.length_drop, List.length_cons] at hs ⊢
          omega
        | false =>
          apply hstep c cs hp
          apply ih
          simpa using hs
  intro s
  exact key s.length s (Nat.le_refl _)

theorem isPrefixOf_eq_append {P s : List Char} (h : P.isPrefixOf s = true) :
    s = P ++ s.drop P.length := by
  have hp : P <+: s := List.isPrefixOf_iff_prefix.mp h
  obtain ⟨t, ht⟩ := hp
  rw [← ht]
  simp

theorem containsChars_cons (P : List Char) (c : Char) (cs : List Char) :
    containsChars P (c :: cs) = (P.isPrefixOf (c :: cs) || containsChars P cs) := rfl

theorem containsChars_at_head {P s : List Char} (h : P.isPrefixOf s = true) :
    containsChars P s = true := by
  cases s with
  | nil =>
    cases P with
    | nil => rfl
    | cons p ps => simp [List.isPrefixOf] at h
  | cons c cs => rw [containsChars_cons, h]; rfl

theorem containsChars_drop (P : List Char) (s : List Char) :
    ∀ k, containsChars P (s.drop k) = true → containsChars P s = true := by
  induction s with
  | nil => intro k h; simpa using h
  | cons c cs ih =>
    intro k h
    cases k with
    | zero => simpa using h
    | succ k =>
      rw [List.drop_succ_cons] at h
      rw [containsChars_cons, ih k h]
      simp

theorem containsChars_append_left (P a l : List Char) (p : Char) (ps : List Char)
    (hP : P = p :: ps) (ha : ∀ ch ∈ a, ch ≠ p) :
    containsChars P (a ++ l) = containsChars P l := by
  induction a with
  | nil => rfl
  | cons c cs ih =>
    have hc : c ≠ p := ha c (List.mem_cons_self _ _)
    rw [List.cons_append, containsChars_cons, ih (fun ch hch => ha ch (List.mem_cons_of_mem _ hch))]
    have : P.isPrefixOf (c :: (cs ++ l)) = false := by
      rw [hP]
      simp [List.isPrefixOf, hc.symm]
    rw [this]
    rfl

theorem replaceChars_prefix_reflected (old new : List Char) (hold : old ≠ []) (hnew : new ≠ []) :
    ∀ s (P : List Char), (∀ ch ∈ P, ch ∉ new) →
      P.isPrefixOf (replaceChars old new 0 s) = true → P.isPrefixOf s = true := by
  apply replace_induction old hold
    (fun s => ∀ (P : List Char), (∀ ch ∈ P, ch ∉ new) →
      P.isPrefixOf (replaceChars old new 0 s) = true → P.isPrefixOf s = true)
  · intro P _ h
    simpa [replaceChars] using h
  · intro s hs _ P hP h
    rw [replaceChars_match old new hold s hs] at h
    cases P with
    | nil => simp
    | cons p ps =>
      cases new with
      | nil => exact absurd rfl hnew
      | cons n ns =>
        simp only [List.cons_append, List.isPrefixOf, Bool.and_eq_true, beq_iff_eq] at h
        exact absurd (List.mem_cons_self n ns) (h.1 ▸ hP p (List.mem_cons_self _ _))
  · intro c cs hc ih P hP h
    rw [replaceChars_nomatch old new c cs hc] at h
    cases P with
    | nil => simp
    | cons p ps =>
      simp only [List.isPrefixOf, Bool.and_eq_true, beq_iff_eq] at h ⊢
      exact ⟨h.1, ih ps (fun ch hch => hP ch (List.mem_cons_of_mem _ hch)) h.2⟩

theorem replaceChars_reflect_contains (old new : List Char) (hold : old ≠ []) (hnew : new ≠ [])
    (P : List Char) (hPne : P ≠ []) (hP : ∀ ch ∈ P, ch ∉ new) :
    ∀ s, containsChars P (replaceChars old new 0 s) = true → containsChars P s = true := by
  obtain ⟨p, ps, hPeq⟩ : ∃ p ps, P = p :: ps := by
    cases P with
    | nil => exact absurd rfl hPne
    | cons p ps => exact ⟨p, ps, rfl⟩
  apply replace_induction old hold
    (fun s => containsChars P (replaceChars old new 0 s) = true → containsChars P s = true)
  · intro h
    simpa [replaceChars] using h
  · intro s hs ih h
    rw [replaceChars_match old new hold s hs,
      containsChars_append_left P new _ p ps hPeq
        (fun ch hch heq => hP p (by rw [hPeq]; exact List.mem_cons_self _ _) (heq ▸ hch))] at h
    exact containsChars_drop P s _ (ih h)
  · intro c cs hc ih h
    rw [replaceChars_nomatch old new c cs hc, containsChars_cons] at h
    rw [containsChars_cons]
    rcases Bool.or_eq_true _ _ |>.mp h with h1 | h2
    · have := replaceChars_prefix_reflected old new hold hnew (c :: cs) P hP
        (by rw [replaceChars_nomatch old new c cs hc]; exact h1)
      rw [this]; rfl
    · rw [ih h2]; simp


theorem replaceChars_single_removed (a : Char) (new : List Char) (ha : a ∉ new) :
    ∀ s, containsChars [a] (replaceChars [a] new 0 s) = false := by
  apply replace_induction [a] (by simp)
    (fun s => containsChars [a] (replaceChars [a] new 0 s) = false)
  · rfl
  · intro s hs ih
    rw [replaceChars_match [a] new (by simp) s hs,
      containsChars_append_left [a] new _ a [] rfl (fun ch hch heq => ha (heq ▸ hch))]
    exact ih
  · intro c cs hc ih
    rw [replaceChars_nomatch [a] new c cs hc, containsChars_cons, ih]
    have hca : ¬ a = c := by
      intro h
      rw [h] at hc
      simp [List.isPrefixOf] at hc
    simp [List.isPrefixOf, hca]

theorem replaceChars_preserve (old new : List Char) (hold : old ≠ []) (hnew : new ≠ [])
    (P : List Char) (hPne : P ≠ []) (hP : ∀ ch ∈ P, ch ∉ new) (s : List Char)
    (h : containsChars P s = false) :
    containsChars P (replaceChars old new 0 s) = false := by
  cases hc : containsChars P (replaceChars old new 0 s) with
  | false => rfl
  | true =>
    rw [replaceChars_reflect_contains old new hold hnew P hPne hP s hc] at h
    cases h

theorem replaceChars_head (old new : List Char) (hold : old ≠ []) (s : List Char) (ch : Char)
    (h : (replaceChars old new 0 s).head? = some ch) :
    s.head? = some ch ∨ (old.isPrefixOf s = true ∧ (new ++ replaceChars old new 0
      (s.drop old.length)).head? = some ch) := by
  cases s with
  | nil => simp [replaceChars] at h
  | cons c cs =>
    cases hp : old.isPrefixOf (c :: cs) with
    | true =>
      rw [replaceChars_match old new hold _ hp] at h
      exact Or.inr ⟨rfl, h⟩
    | false =>
      rw [replaceChars_nomatch old new c cs hp] at h
      exact Or.inl h

theorem containsChars_false_cons {P : List Char} {c : Char} {cs : List Char}
    (h : containsChars P (c :: cs) = false) :
    P.isPrefixOf (c :: cs) = false ∧ containsChars P cs = false := by
  rw [containsChars_cons] at h
  exact Bool.or_eq_false_iff.mp h

theorem containsChars_false_drop {P s : List Char} (k : Nat)
    (h : containsChars P s = false) : containsChars P (s.drop k) = false := by
  cases hc : containsChars P (s.drop k) with
  | false => rfl
  | true => rw [containsChars_drop P s k hc] at h; cases h

theorem replaceChars_quote (s : List Char)
    (h : containsChars ['\\', '\\', '\''] s = false) :
    containsChars ['\\', '\''] (replaceChars ['\\', '\''] ['\'', '\''] 0 s) = false := by
  revert h
  apply replace_induction ['\\', '\''] (by simp)
    (fun s => containsChars ['\\', '\\', '\''] s = false →
      containsChars ['\\', '\''] (replaceChars ['\\', '\''] ['\'', '\''] 0 s) = false)
  · intro _; rfl
  · intro s hs ih h
    rw [replaceChars_match _ _ (by simp) s hs,
      containsChars_append_left ['\\', '\''] ['\'', '\''] _ '\\' ['\''] rfl
        (by intro ch hch; simp at hch; rw [hch]; decide)]
    exact ih (containsChars_false_drop _ h)
  · intro c cs hc ih h
    obtain ⟨h1, h2⟩ := containsChars_false_cons h
    rw [replaceChars_nomatch _ _ c cs hc, containsChars_cons, ih h2, Bool.or_false]
    cases hp : List.isPrefixOf ['\\', '\''] (c :: replaceChars ['\\', '\''] ['\'', '\''] 0 cs) with
    | false => rfl
    | true =>
      exfalso
      simp only [List.isPrefixOf, Bool.and_eq_true, beq_iff_eq] at hp
      obtain ⟨hc1, hrest⟩ := hp
      have hhead : (replaceChars ['\\', '\''] ['\'', '\''] 0 cs).head? = some '\'' := by
        cases hr : replaceChars ['\\', '\''] ['\'', '\''] 0 cs with
        | nil => rw [hr] at hrest; simp [List.isPrefixOf] at hrest
        | cons r rs =>
          rw [hr] at hrest
          simp only [List.isPrefixOf, Bool.and_eq_true, beq_iff_eq] at hrest
          rw [hrest.1]
          rfl
      rcases replaceChars_head _ _ (by simp) cs _ hhead with hcs | ⟨hcs, -⟩
      · cases cs with
        | nil => simp at hcs
        | cons d ds =>
          simp only [List.head?_cons, Option.some.injEq] at hcs
          rw [← hc1, hcs] at hc
          simp [List.isPrefixOf] at hc
      · cases cs with
        | nil => simp [List.isPrefixOf] at hcs
        | cons d ds =>
          cases ds with
          | nil => simp [List.isPrefixOf] at hcs
          | cons e es =>
            simp only [List.isPrefixOf, Bool.and_eq_true, beq_iff_eq] at hcs
            rw [← hc1, ← hcs.1, ← hcs.2.1] at h1
            simp [List.isPrefixOf] at h1


theorem sentinel_drop_mismatch (k : Nat) (hk : k ≤ 16) (l : List Char) :
    (sentinelChars.drop k).isPrefixOf (sentinelNewChars ++ l) = false := by
  interval_cases k <;> simp [sentinelChars, sentinelNewChars, List.isPrefixOf]

theorem sentinel_contains_new (l : List Char) :
    containsChars sentinelChars (sentinelNewChars ++ l)
      = ((sentinelChars.drop 2).isPrefixOf l || ((sentinelChars.drop 1).isPrefixOf l
          || containsChars sentinelChars l)) := by
  simp [sentinelChars, sentinelNewChars, containsChars, List.isPrefixOf]

theorem isPrefixOf_trans {a b c : List Char} (h1 : a.isPrefixOf b = true)
    (h2 : b.isPrefixOf c = true) : a.isPrefixOf c = true :=
  List.isPrefixOf_iff_prefix.mpr
    ((List.isPrefixOf_iff_prefix.mp h1).trans (List.isPrefixOf_iff_prefix.mp h2))

theorem sentinel_prefix_reflected :
    ∀ t (k : Nat),
      (sentinelChars.drop k).isPrefixOf (replaceChars sentinelChars sentinelNewChars 0 t) = true →
      (sentinelChars.drop k).isPrefixOf t = true := by
  apply replace_induction sentinelChars (by simp [sentinelChars])
    (fun t => ∀ (k : Nat),
      (sentinelChars.drop k).isPrefixOf (replaceChars sentinelChars sentinelNewChars 0 t) = true →
      (sentinelChars.drop k).isPrefixOf t = true)
  · intro k h
    simpa [replaceChars] using h
  · intro t ht _ k h
    rw [replaceChars_match _ _ (by simp [sentinelChars]) t ht] at h
    rcases (show k ≤ 16 ∨ k = 17 ∨ k = 18 ∨ 19 ≤ k by omega) with hk | hk | hk | hk
    · rw [sentinel_drop_mismatch k hk] at h
      cases h
    · subst hk
      exact isPrefixOf_trans (by decide) ht
    · subst hk
      exact isPrefixOf_trans (by decide) ht
    · have : sentinelChars.drop k = [] := by
        apply List.drop_eq_nil_of_le
        simpa [sentinelChars] using hk
      rw [this]
      simp
  · intro c cs hc ih k h
    rw [replaceChars_nomatch _ _ c cs hc] at h
    cases hd : sentinelChars.drop k with
    | nil => simp
    | cons p ps =>
      have hps : sentinelChars.drop (k + 1) = ps := by
        rw [← List.tail_drop, hd]
        rfl
      rw [hd] at h
      simp only [List.isPrefixOf, Bool.and_eq_true, beq_iff_eq] at h ⊢
      refine ⟨h.1, ?_⟩
      rw [← hps]
      apply ih (k + 1)
      rw [hps]
      exact h.2

theorem sentinel_followed (s : List Char) (k : Nat) (hk : k = 1 ∨ k = 2)
    (hs : sentinelChars.isPrefixOf s = true)
    (h : (sentinelChars.drop k).isPrefixOf (s.drop sentinelChars.length) = true) :
    containsChars (sentinelChars ++ ['0']) s = true := by
  apply containsChars_at_head
  have hs' := isPrefixOf_eq_append hs
  have hzero : ['0'].isPrefixOf (s.drop sentinelChars.length) = true := by
    rcases hk with hk | hk <;> subst hk <;> exact isPrefixOf_trans (by decide) h
  rw [hs']
  exact List.isPrefixOf_iff_prefix.mpr
    ((List.prefix_append_right_inj _).mpr (List.isPrefixOf_iff_prefix.mp hzero))

theorem replaceChars_sentinel (s : List Char)
    (h : containsChars (sentinelChars ++ ['0']) s = false) :
    containsChars sentinelChars (replaceChars sentinelChars sentinelNewChars 0 s) = false := by
  revert h
  apply replace_induction sentinelChars (by simp [sentinelChars])
    (fun s => containsChars (sentinelChars ++ ['0']) s = false →
      containsChars sentinelChars (replaceChars sentinelChars sentinelNewChars 0 s) = false)
  · intro _; rfl
  · intro s hs ih h
    rw [replaceChars_match _ _ (by simp [sentinelChars]) s hs, sentinel_contains_new,
      ih (containsChars_false_drop _ h), Bool.or_false]
    have h2 : (sentinelChars.drop 2).isPrefixOf
        (replaceChars sentinelChars sentinelNewChars 0 (s.drop sentinelChars.length)) = false := by
      cases hp : (sentinelChars.drop 2).isPrefixOf
          (replaceChars sentinelChars sentinelNewChars 0 (s.drop sentinelChars.length)) with
      | false => rfl
      | true =>
        rw [sentinel_followed s 2 (Or.inr rfl) hs (sentinel_prefix_reflected _ 2 hp)] at h
        cases h
    have h1 : (sentinelChars.drop 1).isPrefixOf
        (replaceChars sentinelChars sentinelNewChars 0 (s.drop sentinelChars.length)) = false := by
      cases hp : (sentinelChars.drop 1).isPrefixOf
          (replaceChars sentinelChars sentinelNewChars 0 (s.drop sentinelChars.length)) with
      | false => rfl
      | true =>
        rw [sentinel_followed s 1 (Or.inl rfl) hs (sentinel_prefix_reflected _ 1 hp)] at h
        cases h
    rw [h1, h2]
    rfl
  · intro c cs hc ih h
    obtain ⟨-, h2⟩ := containsChars_false_cons h
    rw [replaceChars_nomatch _ _ c cs hc, containsChars_cons, ih h2, Bool.or_false]
    cases hp : sentinelChars.isPrefixOf (c :: replaceChars sentinelChars sentinelNewChars 0 cs) with
    | false => rfl
    | true =>
      have := sentinel_prefix_reflected (c :: cs) 0
        (by rw [replaceChars_nomatch _ _ c cs hc]; exact hp)
      rw [List.drop_zero] at this
      rw [this] at hc
      cases hc


theorem replaceCommonIdents_cons (rule : String × String) (order : List (String × String))
    (x : String) :
    replaceCommonIdents (rule :: order) x
      = replaceCommonIdents order (ReplaceAll x rule.1 rule.2) := rfl

theorem replaceCommonIdents_preserve (Q : String → Prop) (order : List (String × String))
    (hQ : ∀ rule ∈ order, ∀ y, Q y → Q (ReplaceAll y rule.1 rule.2)) :
    ∀ x, Q x → Q (replaceCommonIdents order x) := by
  induction order with
  | nil => intro x hx; exact hx
  | cons rule order ih =>
    intro x hx
    rw [replaceCommonIdents_cons]
    exact ih (fun r hr => hQ r (List.mem_cons_of_mem _ hr)) _
      (hQ rule (List.mem_cons_self _ _) x hx)

theorem replaceCommonIdents_establish (Qpre Qpost : String → Prop) (ρ : String × String)
    (order : List (String × String)) (hnodup : order.Nodup) (hmem : ρ ∈ order)
    (hest : ∀ y, Qpre y → Qpost (ReplaceAll y ρ.1 ρ.2))
    (hpre : ∀ rule ∈ order, rule ≠ ρ → ∀ y, Qpre y → Qpre (ReplaceAll y rule.1 rule.2))
    (hpost : ∀ rule ∈ order, rule ≠ ρ → ∀ y, Qpost y → Qpost (ReplaceAll y rule.1 rule.2)) :
    ∀ x, Qpre x → Qpost (replaceCommonIdents order x) := by
  induction order with
  | nil => cases hmem
  | cons rule order ih =>
    intro x hx
    obtain ⟨hnot, hnd⟩ := List.nodup_cons.mp hnodup
    rw [replaceCommonIdents_cons]
    by_cases hr : rule = ρ
    · subst hr
      apply replaceCommonIdents_preserve Qpost order _ _ (hest x hx)
      intro r hr0 y hy
      exact hpost r (List.mem_cons_of_mem _ hr0) (fun h => hnot (h ▸ hr0)) y hy
    · have hmem' : ρ ∈ order := by
        rcases List.mem_cons.mp hmem with h | h
        · exact absurd h.symm hr
        · exact h
      exact ih hnd hmem' (fun r hr0 => hpre r (List.mem_cons_of_mem _ hr0))
        (fun r hr0 => hpost r (List.mem_cons_of_mem _ hr0)) _
        (hpre rule (List.mem_cons_self _ _) hr x hx)

theorem Contains_ReplaceAll_preserve (y old new P : String) (hold : old.toList ≠ [])
    (hnew : new.toList ≠ []) (hPne : P.toList ≠ []) (hP : ∀ ch ∈ P.toList, ch ∉ new.toList)
    (h : Contains y P = false) : Contains (ReplaceAll y old new) P = false :=
  replaceChars_preserve old.toList new.toList hold hnew P.toList hPne hP y.toList h

theorem table_rule_cases {order : List (String × String)}
    (hperm : order.Perm replaceCharsTable) {rule : String × String} (hr : rule ∈ order) :
    rule = ("`", "\"") ∨ rule = ("0000-00-00 00:00:00", "0001-01-01 00:00:00")
      ∨ rule = ("\\'", "''") := by
  have := hperm.mem_iff.mp hr
  simpa [replaceCharsTable] using this

theorem order_no_backtick (order : List (String × String))
    (hperm : order.Perm replaceCharsTable) (x : String) :
    Contains (replaceCommonIdents order x) "`" = false := by
  refine replaceCommonIdents_establish (fun _ => True) (fun y => Contains y "`" = false)
    ("`", "\"") order (hperm.nodup_iff.mpr (by decide)) (hperm.mem_iff.mpr (by decide))
    ?_ (fun _ _ _ _ _ => trivial) ?_ x trivial
  · intro y _
    exact replaceChars_single_removed (Char.ofNat 96) ['"'] (by decide) y.toList
  · intro rule hr hne y hy
    rcases table_rule_cases hperm hr with h | h | h
    · exact absurd h hne
    · subst h
      exact Contains_ReplaceAll_preserve y _ _ "`" (by decide) (by decide) (by decide)
        (by decide) hy
    · subst h
      exact Contains_ReplaceAll_preserve y _ _ "`" (by decide) (by decide) (by decide)
        (by decide) hy

theorem order_no_sentinel (order : List (String × String))
    (hperm : order.Perm replaceCharsTable) (x : String)
    (hx : Contains x "0000-00-00 00:00:000" = false) :
    Contains (replaceCommonIdents order x) "0000-00-00 00:00:00" = false := by
  refine replaceCommonIdents_establish (fun y => Contains y "0000-00-00 00:00:000" = false)
    (fun y => Contains y "0000-00-00 00:00:00" = false)
    ("0000-00-00 00:00:00", "0001-01-01 00:00:00") order (hperm.nodup_iff.mpr (by decide))
    (hperm.mem_iff.mpr (by decide)) ?_ ?_ ?_ x hx
  · intro y hy
    exact replaceChars_sentinel y.toList hy
  · intro rule hr hne y hy
    rcases table_rule_cases hperm hr with h | h | h
    · subst h
      exact Contains_ReplaceAll_preserve y _ _ "0000-00-00 00:00:000" (by decide) (by decide)
        (by decide) (by decide) hy
    · exact absurd h hne
    · subst h
      exact Contains_ReplaceAll_preserve y _ _ "0000-00-00 00:00:000" (by decide) (by decide)
        (by decide) (by decide) hy
  · intro rule hr hne y hy
    rcases table_rule_cases hperm hr with h | h | h
    · subst h
      exact Contains_ReplaceAll_preserve y _ _ "0000-00-00 00:00:00" (by decide) (by decide)
        (by decide) (by decide) hy
    · exact absurd h hne
    · subst h
      exact Contains_ReplaceAll_preserve y _ _ "0000-00-00 00:00:00" (by decide) (by decide)
        (by decide) (by decide) hy

theorem order_no_escaped_quote (order : List (String × String))
    (hperm : order.Perm replaceCharsTable) (x : String)
    (hx : Contains x "\\\\'" = false) :
    Contains (replaceCommonIdents order x) "\\'" = false := by
  refine replaceCommonIdents_establish (fun y => Contains y "\\\\'" = false)
    (fun y => Contains y "\\'" = false)
    ("\\'", "''") order (hperm.nodup_iff.mpr (by decide))
    (hperm.mem_iff.mpr (by decide)) ?_ ?_ ?_ x hx
  · intro y hy
    exact replaceChars_quote y.toList hy
  · intro rule hr hne y hy
    rcases table_rule_cases hperm hr with h | h | h
    · subst h
      exact Contains_ReplaceAll_preserve y _ _ "\\\\'" (by decide) (by decide)
        (by decide) (by decide) hy
    · subst h
      exact Contains_ReplaceAll_preserve y _ _ "\\\\'" (by decide) (by decide)
        (by decide) (by decide) hy
    · exact absurd h hne
  · intro rule hr hne y hy
    rcases table_rule_cases hperm hr with h | h | h
    · subst h
      exact Contains_ReplaceAll_preserve y _ _ "\\'" (by decide) (by decide)
        (by decide) (by decide) hy
    · subst h
      exact Contains_ReplaceAll_preserve y _ _ "\\'" (by decide) (by decide)
        (by decide) (by decide) hy
    · exact absurd h hne


/-- C13: for every input text and every order in which the three rules of
`replaceChars` are applied, the result of `replaceCommonIdents` contains no
backtick; hence no output that `Convert` produces for a supported statement kind
(the rendered rewritten statement, or the source text when the rewriter yields the
nil statement) contains a backtick. -/
theorem replaceCommonIdents_no_backtick (order : List (String × String))
    (hperm : order.Perm replaceCharsTable) :
    (∀ x : String, Contains (replaceCommonIdents order x) "`" = false)
      ∧ ∀ (α : Type) (c : OracleConverter) (ext : Externals) (sql : String) (args : List α)
          (r : ConvertResult α),
          c.Convert ext order sql args = .ok r → supportConvert (ext.Preview sql) = true →
          ∀ out ∈ r.outputs, Contains out "`" = false := by
  refine ⟨order_no_backtick order hperm, ?_⟩
  intro α c ext sql args r h hsup
  unfold OracleConverter.Convert at h
  simp only [hsup, Bool.not_true, Bool.false_eq_true, if_false] at h
  split at h
  · cases h
  · split at h
    · injection h with h
      subst h
      intro out hout
      cases hout
    · split at h
      · cases h
      · split at h
        · cases h
        · injection h with h
          subst h
          intro out hout
          rw [List.mem_singleton.mp hout]
          exact order_no_backtick order hperm _
        · injection h with h
          subst h
          intro out hout
          rw [List.mem_singleton.mp hout]
          exact order_no_backtick order hperm _

/-- C13 (witness): the rules in the order of the table, applied to a text with
quoted identifiers. -/
theorem replaceCommonIdents_no_backtick_witness :
    replaceCommonIdents replaceCharsTable "select `a` from `t`" = "select \"a\" from \"t\""
      ∧ Contains (replaceCommonIdents replaceCharsTable "select `a` from `t`") "`" = false :=
  ⟨rfl, (replaceCommonIdents_no_backtick replaceCharsTable (List.Perm.refl _)).1 _⟩

/-- C14 (counterexample): a backslash before an escaped quote, and a sentinel date
followed by the tail of a second one: each is replaced once, in one pass, and the
result holds a new occurrence of the replaced text. -/
theorem replaceCommonIdents_leaves_patterns :
    replaceCommonIdents replaceCharsTable "\\\\'" = "\\''"
      ∧ Contains (replaceCommonIdents replaceCharsTable "\\\\'") "\\'" = true
      ∧ replaceCommonIdents replaceCharsTable "0000-00-00 00:00:0000-00-00 00:00:00"
          = "0001-01-01 00:00:0000-00-00 00:00:00"
      ∧ Contains (replaceCommonIdents replaceCharsTable "0000-00-00 00:00:0000-00-00 00:00:00")
          "0000-00-00 00:00:00" = true :=
  ⟨rfl, rfl, rfl, rfl⟩

/-- C14 (amended): for every input text that contains no backslash directly before
a backslash-quote and no sentinel date `0000-00-00 00:00:00` directly followed by
the digit `0`, and for every order in which the three rules are applied, the result
of `replaceCommonIdents` contains no occurrence of the sentinel date and no
occurrence of backslash-quote. -/
theorem replaceCommonIdents_no_sentinel_no_escaped_quote (order : List (String × String))
    (hperm : order.Perm replaceCharsTable) (x : String)
    (hquote : Contains x "\\\\'" = false)
    (hdate : Contains x "0000-00-00 00:00:000" = false) :
    Contains (replaceCommonIdents order x) "0000-00-00 00:00:00" = false
      ∧ Contains (replaceCommonIdents order x) "\\'" = false :=
  ⟨order_no_sentinel order hperm x hdate, order_no_escaped_quote order hperm x hquote⟩

/-- C14 (witness): a text with an escaped quote and a sentinel date. -/
theorem replaceCommonIdents_no_sentinel_no_escaped_quote_witness :
    replaceCommonIdents replaceCharsTable "it\\'s 0000-00-00 00:00:00"
        = "it''s 0001-01-01 00:00:00"
      ∧ Contains (replaceCommonIdents replaceCharsTable "it\\'s 0000-00-00 00:00:00")
          "0000-00-00 00:00:00" = false
      ∧ Contains (replaceCommonIdents replaceCharsTable "it\\'s 0000-00-00 00:00:00")
          "\\'" = false :=
  ⟨rfl, replaceCommonIdents_no_sentinel_no_escaped_quote replaceCharsTable (List.Perm.refl _)
    "it\\'s 0000-00-00 00:00:00" (by decide) (by decide)⟩

/-- C21: for every `DBDDL`, `convertDBDDL` yields for action `create` a `DMDBDDL` that
prints `create schema NAME`, for action `drop` one that prints `drop schema NAME`
when `IfExists` is false and `drop schema if exists NAME` when it is true, `NAME`
being the database name of the statement, and for every other action the nil
statement. -/
theorem convertDBDDL_renders (c : OracleConverter) (x : Externals) (heap : Heap)
    (stmt : DBDDL) :
    (stmt.Action = CreateStr →
        ∃ d, c.convertDBDDL stmt = some (.dmdbddl d)
          ∧ Statement.Format x heap (.dmdbddl d) = "create schema " ++ stmt.DBName)
      ∧ (stmt.Action = DropStr →
        ∃ d, c.convertDBDDL stmt = some (.dmdbddl d)
          ∧ (stmt.IfExists = false →
              Statement.Format x heap (.dmdbddl d) = "drop schema " ++ stmt.DBName)
          ∧ (stmt.IfExists = true →
              Statement.Format x heap (.dmdbddl d) = "drop schema if exists " ++ stmt.DBName))
      ∧ (stmt.Action ≠ CreateStr → stmt.Action ≠ DropStr → c.convertDBDDL stmt = none) := by
  refine ⟨?_, ?_, ?_⟩
  · intro h
    refine ⟨{ Action := stmt.Action, DBName := stmt.DBName, IfExists := stmt.IfExists,
              Charset := stmt.Charset, Collate := stmt.Collate },
      by simp [OracleConverter.convertDBDDL, h], ?_⟩
    simp [Statement.Format, DMDBDDL.Format, h, CreateStr]
  · intro h
    have hne : ¬ stmt.Action = CreateStr := by rw [h]; decide
    refine ⟨{ Action := stmt.Action, DBName := stmt.DBName, IfExists := stmt.IfExists,
              Charset := stmt.Charset, Collate := stmt.Collate },
      by simp [OracleConverter.convertDBDDL, h, hne], ?_, ?_⟩
    · intro hif
      simp [Statement.Format, DMDBDDL.Format, h, hif, DropStr, CreateStr, String.append_assoc]
    · intro hif
      simp [Statement.Format, DMDBDDL.Format, h, hif, DropStr, CreateStr, String.append_assoc]
  · intro h1 h2
    simp [OracleConverter.convertDBDDL, h1, h2]

/-- C22 (code evaluated at the failing input): for the column list `(a, a)` and the
recorded indexes `ab (a, b)` and `a (a)`, `getUniqueConditionColumns` counts two
matches for each index: it returns `(a, b)`, whose column `b` is not in the column
list, and leaves out `(a)`, whose only column is. -/
theorem getUniqueConditionColumns_counts_matches :
    catalogTwoIndexes.getUniqueConditionColumns replaceRepeatedColumn = [["a", "b"]] := by
  decide

/-- C23 (code evaluated at the failing input): for `REPLACE INTO t (a, b, c) VALUES
(x0, x1 + x2, x3)` with the unique index `(a)`, `getInsertValues` lists the scalar
nodes `x0, x1, x2, x3` and `buildMatchedExpr` takes them by column position: the
`Matched` of the `Merge` is `b = x1, c = x2`, not `b = x1 + x2, c = x3`. -/
theorem buildMatchedExpr_takes_scalar_nodes :
    ∃ m, catalogKeyA.convertInsert replaceWithSum = .ok (.merge m)
      ∧ m.Matched.map (fun e => e.Name.Name) = ["b", "c"]
      ∧ m.Matched.map (fun e => e.Expr.sqlVals) = [[1], [2]]
      ∧ m.Table.RightExpr.Rows.map Expr.sqlValsList = [[0, 1, 2, 3]] :=
  ⟨_, rfl, rfl, rfl, rfl⟩

/-- C27 (code evaluated at the failing input): `REPLACE INTO t (id, a, b) VALUES
(:v1, :v2, :v3)` with the auto-increment column `id` and the unique index `(a)`,
converted with the arguments `w, x, y`. The row left by the strip and the
`Matched` assignment to `b` hold the same value node; its second visit reads the
number written by the first one, so the returned vector is `x, y, x` and the
placeholder of `b`, `:v3`, is bound to `x` while the input bound the value of `b`
to `y`. -/
theorem convertStmt_rebinds_shared_node :
    ∃ m heap,
      catalogIdAndKeyA.convertStmt (.insert replaceThreeCols) placeholderHeap ["w", "x", "y"]
          = .ok (some (.merge m), heap, ["x", "y", "x"])
        ∧ m.Table.RightExpr.Rows.map Expr.sqlValsList = [[1, 2]]
        ∧ m.Matched.map (fun e => (e.Name.Name, e.Expr.sqlVals)) = [("b", [2])]
        ∧ (placeholderHeap 2).Val = ":v3"
        ∧ (heap 1).Val = ":v1" ∧ (heap 2).Val = ":v3" :=
  ⟨_, _, rfl, rfl, rfl, rfl, rfl, rfl⟩

/-- C30 (code evaluated at the failing inputs): for a CREATE written on one line
`lists[len(lists)-2]` is `lists[-1]`; for a CREATE whose second and last lines are
constraint lines the re-read last element makes `lists[i+1:]` exceed the length:
`SplitFk` panics on both. -/
theorem SplitFk_panics :
    SplitFk sampleExternals "create table t (a int)" = .error "index out of range"
      ∧ SplitFk sampleExternals
          "create table t (\n constraint f1,\n a int,\n constraint f2)"
        = .error "slice bounds out of range" :=
  ⟨rfl, rfl⟩

/-- C28: `DmColumnType.Format` writes the base type and then, when there is any
option, one blank and the options joined by single blanks; the options are, in
this order: `PRIMARY KEY` exactly when the key option is the primary key; the
keywords NOT and NULL exactly when the column is not null; `IDENTITY(seed,1)`
exactly when the column is flagged auto-increment and its type is `bigint`,
`integer` or `int`, the seed being the recorded one, or 1 when none is recorded;
the keyword DEFAULT with the default text exactly when there is a default literal;
the keyword COMMENT with the printed comment exactly when there is a comment; the
keyword KEY exactly when the key option is the plain key (keywords as the table
`keywordStrings` spells them). The rendered text does not depend on the charset,
the collation, the unsigned and zerofill flags, the `ON UPDATE` value or the enum
values, and is the same for a unique, unique-key or spatial key option as for no
key option. A `bigint` column with every option renders
`bigint PRIMARY KEY not null IDENTITY(7,1) default 5 comment 'n'`. -/
theorem DmColumnType_options_order (x : Externals) (dct : DmColumnType) :
    dct.Format x = dct.baseText x
        ++ (if (dct.opts x).length ≠ 0 then " " ++ " ".intercalate (dct.opts x) else "")
      ∧ dct.opts x
          = (if dct.KeyOpt = .colKeyPrimary then ["PRIMARY KEY"] else [])
            ++ (if dct.NotNull = true then [x.keywordStrings .NOT, x.keywordStrings .NULL]
                else [])
            ++ (if dct.Autoincrement = true
                    ∧ (dct.Typ = "bigint" ∨ dct.Typ = "integer" ∨ dct.Typ = "int") then
                  ["IDENTITY(" ++ (if dct.AutoIncrement = "" then "1" else dct.AutoIncrement)
                    ++ ",1)"]
                else [])
            ++ (match dct.Default with
                | none => []
                | some d =>
                  [x.keywordStrings .DEFAULT,
                   if dct.Typ = "timestamp" ∨ dct.Typ = "datetime" then
                     (if d.Val = "current_timestamp" then "CURRENT_TIMESTAMP" else "NULL")
                   else if dct.Typ = "char" ∨ dct.Typ = "varchar" then d.Format x
                   else d.Val])
            ++ (match dct.Comment with
                | none => []
                | some cm => [x.keywordStrings .COMMENT_KEYWORD, cm.Format x])
            ++ (if dct.KeyOpt = .colKey then [x.keywordStrings .KEY] else [])
      ∧ (∀ (charset collate : String) (unsigned zerofill : Bool) (onUpdate : Option SQLVal)
          (enumValues : List String),
          DmColumnType.Format x { dct with
              Charset := charset, Collate := collate, Unsigned := unsigned,
              Zerofill := zerofill, OnUpdate := onUpdate, EnumValues := enumValues }
            = dct.Format x)
      ∧ (dct.KeyOpt = .colKeyUnique ∨ dct.KeyOpt = .colKeyUniqueKey
            ∨ dct.KeyOpt = .colKeySpatialKey →
          dct.Format x = DmColumnType.Format x { dct with KeyOpt := .colKeyNone })
      ∧ bigintAllOptions.Format sampleExternals
          = "bigint PRIMARY KEY not null IDENTITY(7,1) default 5 comment 'n'"
      ∧ DmColumnType.Format sampleExternals
            { bigintAllOptions with KeyOpt := .colKey, Typ := "smallint", NotNull := false }
          = "smallint default 5 comment 'n' key" := by
  have hid : dct.identityOpts
      = (if dct.Autoincrement = true
            ∧ (dct.Typ = "bigint" ∨ dct.Typ = "integer" ∨ dct.Typ = "int") then
          ["IDENTITY(" ++ (if dct.AutoIncrement = "" then "1" else dct.AutoIncrement) ++ ",1)"]
        else []) := by
    unfold DmColumnType.identityOpts
    by_cases ha : dct.Autoincrement = true
    · by_cases ht : dct.Typ = "bigint" ∨ dct.Typ = "integer" ∨ dct.Typ = "int"
      · by_cases hs : dct.AutoIncrement = ""
        · simp [ha, ht, hs]
        · simp [ha, ht, hs]
      · simp [ha, ht]
    · simp [ha]
  have hdef : dct.defaultOpts x
      = (match dct.Default with
          | none => []
          | some d =>
            [x.keywordStrings .DEFAULT,
             if dct.Typ = "timestamp" ∨ dct.Typ = "datetime" then
               (if d.Val = "current_timestamp" then "CURRENT_TIMESTAMP" else "NULL")
             else if dct.Typ = "char" ∨ dct.Typ = "varchar" then d.Format x
             else d.Val]) := by
    unfold DmColumnType.defaultOpts
    cases dct.Default with
    | none => rfl
    | some d =>
      simp only
      by_cases h1 : dct.Typ = "timestamp"
      · by_cases hv : d.Val = "current_timestamp"
        · simp [h1, hv]
        · simp [h1, hv]
      · by_cases h2 : dct.Typ = "datetime"
        · by_cases hv : d.Val = "current_timestamp"
          · simp [h1, h2, hv]
          · simp [h1, h2, hv]
        · simp [h1, h2]
  have hcm : dct.commentOpts x
      = (match dct.Comment with
          | none => []
          | some cm => [x.keywordStrings .COMMENT_KEYWORD, cm.Format x]) := by
    unfold DmColumnType.commentOpts
    rfl
  refine ⟨rfl, ?_, fun _ _ _ _ _ _ => rfl, ?_, rfl, rfl⟩
  · unfold DmColumnType.opts
    rw [hid, hdef, hcm]
    rfl
  · intro hk
    have h1 : dct.KeyOpt ≠ .colKeyPrimary := by
      rcases hk with h | h | h <;> rw [h] <;> decide
    have h2 : dct.KeyOpt ≠ .colKey := by
      rcases hk with h | h | h <;> rw [h] <;> decide
    simp [DmColumnType.Format, DmColumnType.opts, DmColumnType.primaryOpts,
      DmColumnType.keyOpts, DmColumnType.baseText, DmColumnType.notNullOpts,
      DmColumnType.identityOpts, DmColumnType.defaultOpts, DmColumnType.commentOpts, h1, h2]

/-- C29 (counterexample): for `c char(1) DEFAULT 0` the default is printed as the
number `0`, not as the quoted string literal `'0'`. -/
theorem DmColumnType_char_default_unquoted :
    charDefaultZero.defaultOpts sampleExternals = ["default", "0"]
      ∧ sampleExternals.EncodeSQL "0" = "'0'"
      ∧ charDefaultZero.Format sampleExternals = "char(1) default 0" :=
  ⟨rfl, rfl, rfl⟩

/-- C29 (amended): for a column type with a default literal `d`, the default option
is the keyword DEFAULT followed, for type `timestamp` or `datetime`, by
`CURRENT_TIMESTAMP` when the text of `d` is `current_timestamp` and by `NULL`
otherwise; for type `char` or `varchar`, by `d` as the parser prints it, quoted
when `d` is a string literal and as its own text when it is a number; and for
every other type by the text of `d`. -/
theorem DmColumnType_default (x : Externals) (dct : DmColumnType) (d : SQLVal)
    (hd : dct.Default = some d) :
    (dct.Typ = "timestamp" ∨ dct.Typ = "datetime" →
        dct.defaultOpts x
          = [x.keywordStrings .DEFAULT,
             if d.Val = "current_timestamp" then "CURRENT_TIMESTAMP" else "NULL"])
      ∧ (dct.Typ = "char" ∨ dct.Typ = "varchar" →
        dct.defaultOpts x = [x.keywordStrings .DEFAULT, d.Format x])
      ∧ (d.Typ = .StrVal → d.Format x = x.EncodeSQL d.Val)
      ∧ (d.Typ = .IntVal ∨ d.Typ = .FloatVal → d.Format x = d.Val)
      ∧ (dct.Typ ∉ ["timestamp", "datetime", "char", "varchar"] →
        dct.defaultOpts x = [x.keywordStrings .DEFAULT, d.Val]) := by
  refine ⟨?_, ?_, ?_, ?_, ?_⟩
  · intro h
    unfold DmColumnType.defaultOpts
    rw [hd]
    rcases h with h | h
    · simp only [h, if_true]
      split_ifs <;> rfl
    · have hne : ¬ ("datetime" = "timestamp") := by decide
      simp only [h, hne, if_false, if_true]
      split_ifs <;> rfl
  · intro h
    unfold DmColumnType.defaultOpts
    rw [hd]
    rcases h with h | h
    · have h1 : ¬ ("char" = "timestamp") := by decide
      have h2 : ¬ ("char" = "datetime") := by decide
      simp [h, h1, h2]
    · have h1 : ¬ ("varchar" = "timestamp") := by decide
      have h2 : ¬ ("varchar" = "datetime") := by decide
      simp [h, h1, h2]
  · intro h
    simp [SQLVal.Format, h]
  · intro h
    rcases h with h | h <;> simp [SQLVal.Format, h]
  · intro h
    simp only [List.mem_cons, List.mem_singleton, not_or, List.not_mem_nil, or_false] at h
    obtain ⟨h1, h2, h3, h4⟩ := h
    unfold DmColumnType.defaultOpts
    rw [hd]
    simp [h1, h2, h3, h4]

/-- C29 (witness): a `datetime` column with the default `current_timestamp`. -/
theorem DmColumnType_default_witness :
    datetimeDefaultNow.defaultOpts sampleExternals = ["default", "CURRENT_TIMESTAMP"]
      ∧ datetimeDefaultNow.Format sampleExternals
          = "timestamp PRIMARY KEY not null default CURRENT_TIMESTAMP comment 'made'" :=
  ⟨(DmColumnType_default sampleExternals datetimeDefaultNow _ rfl).1 (Or.inr rfl), rfl⟩

/-! ### The Merge: helper lemmas -/

theorem foldl_enumFrom_pos {β γ : Type} (first : γ → β) (step : β → γ → β) (l : List γ) :
    ∀ (k : Nat) (acc : β), 1 ≤ k →
      (l.enumFrom k).foldl
          (fun (acc : β) (jc : Nat × γ) => if jc.1 = 0 then first jc.2 else step acc jc.2) acc
        = l.foldl step acc := by
  induction l with
  | nil => intro k acc _; rfl
  | cons e es ih =>
    intro k acc hk
    have hk0 : ¬ k = 0 := by omega
    simp only [List.enumFrom_cons, List.foldl_cons, if_neg hk0]
    exact ih (k + 1) _ (by omega)

theorem andOfComparisons_eq (l : List Expr) :
    andOfComparisons l = specLeftNested .andExpr l := by
  cases l with
  | nil => rfl
  | cons e es =>
    unfold andOfComparisons specLeftNested
    simp only [List.enum, List.enumFrom_cons, List.foldl_cons, if_true]
    exact foldl_enumFrom_pos (fun e => e) Expr.andExpr es 1 e (by omega)

theorem buildJoinConditions_eq (stmt : Insert) (condcols : List (List String)) :
    buildJoinConditions stmt condcols = specJoinCondition stmt.Columns condcols := by
  have hcmp : ∀ T : List String,
      andOfComparisons (buildComparisons stmt T)
        = specLeftNested .andExpr
            ((stmt.Columns.filter fun column => decide (column ∈ T)).map specComparison) := by
    intro T
    rw [andOfComparisons_eq, buildComparisons_eq]
    have hf : (fun column : ColIdent => StringIn column T)
        = (fun column : ColIdent => decide (column ∈ T)) := by
      funext column
      simp [StringIn]
    rw [hf]
    rfl
  cases condcols with
  | nil => rfl
  | cons T Ts =>
    unfold buildJoinConditions specJoinCondition
    simp only [List.map_cons, List.length_cons, Nat.add_one_ne_zero, if_false, List.enum,
      List.enumFrom_cons, List.foldl_cons, if_true]
    rw [foldl_enumFrom_pos andOfComparisons
      (fun (acc : Expr) (l : List Expr) => Expr.orExpr acc (andOfComparisons l))
      (Ts.map (buildComparisons stmt)) 1 _ (by omega)]
    rw [List.foldl_map, hcmp T]
    change _ = List.foldl Expr.orExpr _ (List.map _ Ts)
    rw [List.foldl_map]
    congr 1
    funext acc T1
    rw [hcmp T1]

theorem filter_mem_singleton {columns : List ColIdent} (hnodup : columns.Nodup)
    (col : String) (hcol : col ∈ columns) :
    (columns.filter fun column => decide (column = col)) = [col] := by
  induction columns with
  | nil => cases hcol
  | cons a as ih =>
    rw [List.nodup_cons] at hnodup
    by_cases ha : a = col
    · subst ha
      simp only [List.filter_cons, decide_True, if_true, List.cons.injEq, true_and]
      rw [List.filter_eq_nil_iff]
      intro b hb
      simp only [decide_eq_true_eq]
      intro hba
      exact hnodup.1 (hba ▸ hb)
    · have hmem : col ∈ as := by
        rcases List.mem_cons.mp hcol with h | h
        · exact absurd h.symm ha
        · exact h
      simp only [List.filter_cons, ha, decide_False, Bool.false_eq_true, if_false]
      exact ih hnodup.2 hmem

theorem colNames_foldl (P : ColName → Prop) (op : Expr → Expr → Expr)
    (hop : ∀ l r, (op l r).colNames = l.colNames ++ r.colNames) (es : List Expr) :
    ∀ acc : Expr, (∀ col ∈ acc.colNames, P col) → (∀ e ∈ es, ∀ col ∈ e.colNames, P col) →
      ∀ col ∈ (es.foldl op acc).colNames, P col := by
  induction es with
  | nil => intro acc hacc _; simpa using hacc
  | cons e es ih =>
    intro acc hacc hes
    rw [List.foldl_cons]
    refine ih _ ?_ (fun e1 he1 => hes e1 (List.mem_cons_of_mem _ he1))
    intro col hcol
    rw [hop, List.mem_append] at hcol
    rcases hcol with h | h
    · exact hacc col h
    · exact hes e (List.mem_cons_self _ _) col h

theorem colNames_specLeftNested (P : ColName → Prop) (op : Expr → Expr → Expr)
    (hop : ∀ l r, (op l r).colNames = l.colNames ++ r.colNames) (es : List Expr)
    (hes : ∀ e ∈ es, ∀ col ∈ e.colNames, P col) :
    ∀ col ∈ (specLeftNested op es).colNames, P col := by
  cases es with
  | nil => intro col hcol; simp [specLeftNested, Expr.colNames] at hcol
  | cons e es =>
    exact colNames_foldl P op hop es e (hes e (List.mem_cons_self _ _))
      (fun e1 he1 => hes e1 (List.mem_cons_of_mem _ he1))

theorem colNames_specJoinCondition (columns : List ColIdent) (condcols : List (List String)) :
    ∀ col ∈ (specJoinCondition columns condcols).colNames,
      col.Qualifier = { Name := "t", Qualifier := "" }
        ∨ col.Qualifier = { Name := "s", Qualifier := "" } := by
  unfold specJoinCondition
  refine colNames_specLeftNested
    (fun col => col.Qualifier = { Name := "t", Qualifier := "" }
      ∨ col.Qualifier = { Name := "s", Qualifier := "" })
    Expr.orExpr (fun l r => by simp [Expr.colNames]) _ ?_
  intro e he
  rw [List.mem_map] at he
  obtain ⟨T, _, rfl⟩ := he
  refine colNames_specLeftNested
    (fun col => col.Qualifier = { Name := "t", Qualifier := "" }
      ∨ col.Qualifier = { Name := "s", Qualifier := "" })
    Expr.andExpr (fun l r => by simp [Expr.colNames]) _ ?_
  intro e1 he1
  rw [List.mem_map] at he1
  obtain ⟨column, _, rfl⟩ := he1
  intro col hcol
  simp only [specComparison, Expr.colNames, List.singleton_append, List.mem_cons,
    List.mem_singleton, List.not_mem_nil, or_false] at hcol
  rcases hcol with h | h
  · exact Or.inl (by rw [h])
  · exact Or.inr (by rw [h])

mutual
theorem colNames_setQualifier (e : Expr) :
    ∀ col ∈ e.setQualifier.colNames, col.Qualifier = { Name := "t", Qualifier := "" } := by
  cases e with
  | nilExpr => intro col h; simp [Expr.setQualifier, Expr.colNames] at h
  | sqlVal p => intro col h; simp [Expr.setQualifier, Expr.colNames] at h
  | nullVal => intro col h; simp [Expr.setQualifier, Expr.colNames] at h
  | boolVal b => intro col h; simp [Expr.setQualifier, Expr.colNames] at h
  | colName c =>
    intro col h
    simp only [Expr.setQualifier, Expr.colNames, List.mem_singleton] at h
    rw [h]
  | andExpr l r =>
    intro col h
    simp only [Expr.setQualifier, Expr.colNames, List.mem_append] at h
    rcases h with h | h
    · exact colNames_setQualifier l col h
    · exact colNames_setQualifier r col h
  | orExpr l r =>
    intro col h
    simp only [Expr.setQualifier, Expr.colNames, List.mem_append] at h
    rcases h with h | h
    · exact colNames_setQualifier l col h
    · exact colNames_setQualifier r col h
  | notExpr e1 =>
    intro col h
    simp only [Expr.setQualifier, Expr.colNames] at h
    exact colNames_setQualifier e1 col h
  | parenExpr e1 =>
    intro col h
    simp only [Expr.setQualifier, Expr.colNames] at h
    exact colNames_setQualifier e1 col h
  | comparisonExpr op l r =>
    intro col h
    simp only [Expr.setQualifier, Expr.colNames, List.mem_append] at h
    rcases h with h | h
    · exact colNames_setQualifier l col h
    · exact colNames_setQualifier r col h
  | binaryExpr op l r =>
    intro col h
    simp only [Expr.setQualifier, Expr.colNames, List.mem_append] at h
    rcases h with h | h
    · exact colNames_setQualifier l col h
    · exact colNames_setQualifier r col h
  | funcExpr name args =>
    intro col h
    simp only [Expr.setQualifier, Expr.colNames] at h
    exact colNamesList_setQualifierList args col h
  | valTuple es =>
    intro col h
    simp only [Expr.setQualifier, Expr.colNames] at h
    exact colNamesList_setQualifierList es col h
theorem colNamesList_setQualifierList (es : List Expr) :
    ∀ col ∈ Expr.colNamesList (Expr.setQualifierList es),
      col.Qualifier = { Name := "t", Qualifier := "" } := by
  cases es with
  | nil => intro col h; simp [Expr.setQualifierList, Expr.colNamesList] at h
  | cons e es =>
    intro col h
    simp only [Expr.setQualifierList, Expr.colNamesList, List.mem_append] at h
    rcases h with h | h
    · exact colNames_setQualifier e col h
    · exact colNamesList_setQualifierList es col h
end

theorem convertInsert_merge_inv (c : OracleConverter) (stmt : Insert) (m : Merge)
    (h : c.convertInsert stmt = .ok (.merge m)) :
    ∃ matchedExpr,
      m = { Comments := (c.convertInsertIncrement stmt).Comments
            Table :=
              { LeftExpr := .aliased (c.convertInsertIncrement stmt).Table [] "t" none
                RightExpr := buildRightTableExpr (c.convertInsertIncrement stmt)
                Condition := buildJoinConditions (c.convertInsertIncrement stmt)
                  (c.getUniqueConditionColumns (c.convertInsertIncrement stmt)) }
            Matched := setQualifierForCols matchedExpr
            Unmatched :=
              { Columns := (c.convertInsertIncrement stmt).Columns
                Values := buildValuesExpr (c.convertInsertIncrement stmt) } } := by
  unfold OracleConverter.convertInsert at h
  simp only at h
  split at h
  · cases h
  · split at h
    · cases h
    · split at h
      · cases h
      · split at h
        · cases h
        · rename_i matchedExpr hmatched
          split at h
          · cases h
          · rename_i tableExpr htable
            split at h
            · cases h
            · injection h with h
              injection h with h
              subst h
              refine ⟨matchedExpr, ?_⟩
              unfold OracleConverter.buildMergeTableExpr at htable
              simp only at htable
              split at htable
              · cases htable
              · injection htable with htable
                rw [← htable]

theorem exprsNodes_scalar_rows (rows : List (List Expr))
    (hrows : ∀ row ∈ rows, Expr.exprsNodesList row = []) :
    (InsertRows.values rows).exprsNodes = rows := by
  have gen : (rows.map (fun row => row :: Expr.exprsNodesList row)).flatten = rows := by
    induction rows with
    | nil => rfl
    | cons row rows ih =>
      simp only [List.map_cons, List.flatten_cons, hrows row (List.mem_cons_self _ _),
        List.singleton_append]
      rw [ih (fun r hr => hrows r (List.mem_cons_of_mem _ hr))]
  exact gen

/-- C24: for every `Insert` whose column list has no repeated name and every
non-empty list of condition tuples, each non-empty and covered by the column list,
`buildJoinConditions` returns the left-nested OR, over the tuples, of the
left-nested AND of the comparisons `t.c = s.c` of one list of columns per tuple;
that list has no repeated name and holds exactly the columns of the tuple (it is
not empty); and for a single tuple with a single column the result is that
column's comparison alone. -/
theorem buildJoinConditions_left_nested (stmt : Insert) (condcols : List (List String))
    (hnodup : stmt.Columns.Nodup) (hne : condcols ≠ [])
    (hcov : ∀ T ∈ condcols, T ≠ [] ∧ ∀ v ∈ T, v ∈ stmt.Columns) :
    buildJoinConditions stmt condcols
        = specLeftNested .orExpr
            (condcols.map fun T =>
              specLeftNested .andExpr
                ((stmt.Columns.filter fun column => decide (column ∈ T)).map specComparison))
      ∧ (∀ T ∈ condcols,
          (stmt.Columns.filter fun column => decide (column ∈ T)).Nodup
            ∧ (stmt.Columns.filter fun column => decide (column ∈ T)) ≠ []
            ∧ ∀ v, v ∈ (stmt.Columns.filter fun column => decide (column ∈ T)) ↔ v ∈ T)
      ∧ (∀ col, condcols = [[col]] → buildJoinConditions stmt condcols = specComparison col)
      ∧ (buildJoinConditions stmt condcols).isNil = false := by
  refine ⟨buildJoinConditions_eq stmt condcols, ?_, ?_, ?_⟩
  · intro T hT
    obtain ⟨hTne, hTcov⟩ := hcov T hT
    have hmem : ∀ v, v ∈ (stmt.Columns.filter fun column => decide (column ∈ T)) ↔ v ∈ T := by
      intro v
      simp only [List.mem_filter, decide_eq_true_eq]
      exact ⟨fun h => h.2, fun h => ⟨hTcov v h, h⟩⟩
    refine ⟨hnodup.filter _, ?_, hmem⟩
    intro hnil
    cases T with
    | nil => exact hTne rfl
    | cons v vs =>
      have hv := (hmem v).2 (List.mem_cons_self _ _)
      rw [hnil] at hv
      cases hv
  · intro col hcol
    subst hcol
    rw [buildJoinConditions_eq]
    have hin : col ∈ stmt.Columns := (hcov [col] (List.mem_singleton.mpr rfl)).2 col
      (List.mem_singleton.mpr rfl)
    simp only [specJoinCondition, List.map_cons, List.map_nil, List.mem_singleton]
    rw [filter_mem_singleton hnodup col hin]
    rfl
  · cases condcols with
    | nil => exact absurd rfl hne
    | cons T Ts =>
      apply buildJoinConditions_not_nil
      intro _
      obtain ⟨hTne, hTcov⟩ := hcov T (List.mem_cons_self _ _)
      cases T with
      | nil => exact absurd rfl hTne
      | cons v vs => exact ⟨v, hTcov v (List.mem_cons_self _ _), List.mem_cons_self _ _⟩

/-- C24 (witness): the columns `(a, b, c)` and the tuples `(a, b)` and `(c)`: the
condition is `(t.a = s.a AND t.b = s.b) OR t.c = s.c`. -/
theorem buildJoinConditions_left_nested_witness :
    buildJoinConditions replaceWithSum [["a", "b"], ["c"]]
        = .orExpr (.andExpr (specComparison "a") (specComparison "b")) (specComparison "c")
      ∧ buildJoinConditions replaceWithSum [["c"]] = specComparison "c" :=
  ⟨(buildJoinConditions_left_nested replaceWithSum [["a", "b"], ["c"]] (by decide) (by decide)
      (by decide)).1.trans rfl,
    (buildJoinConditions_left_nested replaceWithSum [["c"]] (by decide) (by decide)
      (by decide)).2.2.1 "c" rfl⟩

/-- C25: for every `Insert` with rows of values that hold no tuple, which
`convertInsert` rewrites into a `Merge`: `Table.Left` is the insert's table aliased
`t`; `Table.Right` is a virtual table named `s` whose column list is the insert's
column list and which holds exactly one select-tuple per row of the insert, with
that row's values in order; `Unmatched.Columns` is the insert's column list; and
`Unmatched.Values` has the length of the column list, with `Values[i]` the column
reference `s.Columns[i]`. `convertInsert` rewrites the `*Insert` it is given in
place in its first step, `convertInsertIncrement`, and builds the `Merge` from it:
the insert's column list and rows are those of `c.convertInsertIncrement stmt`. -/
theorem convertInsert_merge_shape (c : OracleConverter) (stmt : Insert) (m : Merge)
    (rows : List (List Expr))
    (h : c.convertInsert stmt = .ok (.merge m))
    (hrows : (c.convertInsertIncrement stmt).Rows = .values rows)
    (hscalar : ∀ row ∈ rows, Expr.exprsNodesList row = []) :
    m.Table.LeftExpr = .aliased stmt.Table [] "t" none
      ∧ m.Table.RightExpr.TableName = "s"
      ∧ m.Table.RightExpr.Columns = (c.convertInsertIncrement stmt).Columns
      ∧ m.Table.RightExpr.Rows = rows
      ∧ m.Unmatched.Columns = (c.convertInsertIncrement stmt).Columns
      ∧ m.Unmatched.Values.length = (c.convertInsertIncrement stmt).Columns.length
      ∧ (∀ (i : Nat) (hi : i < (c.convertInsertIncrement stmt).Columns.length),
          m.Unmatched.Values.get? i
            = some { Name := (c.convertInsertIncrement stmt).Columns.get ⟨i, hi⟩,
                     Qualifier := { Name := "s", Qualifier := "" } }) := by
  obtain ⟨matchedExpr, hm⟩ := convertInsert_merge_inv c stmt m h
  subst hm
  refine ⟨?_, rfl, rfl, ?_, rfl, ?_, ?_⟩
  · simp only [convertInsertIncrement_Table]
  · simp only [buildRightTableExpr, buildSelectValues, hrows]
    exact exprsNodes_scalar_rows rows hscalar
  · simp [buildValuesExpr]
  · intro i hi
    simp [buildValuesExpr, List.getElem?_map, List.getElem?_eq_getElem hi]

/-- C25 (witness): `REPLACE INTO t (id, a, b) VALUES (x0, x1, x2)` with the
auto-increment column `id` and the unique index `(a)`: the first step leaves the
columns `(a, b)` and the row `(x1, x2)`. -/
theorem convertInsert_merge_shape_witness :
    ∃ m, catalogIdAndKeyA.convertInsert replaceThreeCols = .ok (.merge m)
      ∧ m.Table.LeftExpr = .aliased replaceThreeCols.Table [] "t" none
      ∧ m.Table.RightExpr.TableName = "s"
      ∧ m.Table.RightExpr.Rows = [[.sqlVal 1, .sqlVal 2]]
      ∧ m.Unmatched.Values.length = 2 :=
  ⟨_, rfl,
    (convertInsert_merge_shape catalogIdAndKeyA replaceThreeCols _ [[.sqlVal 1, .sqlVal 2]]
      rfl rfl (by intro row hrow; rw [List.mem_singleton.mp hrow]; rfl)).1,
    rfl, rfl, rfl⟩

/-- C26: for every `Insert` that `convertInsert` rewrites into a `Merge`, every
assignment of `Merge.Matched` has a target with the table qualifier `t` and every
column reference inside its expression has the qualifier `t`; the table part and
the `Unmatched` part are those built before the qualifying step: the join
condition is the one `buildJoinConditions` built, each of its column references
having the qualifier `t` or `s`, and `Unmatched.Values` is the list
`buildValuesExpr` built, each reference having the qualifier `s`. -/
theorem convertInsert_matched_qualified (c : OracleConverter) (stmt : Insert) (m : Merge)
    (h : c.convertInsert stmt = .ok (.merge m)) :
    (∀ e ∈ m.Matched,
        e.Name.Qualifier = { Name := "t", Qualifier := "" }
          ∧ ∀ col ∈ e.Expr.colNames, col.Qualifier = { Name := "t", Qualifier := "" })
      ∧ m.Table.Condition
          = buildJoinConditions (c.convertInsertIncrement stmt)
              (c.getUniqueConditionColumns (c.convertInsertIncrement stmt))
      ∧ (∀ col ∈ m.Table.Condition.colNames,
          col.Qualifier = { Name := "t", Qualifier := "" }
            ∨ col.Qualifier = { Name := "s", Qualifier := "" })
      ∧ m.Unmatched.Values = buildValuesExpr (c.convertInsertIncrement stmt)
      ∧ (∀ v ∈ m.Unmatched.Values, v.Qualifier = { Name := "s", Qualifier := "" }) := by
  obtain ⟨matchedExpr, hm⟩ := convertInsert_merge_inv c stmt m h
  subst hm
  refine ⟨?_, rfl, ?_, rfl, ?_⟩
  · intro e he
    simp only [setQualifierForCols, List.mem_map] at he
    obtain ⟨e0, _, rfl⟩ := he
    exact ⟨rfl, colNames_setQualifier e0.Expr⟩
  · simp only
    rw [buildJoinConditions_eq]
    exact colNames_specJoinCondition _ _
  · intro v hv
    simp only [buildValuesExpr, List.mem_map] at hv
    obtain ⟨column, _, rfl⟩ := hv
    rfl

/-- C26 (witness): `INSERT INTO t (a, b) VALUES (x0, x1) ON DUPLICATE KEY UPDATE
b = b + x2` with the unique index `(a)`: the assignment becomes
`t.b = t.b + x2`. -/
theorem convertInsert_matched_qualified_witness :
    ∃ m, catalogKeyA.convertInsert insertOnDupReadsColumn = .ok (.merge m)
      ∧ m.Matched.map (fun e => (e.Name.Qualifier.Name, e.Expr.colNames.map (fun col => col.Qualifier.Name)))
          = [("t", ["t"])]
      ∧ m.Table.Condition.colNames.map (fun col => col.Qualifier.Name) = ["t", "s"]
      ∧ ∀ e ∈ m.Matched, e.Name.Qualifier = { Name := "t", Qualifier := "" } :=
  ⟨_, rfl, rfl, rfl,
    fun e he => ((convertInsert_matched_qualified catalogKeyA insertOnDupReadsColumn _ rfl).1
      e he).1⟩

/-! ### Order of the substitution rules: helper lemmas -/

theorem replaceChars_copy (o : Char) (os new w t : List Char) (hw : o ∉ w) :
    replaceChars (o :: os) new 0 (w ++ t) = w ++ replaceChars (o :: os) new 0 t := by
  induction w with
  | nil => rfl
  | cons c w ih =>
    have hoc : ¬ o = c := fun h => hw (h ▸ List.mem_cons_self _ _)
    have hno : (o :: os).isPrefixOf (c :: (w ++ t)) = false := by
      simp [List.isPrefixOf, hoc]
    rw [List.cons_append, replaceChars_nomatch _ _ _ _ hno,
      ih (fun h => hw (List.mem_cons_of_mem _ h))]
    rfl

theorem replaceChars_match_side (oa na ob nb : List Char) (hoa : oa ≠ []) (hob : ob ≠ [])
    (h1 : ∀ ch ∈ oa, ch ∉ ob) (h2 : ∀ ch ∈ ob, ch ∉ na) (s : List Char)
    (ha : oa.isPrefixOf s = true) :
    replaceChars oa na 0 (replaceChars ob nb 0 s)
        = na ++ replaceChars oa na 0 (replaceChars ob nb 0 (s.drop oa.length))
      ∧ replaceChars ob nb 0 (replaceChars oa na 0 s)
        = na ++ replaceChars ob nb 0 (replaceChars oa na 0 (s.drop oa.length)) := by
  cases ob with
  | nil => exact absurd rfl hob
  | cons b bs =>
    have hb_oa : b ∉ oa := fun h => h1 b h (List.mem_cons_self _ _)
    have hb_na : b ∉ na := h2 b (List.mem_cons_self _ _)
    constructor
    · have hB : replaceChars (b :: bs) nb 0 s
          = oa ++ replaceChars (b :: bs) nb 0 (s.drop oa.length) := by
        conv_lhs => rw [isPrefixOf_eq_append ha]
        exact replaceChars_copy b bs nb oa _ hb_oa
      rw [hB]
      have hpre : oa.isPrefixOf (oa ++ replaceChars (b :: bs) nb 0 (s.drop oa.length)) = true :=
        List.isPrefixOf_iff_prefix.mpr (List.prefix_append _ _)
      rw [replaceChars_match oa na hoa _ hpre, List.drop_left]
    · rw [replaceChars_match oa na hoa s ha]
      exact replaceChars_copy b bs nb na _ hb_na

theorem replaceChars_comm (oa na ob nb : List Char) (hoa : oa ≠ []) (hna : na ≠ [])
    (hob : ob ≠ []) (hnb : nb ≠ [])
    (hab : ∀ ch ∈ oa, ch ∉ ob ∧ ch ∉ nb) (hba : ∀ ch ∈ ob, ch ∉ na) :
    ∀ s : List Char,
      replaceChars oa na 0 (replaceChars ob nb 0 s)
        = replaceChars ob nb 0 (replaceChars oa na 0 s) := by
  have hba1 : ∀ ch ∈ ob, ch ∉ oa := fun ch hch h => (hab ch h).1 hch
  have key : ∀ (n : Nat) (s : List Char), s.length ≤ n →
      replaceChars oa na 0 (replaceChars ob nb 0 s)
        = replaceChars ob nb 0 (replaceChars oa na 0 s) := by
    intro n
    induction n with
    | zero =>
      intro s hs
      rw [List.length_eq_zero.mp (Nat.le_zero.mp hs)]
      rfl
    | succ n ih =>
      intro s hs
      cases s with
      | nil => rfl
      | cons c cs =>
        have hshort : ∀ (p : List Char), p ≠ [] → ((c :: cs).drop p.length).length ≤ n := by
          intro p hp
          have hpos : 0 < p.length := List.length_pos.mpr hp
          rw [List.length_drop]
          simp only [List.length_cons] at hs ⊢
          omega
        by_cases ha : oa.isPrefixOf (c :: cs) = true
        · obtain ⟨hl, hr⟩ := replaceChars_match_side oa na ob nb hoa hob
            (fun ch h => (hab ch h).1) hba (c :: cs) ha
          rw [hl, hr, ih _ (hshort oa hoa)]
        · by_cases hb : ob.isPrefixOf (c :: cs) = true
          · obtain ⟨hl, hr⟩ := replaceChars_match_side ob nb oa na hob hoa
              hba1 (fun ch h => (hab ch h).2) (c :: cs) hb
            rw [hl, hr, ih _ (hshort ob hob)]
          · have ha0 : oa.isPrefixOf (c :: cs) = false := Bool.eq_false_iff.mpr ha
            have hb0 : ob.isPrefixOf (c :: cs) = false := Bool.eq_false_iff.mpr hb
            have hA : replaceChars oa na 0 (c :: cs) = c :: replaceChars oa na 0 cs :=
              replaceChars_nomatch oa na c cs ha0
            have hB : replaceChars ob nb 0 (c :: cs) = c :: replaceChars ob nb 0 cs :=
              replaceChars_nomatch ob nb c cs hb0
            have ha1 : oa.isPrefixOf (c :: replaceChars ob nb 0 cs) = false := by
              cases hp : oa.isPrefixOf (c :: replaceChars ob nb 0 cs) with
              | false => rfl
              | true =>
                rw [← hB] at hp
                exact absurd
                  (replaceChars_prefix_reflected ob nb hob hnb (c :: cs) oa
                    (fun ch h => (hab ch h).2) hp) ha
            have hb1 : ob.isPrefixOf (c :: replaceChars oa na 0 cs) = false := by
              cases hp : ob.isPrefixOf (c :: replaceChars oa na 0 cs) with
              | false => rfl
              | true =>
                rw [← hA] at hp
                exact absurd
                  (replaceChars_prefix_reflected oa na hoa hna (c :: cs) ob hba hp) hb
            rw [hA, hB, replaceChars_nomatch oa na c _ ha1, replaceChars_nomatch ob nb c _ hb1,
              ih cs (by simp only [List.length_cons] at hs; omega)]
  intro s
  exact key s.length s (Nat.le_refl _)

theorem ReplaceAll_comm (o1 n1 o2 n2 : String) (ho1 : o1.toList ≠ []) (hn1 : n1.toList ≠ [])
    (ho2 : o2.toList ≠ []) (hn2 : n2.toList ≠ [])
    (h12 : ∀ ch ∈ o1.toList, ch ∉ o2.toList ∧ ch ∉ n2.toList)
    (h21 : ∀ ch ∈ o2.toList, ch ∉ n1.toList) (s : String) :
    ReplaceAll (ReplaceAll s o1 n1) o2 n2 = ReplaceAll (ReplaceAll s o2 n2) o1 n1 := by
  show String.mk (replaceChars o2.toList n2.toList 0 (replaceChars o1.toList n1.toList 0 s.toList))
    = String.mk (replaceChars o1.toList n1.toList 0 (replaceChars o2.toList n2.toList 0 s.toList))
  rw [replaceChars_comm o2.toList n2.toList o1.toList n1.toList ho2 hn2 ho1 hn1
    (fun ch h => ⟨fun h1 => (h12 ch h1).1 h, h21 ch h⟩) (fun ch h => (h12 ch h).2)]

theorem backtick_sentinel_comm (s : String) :
    ReplaceAll (ReplaceAll s "`" "\"") "0000-00-00 00:00:00" "0001-01-01 00:00:00"
      = ReplaceAll (ReplaceAll s "0000-00-00 00:00:00" "0001-01-01 00:00:00") "`" "\"" :=
  ReplaceAll_comm "`" "\"" "0000-00-00 00:00:00" "0001-01-01 00:00:00"
    (by decide) (by decide) (by decide) (by decide) (by decide) (by decide) s

theorem backtick_quote_comm (s : String) :
    ReplaceAll (ReplaceAll s "`" "\"") "\\'" "''"
      = ReplaceAll (ReplaceAll s "\\'" "''") "`" "\"" :=
  ReplaceAll_comm "`" "\"" "\\'" "''"
    (by decide) (by decide) (by decide) (by decide) (by decide) (by decide) s

theorem sentinel_quote_comm (s : String) :
    ReplaceAll (ReplaceAll s "0000-00-00 00:00:00" "0001-01-01 00:00:00") "\\'" "''"
      = ReplaceAll (ReplaceAll s "\\'" "''") "0000-00-00 00:00:00" "0001-01-01 00:00:00" :=
  ReplaceAll_comm "0000-00-00 00:00:00" "0001-01-01 00:00:00" "\\'" "''"
    (by decide) (by decide) (by decide) (by decide) (by decide) (by decide) s

theorem replaceCharsTable_comm :
    ∀ x ∈ replaceCharsTable, ∀ y ∈ replaceCharsTable, ∀ z : String,
      ReplaceAll (ReplaceAll z x.1 x.2) y.1 y.2 = ReplaceAll (ReplaceAll z y.1 y.2) x.1 x.2 := by
  intro x hx y hy z
  simp only [replaceCharsTable, List.mem_cons, List.mem_singleton, List.not_mem_nil,
    or_false] at hx hy
  rcases hx with rfl | rfl | rfl <;> rcases hy with rfl | rfl | rfl
  · rfl
  · exact backtick_sentinel_comm z
  · exact backtick_quote_comm z
  · exact (backtick_sentinel_comm z).symm
  · rfl
  · exact sentinel_quote_comm z
  · exact (backtick_quote_comm z).symm
  · exact (sentinel_quote_comm z).symm
  · rfl

/-- C31: for every input text and every order in which the three rules of
`replaceChars` (backtick to double quote, `0000-00-00 00:00:00` to
`0001-01-01 00:00:00`, backslash-quote to two quotes) are applied, each as one
whole-text replacement, `replaceCommonIdents` gives the text it gives for the
order of the table: the order of the map iteration does not change the result. -/
theorem replaceCommonIdents_order_independent (order : List (String × String))
    (hperm : order.Perm replaceCharsTable) (sql : String) :
    replaceCommonIdents order sql = replaceCommonIdents replaceCharsTable sql := by
  unfold replaceCommonIdents
  exact (List.Perm.foldl_eq' hperm.symm replaceCharsTable_comm sql).symm

/-- C31 (witness): the three rules in the reverse order of the table, on a text
that holds a quoted identifier, a sentinel date and an escaped quote. -/
theorem replaceCommonIdents_order_independent_witness :
    replaceCommonIdents replaceCharsTable.reverse "`d` = '0000-00-00 00:00:00\\''"
        = replaceCommonIdents replaceCharsTable "`d` = '0000-00-00 00:00:00\\''"
      ∧ replaceCommonIdents replaceCharsTable.reverse "`d` = '0000-00-00 00:00:00\\''"
        = "\"d\" = '0001-01-01 00:00:00'''" :=
  ⟨replaceCommonIdents_order_independent replaceCharsTable.reverse (List.reverse_perm _) _, rfl⟩

/-- C32 (code evaluated at the failing inputs): for a `char` or `varchar` column
without a length `Format` writes no base type: `c char NOT NULL` renders the
options after a blank, and its column definition is the name followed by the
options; `v varchar` renders nothing, and its column definition is the name
followed by a blank. -/
theorem DmColumnType_no_length_no_base_type :
    charNoLength.baseText sampleExternals = ""
      ∧ charNoLength.Format sampleExternals = " not null"
      ∧ DmColumnDefinition.Format sampleExternals { Name := "c", Typ := charNoLength }
          = "c  not null"
      ∧ varcharNoLength.Format sampleExternals = ""
      ∧ DmColumnDefinition.Format sampleExternals { Name := "v", Typ := varcharNoLength }
          = "v " :=
  ⟨rfl, rfl, rfl, rfl, rfl⟩

end Sqlparser
